import Mathlib

/-!
# osso-bookmark-engine: a shallow embedding of `bookmark_parser.c`

Conventions of the embedding.

* A C string is a `String` read byte-wise (one `Char` per byte); a `gchar *`
  that may be `NULL` is an `Option String`.
* An `xmlNode *` of libxml2 is the node's position in the document: the list
  of child indices leading from the root element to it (`NodePtr`).  A function
  that walks `children`/`next` works on the list of siblings from the current
  node onward.
* The `BookmarkItem` objects live in a heap (`Heap`), a pointer being an index
  into it, so that the `parent` back-reference and the `list` of children are
  the pointers of the C structure.
* A `NULL` dereference (undefined behaviour, in practice a crash) is the
  result `none` of a function returning `Option`.
* The global `nodeptriter` is passed in and returned explicitly.
* What the code takes from libraries and from the system is a parameter: the
  entity functions of libxml2 (`bookmark_set_name`), the glib functions of the
  importer and the clock (`ImportEnv`), the files and the parser (`Files`).
* A recursion over the items and the loop over the lines of a file carry a
  `fuel` argument; the theorems say for which fuel the function returns.
-/

namespace OssoBookmark

/-! ## libc and glib helpers -/

/-- C `isspace` in the "C" locale. -/
def isspace (c : Char) : Bool :=
  c.toNat = 32 || (9 ≤ c.toNat && c.toNat ≤ 13)

/-- C `isdigit`. -/
def isdigit (c : Char) : Bool :=
  48 ≤ c.toNat && c.toNat ≤ 57

/-- Value of the longest prefix of decimal digits, accumulated onto `acc`. -/
def digitsVal : List Char → Nat → Nat
  | [], acc => acc
  | c :: cs, acc => if isdigit c then digitsVal cs (acc * 10 + (c.toNat - 48)) else acc

/-- Number of leading decimal digits. -/
def digitsLen : List Char → Nat
  | [] => 0
  | c :: cs => if isdigit c then digitsLen cs + 1 else 0

/-- Saturation of `strtol` to the range of a 64-bit `long`. -/
def clampLong (v : Int) : Int :=
  if v > 2 ^ 63 - 1 then 2 ^ 63 - 1 else if v < -(2 ^ 63) then -(2 ^ 63) else v

/-- C `strtol(s, NULL, 10)`: blanks, an optional sign, then decimal digits. -/
def strtol (s : List Char) : Int :=
  match s.dropWhile isspace with
  | [] => 0
  | c :: r =>
    if c = '-' then clampLong (-(digitsVal r 0 : Int))
    else if c = '+' then clampLong (digitsVal r 0 : Int)
    else clampLong (digitsVal (c :: r) 0 : Int)

/-- Conversion of an integer to a 32-bit `int` (`gint`, `gboolean`, `GTime`). -/
def toInt32 (v : Int) : Int :=
  (v + 2 ^ 31) % 2 ^ 32 - 2 ^ 31

/-- Conversion of an integer to a 32-bit `guint`. -/
def toUInt32 (v : Int) : Nat :=
  (v % 2 ^ 32).toNat

/-- C `atoi`, which is `(int) strtol(s, NULL, 10)`. -/
def atoi (s : List Char) : Int :=
  toInt32 (strtol s)

/-- The `%s` conversion of glibc `printf`, which prints `(null)` for `NULL`. -/
def fmt_s (s : Option String) : String :=
  s.getD "(null)"

/-- The effect of `data[len - 3] = 0` when `len > 2`: the last three bytes
are cut off; a shorter string is left as it is. -/
def strip3 (data : String) : String :=
  if data.length > 2 then String.mk (data.data.take (data.length - 3)) else data

/-! ## The libxml2 document tree -/

/-- The node kinds of libxml2 that a parsed document contains. -/
inductive xmlElementType where
  | XML_ELEMENT_NODE
  | XML_TEXT_NODE
  | XML_CDATA_SECTION_NODE
  | XML_PI_NODE
  | XML_COMMENT_NODE
deriving DecidableEq, Repr

/-- An `xmlNode`: its kind, its name (the tag of an element, the target of a
processing instruction, `text` or `comment` otherwise), the text it carries
(`content`, `NULL` for an element), its attributes in order and its children
in document order (the `children`/`next` chain). -/
inductive xmlNode where
  | mk (type : xmlElementType) (name : String) (content : Option String)
       (properties : List (String × String)) (children : List xmlNode)
deriving Repr

namespace xmlNode

/-- Field `type`. -/
def type : xmlNode → xmlElementType
  | .mk t _ _ _ _ => t

/-- Field `name`. -/
def name : xmlNode → String
  | .mk _ n _ _ _ => n

/-- Field `content`. -/
def content : xmlNode → Option String
  | .mk _ _ c _ _ => c

/-- Field `properties`. -/
def properties : xmlNode → List (String × String)
  | .mk _ _ _ p _ => p

/-- Field `children`. -/
def children : xmlNode → List xmlNode
  | .mk _ _ _ _ c => c

end xmlNode

open xmlElementType

/-- An `xmlNode *` inside a document: child indices from the root element. -/
abbrev NodePtr := List Nat

mutual
/-- The text that libxml2 collects below a node: the contents of the text and
CDATA nodes in document order (comments and processing instructions are
skipped). -/
def nodeText (n : xmlNode) : String :=
  match n with
  | .mk t _ c _ cs =>
    match t with
    | XML_ELEMENT_NODE => nodeListText cs
    | XML_TEXT_NODE => c.getD ""
    | XML_CDATA_SECTION_NODE => c.getD ""
    | XML_PI_NODE => ""
    | XML_COMMENT_NODE => ""
/-- The text collected below a list of siblings. -/
def nodeListText (ns : List xmlNode) : String :=
  match ns with
  | [] => ""
  | n :: rest => nodeText n ++ nodeListText rest
end

/-- libxml2 `xmlNodeGetContent` on a non-`NULL` node: for an element the
concatenated text below it (never `NULL`), otherwise the node's own content. -/
def xmlNodeGetContent (n : xmlNode) : Option String :=
  match n.type with
  | XML_ELEMENT_NODE => some (nodeListText n.children)
  | _ => n.content

/-- libxml2 `xmlNodeGetContent` on a pointer that may be `NULL`. -/
def xmlNodeGetContent? (n : Option xmlNode) : Option String :=
  match n with
  | none => none
  | some n => xmlNodeGetContent n

/-- libxml2 `xmlGetProp`: the value of the first attribute of that name, `NULL`
when there is none or the node is not an element. -/
def xmlGetProp (n : xmlNode) (attr : String) : Option String :=
  match n.type with
  | XML_ELEMENT_NODE => (n.properties.find? (fun p => p.1 == attr)).map Prod.snd
  | _ => none

/-- Replacement of the value of the first attribute named `attr`, or the
attribute appended when there is none. -/
def setPropList : List (String × String) → String → String → List (String × String)
  | [], attr, v => [(attr, v)]
  | p :: ps, attr, v => if p.1 == attr then (attr, v) :: ps else p :: setPropList ps attr v

/-- libxml2 `xmlSetProp`: no effect on a node that is not an element. -/
def xmlSetProp (n : xmlNode) (attr v : String) : xmlNode :=
  match n with
  | .mk t nm c ps cs =>
    match t with
    | XML_ELEMENT_NODE => .mk t nm c (setPropList ps attr v) cs
    | _ => .mk t nm c ps cs

/-- libxml2 `xmlNodeSetContent` with a text free of entity references: an
element gets the text as its only child, another node gets it as content. -/
def xmlNodeSetContent (n : xmlNode) (v : String) : xmlNode :=
  match n with
  | .mk t nm c ps _ =>
    match t with
    | XML_ELEMENT_NODE =>
      .mk t nm c ps (if v = "" then [] else [.mk XML_TEXT_NODE "text" (some v) [] []])
    | _ => .mk t nm (some v) ps []

/-- The node a pointer designates, `none` when the position does not exist. -/
def nodeAt : xmlNode → NodePtr → Option xmlNode
  | n, [] => some n
  | n, i :: p =>
    match n.children.get? i with
    | none => none
    | some c => nodeAt c p

mutual
/-- The document after the node at a position has been replaced by `f` of it. -/
def updateAt (f : xmlNode → xmlNode) (n : xmlNode) (p : NodePtr) : xmlNode :=
  match p with
  | [] => f n
  | i :: q =>
    match n with
    | .mk t nm c ps cs => .mk t nm c ps (updateAtList f cs i q)
/-- The siblings after the `i`-th of them has been updated at position `q`. -/
def updateAtList (f : xmlNode → xmlNode) (ns : List xmlNode) (i : Nat) (q : NodePtr) :
    List xmlNode :=
  match ns with
  | [] => []
  | n :: rest =>
    match i with
    | 0 => updateAt f n q :: rest
    | j + 1 => n :: updateAtList f rest j q
end

/-- Function `get_attribute_pointer`: the first element called `attr`
among the siblings from `node` onward, with its distance from `node`. -/
def get_attribute_pointer (nodes : List xmlNode) (attr : String) : Option (Nat × xmlNode) :=
  match nodes with
  | [] => none
  | node :: rest =>
    if node.type = XML_ELEMENT_NODE ∧ node.name = attr then some (0, node)
    else (get_attribute_pointer rest attr).map (fun r => (r.1 + 1, r.2))

end OssoBookmark

namespace OssoBookmark

open xmlElementType

/-! ## The bookmark tree -/

/-- The C structure `BookmarkItem`; `list` holds the pointers of the children
and `parent` the pointer of the parent folder (`NULL` for the root). -/
structure BookmarkItem where
  isFolder : Int := 0
  name : Option String := none
  url : Option String := none
  favicon_file : Option String := none
  list : List Nat := []
  parent : Option Nat := none
  time_added : Int := 0
  time_last_visited : Int := 0
  thumbnail_file : Option String := none
  visit_count : Nat := 0
  isOperatorBookmark : Int := 0
  isDeleted : Int := 0
deriving DecidableEq, Repr

/-- The allocated `BookmarkItem` objects; a `BookmarkItem *` is an index. -/
abbrev Heap := List BookmarkItem

/-- The result of `g_new0(BookmarkItem, 1)`: every field zero. -/
def BookmarkItem.zero : BookmarkItem :=
  { isFolder := 0 }

/-- The object a pointer designates. -/
def Heap.deref (h : Heap) (p : Nat) : BookmarkItem :=
  h.getD p BookmarkItem.zero

/-- A store through a pointer. -/
def Heap.upd (h : Heap) (p : Nat) (f : BookmarkItem → BookmarkItem) : Heap :=
  h.set p (f (h.deref p))

/-- Function `create_bookmark_new`: `g_new0` of a `BookmarkItem`, every field
zero. -/
def create_bookmark_new (h : Heap) : Nat × Heap :=
  (h.length, h ++ [BookmarkItem.zero])

/-- Function `get_node_int_contents` on an element: `strtol` of its text. -/
def get_node_int_contents (node : xmlNode) : Int :=
  strtol (nodeListText node.children).data

/-- One round of the loop of `assign_node_metadata` on the element `n`. -/
def assign_metadata_field (bm_item : BookmarkItem) (n : xmlNode) : BookmarkItem :=
  if n.name = "time_visited" then
    { bm_item with time_last_visited := toInt32 (get_node_int_contents n) }
  else if n.name = "time_added" then
    { bm_item with time_added := toInt32 (get_node_int_contents n) }
  else if n.name = "operator_bookmark" then
    { bm_item with isOperatorBookmark := toInt32 (get_node_int_contents n) }
  else if n.name = "deleted" then
    { bm_item with isDeleted := toInt32 (get_node_int_contents n) }
  else if n.name = "visit_count" then
    { bm_item with visit_count := toUInt32 (get_node_int_contents n) }
  else bm_item

/-- Function `assign_node_metadata`: the fields are read from the element
children of the first `metadata` element below `node`; without such an element
`n->children` dereferences `NULL`. -/
def assign_node_metadata (bm_item : BookmarkItem) (node : xmlNode) : Option BookmarkItem :=
  match get_attribute_pointer node.children "metadata" with
  | none => none
  | some (_, n) =>
    some ((n.children.filter (fun c => c.type = XML_ELEMENT_NODE)).foldl
      assign_metadata_field bm_item)

/-- The loop `for (bm_parent = bm_item; bm_parent; bm_parent = bm_parent->parent)`
of `print_root_names`, which raises `visit_count` to `vc` along the `parent`
pointers; `none` when the chain does not end within `fuel` steps. -/
def raise_visit_count : Nat → Option Nat → Nat → Heap → Option Heap
  | _, none, _, h => some h
  | 0, some _, _, _ => none
  | fuel + 1, some bm_parent, vc, h =>
    let h1 := if (h.deref bm_parent).visit_count < vc
      then h.upd bm_parent (fun it => { it with visit_count := vc }) else h
    raise_visit_count fuel (h1.deref bm_parent).parent vc h1

mutual
/-- Function `print_root_names` on a non-`NULL` node: the pointer of the item
built for the node and the heap after the call. -/
def print_root_names (node : xmlNode) (h : Heap) : Option (Nat × Heap) :=
  match node with
  | .mk _ _ _ _ children =>
    match print_root_names_loop children (create_bookmark_new h).1 (create_bookmark_new h).2 with
    | none => none
    | some h1 => some ((create_bookmark_new h).1, h1)
/-- The loop `for (node = node->children; node; node = node->next)` of
`print_root_names`, from the child `node` onward, filling `bm_item`. -/
def print_root_names_loop (nodes : List xmlNode) (bm_item : Nat) (h : Heap) : Option Heap :=
  match nodes with
  | [] => some h
  | node :: rest =>
    if node.name = "title" then
      print_root_names_loop rest bm_item
        (h.upd bm_item (fun it => { it with name := xmlNodeGetContent node }))
    else if node.name = "info" then
      match assign_node_metadata (h.deref bm_item) node with
      | none => none
      | some it1 => print_root_names_loop rest bm_item (h.upd bm_item (fun _ => it1))
    else if node.name = "bookmark" then
      match print_root_names node h with
      | none => none
      | some (bm_bookmark, h1) =>
        let h2 := h1.upd bm_bookmark (fun it =>
          { it with url := xmlGetProp node "href",
                    thumbnail_file := xmlGetProp node "thumbnail",
                    favicon_file := xmlGetProp node "favicon",
                    parent := some bm_item })
        let h3 := h2.upd bm_item (fun it => { it with list := it.list ++ [bm_bookmark] })
        match raise_visit_count (h3.length + 1) (some bm_item)
            (h3.deref bm_bookmark).visit_count h3 with
        | none => none
        | some h4 =>
          print_root_names_loop rest bm_item
            (h4.upd bm_bookmark (fun it => { it with name := some (fmt_s it.name ++ ".bm") }))
    else if node.name = "folder" then
      match print_root_names node h with
      | none => none
      | some (bm_folder, h1) =>
        let h2 := h1.upd bm_folder (fun it => { it with isFolder := 1, parent := some bm_item })
        print_root_names_loop rest bm_item
          (h2.upd bm_item (fun it => { it with list := it.list ++ [bm_folder] }))
    else print_root_names_loop rest bm_item h
end

/-- Function `get_root_bookmark_absolute_path` from the point where
`xmlReadFile` and `xmlDocGetRootElement` have given the root element `node`
(`NULL` when the file does not parse or is empty); the out-parameter is taken
to be non-`NULL`, `bookmark_root` is the old `*bookmark_root` and `h` the
heap holding the old tree.  On success the old tree is freed, so the heap
starts afresh.  The result is the return value, the new `*bookmark_root` and
the heap. -/
def get_root_bookmark_absolute_path (bookmark_root : Option Nat) (h : Heap)
    (node : Option xmlNode) : Option (Bool × Option Nat × Heap) :=
  match node with
  | none => some (false, bookmark_root, h)
  | some node =>
    match print_root_names node [] with
    | none => none
    | some (bm_item, h1) =>
      some (true, some bm_item, h1.upd bm_item (fun it => { it with isFolder := 1 }))

/-- Function `get_complete_path`: the names from `parentItem` up to the root,
`none` when the `parent` chain does not end within `fuel` steps. -/
def get_complete_path_from : Nat → Heap → Option Nat → Option (List (Option String))
  | _, _, none => some []
  | 0, _, some _ => none
  | fuel + 1, h, some p =>
    (get_complete_path_from fuel h (h.deref p).parent).map (fun l => (h.deref p).name :: l)

/-- Function `get_complete_path`. -/
def get_complete_path (h : Heap) (parentItem : Nat) : Option (List (Option String)) :=
  get_complete_path_from (h.length + 1) h (some parentItem)

end OssoBookmark

namespace OssoBookmark

open xmlElementType

/-! ## The path resolver -/

/-- Function `g_slist_nth_data` on a list of `gchar *`: `NULL` past the end. -/
def g_slist_nth_data (items_list : List (Option String)) (n : Nat) : Option String :=
  (items_list.get? n).join

/-- The first node called `name` among `nodes`, of any kind, with its index:
the loop `while (n && xmlStrcmp(n->name, name)) n = n->next`. -/
def first_named (nodes : List xmlNode) (name : String) : Option (Nat × xmlNode) :=
  match nodes with
  | [] => none
  | n :: rest =>
    if n.name = name then some (0, n) else (first_named rest name).map (fun r => (r.1 + 1, r.2))

/-- The title that the resolver reads off an element `n`:
`xmlNodeGetContent(get_attribute_pointer(n->children, "title"))`. -/
def title_of (n : xmlNode) : Option String :=
  xmlNodeGetContent? ((get_attribute_pointer n.children "title").map Prod.snd)

mutual
/-- Function `get_parent_nodeptr` on a non-`NULL` `node`: the pointer it
returns, relative to `node`, and the value of the global `nodeptriter`
afterwards. -/
def get_parent_nodeptr (items_list : List (Option String)) (node : xmlNode) (list_len : Nat)
    (nodeptriter : Nat) : Option NodePtr × Nat :=
  match node with
  | .mk _ _ _ _ children =>
    if items_list = [] then (none, nodeptriter)
    else if list_len = 1 then ((first_named children "title").map (fun r => [r.1]), nodeptriter)
    else get_parent_nodeptr_loop items_list list_len children 0 nodeptriter
/-- The loop `for (n = node->children; n; n = n->next)` of `get_parent_nodeptr`
from the child `n` of index `idx` onward. -/
def get_parent_nodeptr_loop (items_list : List (Option String)) (list_len : Nat)
    (nodes : List xmlNode) (idx : Nat) (nodeptriter : Nat) : Option NodePtr × Nat :=
  match nodes with
  | [] => (none, nodeptriter)
  | n :: rest =>
    if n.type ≠ XML_ELEMENT_NODE then
      get_parent_nodeptr_loop items_list list_len rest (idx + 1) nodeptriter
    else if n.name ≠ "folder" then
      if n.name = "bookmark" then
        let found : Bool :=
          if nodeptriter ≠ 0 then
            match g_slist_nth_data items_list nodeptriter with
            | none => false
            | some data => title_of n = some (strip3 data)
          else false
        if found then (some [idx], nodeptriter)
        else get_parent_nodeptr_loop items_list list_len rest (idx + 1) nodeptriter
      else get_parent_nodeptr_loop items_list list_len rest (idx + 1) nodeptriter
    else
      match g_slist_nth_data items_list nodeptriter with
      | none => get_parent_nodeptr_loop items_list list_len rest (idx + 1) nodeptriter
      | some data =>
        if title_of n = some data then
          if list_len = nodeptriter + 1 then (some [idx], nodeptriter + 1)
          else
            match get_parent_nodeptr items_list n list_len (nodeptriter + 1) with
            | (some next, it) => (some (idx :: next), it)
            | (none, it) => get_parent_nodeptr_loop items_list list_len rest (idx + 1) it
        else get_parent_nodeptr_loop items_list list_len rest (idx + 1) nodeptriter
end

/-- The call `get_parent_nodeptr(list, root_element, g_slist_length(list))`
that every mutator makes after `nodeptriter = 1`, `root_element` possibly
`NULL`. -/
def resolve (list : List (Option String)) (root_element : Option xmlNode) : Option NodePtr × Nat :=
  match root_element with
  | none => (none, 1)
  | some node => get_parent_nodeptr list node list.length 1

end OssoBookmark

namespace OssoBookmark

/-! ## The Netscape importer: entity decoding -/

/-- The terminating byte of a C string. -/
def NUL : Char := Char.ofNat 0

/-- The byte a `char *` points at; the memory as far as it is described is
the list, anything behind it reads as `NUL`. -/
def peek (p : List Char) : Char :=
  p.headD NUL

/-- The C string that starts at a pointer: the bytes before the first `NUL`. -/
def c_str (p : List Char) : List Char :=
  p.takeWhile (fun c => c ≠ NUL)

/-- C `strlen`. -/
def strlen (p : List Char) : Nat :=
  (c_str p).length

/-- The lower-case letter of an ASCII capital, as `g_strncasecmp` folds it. -/
def tolower (c : Char) : Char :=
  if 65 ≤ c.toNat ∧ c.toNat ≤ 90 then Char.ofNat (c.toNat + 32) else c

/-- Whether glib `g_strncasecmp(s1, s2, n)` is `0`: the first `n` bytes agree
up to the case of letters, or both strings end before. -/
def g_strncasecmp_eq (s1 s2 : List Char) : Nat → Bool
  | 0 => true
  | n + 1 =>
    if peek s1 = NUL ∨ peek s2 = NUL then peek s1 = peek s2
    else if tolower (peek s1) ≠ tolower (peek s2) then false
    else g_strncasecmp_eq s1.tail s2.tail n

/-- The length of `g_strdup_printf("%d", val)`. -/
def fmt_d_len (val : Int) : Nat :=
  if val < 0 then (Nat.toDigits 10 val.natAbs).length + 1 else (Nat.toDigits 10 val.natAbs).length

/-- The bytes of `g_strdup_printf("%c", (char) val)` as a C string: one byte,
none when the byte is `NUL`. -/
def fmt_c (val : Int) : List Char :=
  if val % 256 = 0 then [] else [Char.ofNat (val % 256).toNat]

/-- The loop of `ns_parse_bookmark_item`: `fuel` is the number of rounds left
(`cnt` runs from `0` to `strlen(string->str)`), `iterator` the memory from the
pointer `iterator` onward, `result` the bytes appended so far. -/
def ns_parse_loop : Nat → List Char → List Char → List Char
  | 0, _, result => result
  | fuel + 1, iterator, result =>
    if peek iterator = '&' then
      if g_strncasecmp_eq iterator "&amp;".data 5 then
        ns_parse_loop fuel ((iterator.drop (5 - 1)).drop 1) (result ++ ['&'])
      else if g_strncasecmp_eq iterator "&lt;".data 4 then
        ns_parse_loop fuel ((iterator.drop (4 - 1)).drop 1) (result ++ ['<'])
      else if g_strncasecmp_eq iterator "&gt;".data 4 then
        ns_parse_loop fuel ((iterator.drop (4 - 1)).drop 1) (result ++ ['>'])
      else if g_strncasecmp_eq iterator "&quot;".data 6 then
        ns_parse_loop fuel ((iterator.drop (6 - 1)).drop 1) (result ++ ['"'])
      else if g_strncasecmp_eq iterator "&#39;".data 5 then
        ns_parse_loop fuel ((iterator.drop (5 - 1)).drop 1) (result ++ [Char.ofNat 39])
      else if peek (iterator.drop 1) = '#' then
        ns_parse_loop fuel
          (((iterator.drop 2).drop (fmt_d_len (atoi (iterator.drop 2)) - 1)).drop 1)
          (result ++ fmt_c (atoi (iterator.drop 2)))
      else
        ns_parse_loop fuel (((iterator.drop 1).drop (0 - 1)).drop 1) result
    else ns_parse_loop fuel (iterator.drop 1) (result ++ [peek iterator])

/-- Function `ns_parse_bookmark_item` on the memory at `string->str`: the C
string it returns. -/
def ns_parse_bookmark_item (str : List Char) : List Char :=
  c_str (ns_parse_loop (strlen str + 1) str [])

/-- The memory holding the C string `s`, its terminator and then `tail`. -/
def c_mem (s : String) (tail : List Char) : List Char :=
  s.data ++ NUL :: tail

end OssoBookmark

namespace OssoBookmark

open xmlElementType

/-! ## The mutators -/

/-- The bytes that `get_base_url_name` keeps: everything before the first `/`
that follows the first `//`, the whole string when there is no such `/` or
no `//`. -/
def base_url_chars : List Char → List Char
  | [] => []
  | c :: r =>
    match r with
    | [] => [c]
    | d :: t =>
      if c = '/' ∧ d = '/' then '/' :: '/' :: t.takeWhile (fun x => x ≠ '/')
      else c :: base_url_chars r

/-- Function `get_base_url_name`. -/
def get_base_url_name (url : Option String) : Option String :=
  url.map (fun u => String.mk (base_url_chars u.data))

/-- The loop `while (node && xmlStrcmp(node->name, name)) node = node->next`
from the node at `node`: the first sibling from there on that is called
`name`. -/
def seek_named (root : xmlNode) (node : NodePtr) (name : String) : Option NodePtr :=
  match node.getLast?, nodeAt root node.dropLast with
  | some i, some parent =>
    (first_named (parent.children.drop i) name).map (fun r => node.dropLast ++ [i + r.1])
  | _, _ => none

/-- Function `bookmark_set_url`: the return value, the document and the
global `nodeptriter` afterwards; `none` when `strcmp` gets a `NULL` (the
element has no `href`) or the `parent` chain of the item does not end. -/
def bookmark_set_url (h : Heap) (bm_item : Option Nat) (val : Option String)
    (root_element : Option xmlNode) (nodeptriter : Nat) :
    Option (Bool × Option xmlNode × Nat) :=
  match bm_item, val with
  | none, _ => some (false, root_element, nodeptriter)
  | _, none => some (false, root_element, nodeptriter)
  | some bm_item, some val =>
    if (h.deref bm_item).isFolder ≠ 0 then some (false, root_element, nodeptriter)
    else
      match get_complete_path h bm_item with
      | none => none
      | some path =>
        let r := resolve path.reverse root_element
        match root_element, r.1 with
        | some root, some found =>
          match seek_named root found "bookmark" with
          | none => some (false, root_element, r.2)
          | some node =>
            match nodeAt root node with
            | none => none
            | some n =>
              let old_href := xmlGetProp n "href"
              let n1 := xmlSetProp n "href" val
              let new_href := xmlGetProp n1 "href"
              match get_base_url_name old_href, get_base_url_name new_href with
              | some old_url, some new_url =>
                let n2 := if old_url ≠ new_url
                  then xmlSetProp (xmlSetProp n1 "favicon" "") "thumbnail" "" else n1
                some (true, some (updateAt (fun _ => n2) root node), r.2)
              | _, _ => none
        | _, _ => some (false, root_element, r.2)

/-- Function `get_node_by_tag` on the siblings from `node` onward: the pointer
it returns, relative to the parent of `node`; the outer `none` is the
dereference of a `NULL` pointer (`node` itself, or the first child of the
`info` or `metadata` element found). -/
def get_node_by_tag (nodes : List xmlNode) (tag : String) : Option (Option NodePtr) :=
  match nodes with
  | [] => none
  | node :: _ =>
    if node.name = tag then some (some [0])
    else
      match first_named nodes "info" with
      | none => some none
      | some (i, info) =>
        match info.children with
        | [] => none
        | c :: cs =>
          if c.name = tag then some (some [i, 0])
          else
            match first_named (c :: cs) "metadata" with
            | none => some none
            | some (j, metadata) =>
              match metadata.children with
              | [] => none
              | m :: ms =>
                some ((get_attribute_pointer (m :: ms) tag).map (fun r => [i, j, r.1]))

/-- Function `bookmark_set_operator_bookmark_as_deleted`; `doc` tells whether
the `xmlDocPtr` is non-`NULL`.  The result is the return value, the document
and the global `nodeptriter` afterwards. -/
def bookmark_set_operator_bookmark_as_deleted (h : Heap) (bm_item : Option Nat) (doc : Bool)
    (root_element : Option xmlNode) (nodeptriter : Nat) :
    Option (Bool × Option xmlNode × Nat) :=
  match bm_item with
  | none => some (false, root_element, nodeptriter)
  | some bm_item =>
    if (h.deref bm_item).isOperatorBookmark = 0 then some (false, root_element, nodeptriter)
    else if doc = false then some (false, root_element, nodeptriter)
    else
      match get_complete_path h bm_item with
      | none => none
      | some path =>
        let r := resolve path.reverse root_element
        match root_element, r.1 with
        | some root, some found =>
          match nodeAt root found with
          | none => none
          | some n =>
            match get_node_by_tag n.children "deleted" with
            | none => none
            | some none => some (false, root_element, r.2)
            | some (some rel) =>
              some (true, some (updateAt (fun d => xmlNodeSetContent d "1") root (found ++ rel)),
                r.2)
        | _, _ => some (false, root_element, r.2)

/-! ## Writing elements -/

/-- The text of `g_strdup_printf("%d", v)`. -/
def fmt_d (v : Int) : String :=
  if v < 0 then String.mk ('-' :: Nat.toDigits 10 v.natAbs) else String.mk (Nat.toDigits 10 v.natAbs)

/-- The effect of `g_strndup(s, strlen(s) - 3)`: `s` less its last three bytes;
`none` when `s` is `NULL` or shorter than three bytes, where `strlen(s) - 3`
wraps around as a `gsize` and the copy faults. -/
def g_strndup_less3 (s : Option String) : Option String :=
  match s with
  | none => none
  | some s => if s.length < 3 then none else some (String.mk (s.data.take (s.length - 3)))

/-- libxml2 `xmlNewText`. -/
def xmlNewText (content : String) : xmlNode :=
  .mk XML_TEXT_NODE "text" (some content) [] []

/-- libxml2 `xmlNewNode(NULL, name)`: an element without attributes and
children. -/
def xmlNewNode (name : String) : xmlNode :=
  .mk XML_ELEMENT_NODE name none [] []

/-- libxml2 `xmlAddChild(parent, cur)` on an element `parent`: `cur` becomes
the last child; a text node is merged into a last child that is a text node. -/
def xmlAddChild (parent cur : xmlNode) : xmlNode :=
  match parent with
  | .mk t nm c ps cs =>
    match cur.type, cs.getLast? with
    | XML_TEXT_NODE, some (.mk XML_TEXT_NODE lnm lc lps lcs) =>
      if lnm = cur.name then
        .mk t nm c ps (cs.dropLast ++ [.mk XML_TEXT_NODE lnm (some (lc.getD "" ++ cur.content.getD "")) lps lcs])
      else .mk t nm c ps (cs ++ [cur])
    | _, _ => .mk t nm c ps (cs ++ [cur])

/-- The children that `xmlNewChild` gives the new element for a content
without entity references (here always a decimal number): one text node, none
for `NULL` or the empty string. -/
def content_nodes (content : Option String) : List xmlNode :=
  match content with
  | none => []
  | some s => if s = "" then [] else [xmlNewText s]

/-- libxml2 `xmlNewChild(parent, NULL, name, content)` with a content free of
entity references: a new element as last child of `parent`. -/
def xmlNewChild (parent : xmlNode) (name : String) (content : Option String) : xmlNode :=
  xmlAddChild parent (.mk XML_ELEMENT_NODE name none [] (content_nodes content))

/-- libxml2 `xmlNewTextChild(parent, NULL, name, content)`: as `xmlNewChild`,
the content being taken as text verbatim. -/
def xmlNewTextChild (parent : xmlNode) (name : String) (content : Option String) : xmlNode :=
  xmlAddChild parent (.mk XML_ELEMENT_NODE name none []
    (match content with
     | none => []
     | some s => [xmlNewText s]))

/-- libxml2 `xmlSetProp(node, name, value)` with a `value` that may be `NULL`
(the attribute then reads as the empty string). -/
def xmlSetProp? (n : xmlNode) (attr : String) (v : Option String) : xmlNode :=
  xmlSetProp n attr (v.getD "")

/-- The `info` element that `create_new_xmlnode` writes for `bm_item`, as a
child appended to `node`. -/
def create_new_info (node : xmlNode) (bm_item : BookmarkItem) : xmlNode :=
  let metadata := xmlNewNode "metadata"
  let metadata := xmlNewChild metadata "time_visited" (some (fmt_d bm_item.time_last_visited))
  let metadata := xmlNewChild metadata "time_added" (some (fmt_d bm_item.time_added))
  let metadata := xmlNewChild metadata "visit_count"
    (some (fmt_d (toInt32 bm_item.visit_count)))
  let info := xmlAddChild (xmlNewNode "info") metadata
  let info :=
    if bm_item.isOperatorBookmark ≠ 0 then
      xmlNewChild (xmlNewChild info "operator_bookmark" (some (fmt_d bm_item.isOperatorBookmark)))
        "deleted" (some (fmt_d bm_item.isDeleted))
    else info
  xmlAddChild node info

/-- Function `create_new_xmlnode` for non-`NULL` arguments: `parent_node` with
a line break and the element of `bm_item` appended (in the C code the element
is attached first and filled afterwards); the element, which the C function
returns, is the last child.  `none` when the name of a link is `NULL` or
shorter than three bytes. -/
def create_new_xmlnode (parent_node : xmlNode) (bm_item : BookmarkItem) : Option xmlNode :=
  let parent_node := xmlAddChild parent_node (xmlNewText "\n")
  if bm_item.isFolder ≠ 0 then
    let node := xmlNewNode "folder"
    let node := xmlSetProp node "folded" "no"
    let node := xmlAddChild node (xmlNewText "\n")
    let node := xmlNewTextChild node "title" bm_item.name
    some (xmlAddChild parent_node (create_new_info node bm_item))
  else
    let node := xmlNewNode "bookmark"
    let node := xmlSetProp? node "href" bm_item.url
    let node := xmlSetProp? node "favicon" bm_item.favicon_file
    let node := xmlSetProp? node "thumbnail" bm_item.thumbnail_file
    let node := xmlAddChild node (xmlNewText "\n")
    match g_strndup_less3 bm_item.name with
    | none => none
    | some s =>
      let node := xmlNewTextChild node "title" (some s)
      some (xmlAddChild parent_node (create_new_info node bm_item))

/-- The node `parent` after `f` has been applied to its last child, the
element a call of `create_new_xmlnode` has just returned. -/
def on_last_child (parent : xmlNode) (f : xmlNode → Option xmlNode) : Option xmlNode :=
  match parent with
  | .mk t nm c ps cs =>
    match cs.getLast? with
    | none => none
    | some node => (f node).map (fun node1 => .mk t nm c ps (cs.dropLast ++ [node1]))

/-- Function `add_xmlnode_to_parent` for non-`NULL` arguments: `parent_node`
with the element of `parent_item` and, below it, those of its descendants
appended; `none` when the items are nested deeper than `fuel` or
`create_new_xmlnode` faults. -/
def add_xmlnode_to_parent : Nat → Heap → Nat → xmlNode → Option xmlNode
  | 0, _, _, _ => none
  | fuel + 1, h, parent_item, parent_node =>
    match create_new_xmlnode parent_node (h.deref parent_item) with
    | none => none
    | some parent_node1 =>
      on_last_child parent_node1 (fun node =>
        (h.deref parent_item).list.foldlM (fun node bm_item =>
          if (h.deref bm_item).isFolder ≠ 0 then add_xmlnode_to_parent fuel h bm_item node
          else create_new_xmlnode node (h.deref bm_item)) node)

/-- Function `add_bookmark_item` for a non-`NULL` item: the element written
for `bm_item` and its descendants. -/
def add_bookmark_item (h : Heap) (bm_item_ptr : Nat) : Option xmlNode :=
  let bm_item := h.deref bm_item_ptr
  let last_visited := fmt_d bm_item.time_last_visited
  let added := fmt_d bm_item.time_added
  let operator_fields (metadata : xmlNode) : xmlNode :=
    if bm_item.isOperatorBookmark ≠ 0 then
      xmlNewChild (xmlNewChild metadata "operator_bookmark"
        (some (fmt_d bm_item.isOperatorBookmark))) "deleted" (some (fmt_d bm_item.isDeleted))
    else metadata
  let item : Option xmlNode :=
    if bm_item.isFolder ≠ 0 then
      let item := xmlNewNode "folder"
      let item := xmlAddChild item (xmlNewText "\n")
      let item := xmlSetProp item "folded" "no"
      let item := xmlNewTextChild item "title" bm_item.name
      let info := xmlAddChild (xmlNewNode "info") (xmlNewText "\n")
      let metadata := xmlNewNode "metadata"
      let metadata := xmlNewChild metadata "time_visited" (some last_visited)
      let metadata := xmlNewChild metadata "time_added" (some added)
      some (xmlAddChild item (xmlAddChild info (operator_fields metadata)))
    else
      let item := xmlNewNode "bookmark"
      let item := xmlAddChild item (xmlNewText "\n")
      let item := xmlSetProp? item "href" bm_item.url
      let item := xmlSetProp? item "favicon" bm_item.favicon_file
      let item := xmlSetProp? item "thumbnail" bm_item.thumbnail_file
      match g_strndup_less3 bm_item.name with
      | none => none
      | some s =>
        let item := xmlNewTextChild item "title" (some s)
        let metadata := xmlNewNode "metadata"
        let metadata := xmlNewChild metadata "time_visited" (some last_visited)
        let metadata := xmlNewChild metadata "time_added" (some added)
        let metadata := xmlNewChild metadata "visit_count"
          (some (fmt_d (toInt32 bm_item.visit_count)))
        some (xmlAddChild item (xmlAddChild (xmlNewNode "info") (operator_fields metadata)))
  match item with
  | none => none
  | some item =>
    bm_item.list.foldlM (fun item child => add_xmlnode_to_parent (h.length + 1) h child item) item

/-! ## Linking and unlinking nodes -/

/-- The node `parent` with `cur` put in as its child of index `i`. -/
def insert_child (i : Nat) (cur : xmlNode) (parent : xmlNode) : xmlNode :=
  match parent with
  | .mk t nm c ps cs => .mk t nm c ps (cs.take i ++ cur :: cs.drop i)

/-- The node `parent` without its child of index `i`. -/
def erase_child (i : Nat) (parent : xmlNode) : xmlNode :=
  match parent with
  | .mk t nm c ps cs => .mk t nm c ps (cs.eraseIdx i)

/-- libxml2 `xmlAddPrevSibling(node, elem)` for an `elem` that is not a text
node: `elem` is linked in right before the node at `node` and thereby takes
its position. -/
def xmlAddPrevSibling (root : xmlNode) (node : NodePtr) (elem : xmlNode) : xmlNode :=
  updateAt (insert_child (node.getLastD 0) elem) root node.dropLast

/-- libxml2 `xmlAddChild(node, elem)` on the node at `node`. -/
def xmlAddChildAt (root : xmlNode) (node : NodePtr) (elem : xmlNode) : xmlNode :=
  updateAt (fun n => xmlAddChild n elem) root node

/-- libxml2 `xmlAddSibling(node, elem)` for an `elem` that is not a text node:
`elem` is linked in behind the last sibling of the node at `node`. -/
def xmlAddSibling (root : xmlNode) (node : NodePtr) (elem : xmlNode) : xmlNode :=
  updateAt (fun n => xmlAddChild n elem) root node.dropLast

/-- libxml2 `xmlUnlinkNode(node)` followed by `xmlFreeNodeList(node)`: the
node at `node` and what is below it leave the document. -/
def xmlUnlinkNode (root : xmlNode) (node : NodePtr) : xmlNode :=
  updateAt (erase_child (node.getLastD 0)) root node.dropLast

/-! ## The structural mutators -/

/-- The enumeration `BMError`. -/
inductive BMError where
  | BM_OK
  | BM_INVALID_FILE
  | BM_LOW_MEM
  | BM_INVALID_PARAMETER
deriving DecidableEq, Repr

open BMError

/-- Function `bookmark_add_child`, with the position at which the new element
stands afterwards as a fourth, auxiliary result (`none` when no element was
linked in).  The first three results are the return value, the document and
the global `nodeptriter`.  `none` when `position` designates no child of
`parent`, a `parent` chain does not end, or `add_bookmark_item` faults. -/
def bookmark_add_child_at (h : Heap) (parent bm_item : Option Nat) (position : Int)
    (root_element : Option xmlNode) (nodeptriter : Nat) :
    Option (BMError × Option xmlNode × Nat × Option NodePtr) :=
  match bm_item, parent with
  | none, _ => some (BM_INVALID_PARAMETER, root_element, nodeptriter, none)
  | _, none => some (BM_INVALID_PARAMETER, root_element, nodeptriter, none)
  | some bm_item, some parent =>
    if (h.deref parent).isFolder = 0 then
      some (BM_INVALID_PARAMETER, root_element, nodeptriter, none)
    else if (h.deref parent).list ≠ [] then
      let position : Int :=
        if position = -1 then ((h.deref parent).list.length : Int) - 1 else position
      if position < 0 then none
      else
        match (h.deref parent).list.get? position.toNat with
        | none => none
        | some child =>
          match get_complete_path h child with
          | none => none
          | some path =>
            let r := resolve path.reverse root_element
            match root_element, r.1 with
            | some root, some node =>
              match add_bookmark_item h bm_item with
              | none => none
              | some elem => some (BM_OK, some (xmlAddPrevSibling root node elem), r.2, some node)
            | _, _ => some (BM_OK, root_element, r.2, none)
    else
      match get_complete_path h parent with
      | none => none
      | some path =>
        let list := path.reverse
        let r := resolve list root_element
        match add_bookmark_item h bm_item with
        | none => none
        | some new_node =>
          match root_element, r.1 with
          | some root, some node =>
            if list.length = 1 then
              some (BM_OK, some (xmlAddSibling root node new_node), r.2,
                (nodeAt root node.dropLast).map (fun p => node.dropLast ++ [p.children.length]))
            else
              some (BM_OK, some (xmlAddChildAt root node new_node), r.2,
                (nodeAt root node).map (fun p => node ++ [p.children.length]))
          | _, _ => some (BM_OK, root_element, r.2, none)

/-- Function `bookmark_add_child`: the return value, the document and the
global `nodeptriter` afterwards. -/
def bookmark_add_child (h : Heap) (parent bm_item : Option Nat) (position : Int)
    (root_element : Option xmlNode) (nodeptriter : Nat) :
    Option (BMError × Option xmlNode × Nat) :=
  (bookmark_add_child_at h parent bm_item position root_element nodeptriter).map
    (fun r => (r.1, r.2.1, r.2.2.1))

/-- Function `opened_bookmark_remove`: the return value, the document and the
global `nodeptriter` afterwards. -/
def opened_bookmark_remove (h : Heap) (node : Option Nat) (root_element : Option xmlNode)
    (nodeptriter : Nat) : Option (Bool × Option xmlNode × Nat) :=
  match node with
  | none => some (false, root_element, nodeptriter)
  | some node =>
    match get_complete_path h node with
    | none => none
    | some path =>
      match root_element with
      | none => some (false, none, 1)
      | some root =>
        let r := resolve path.reverse (some root)
        match r.1 with
        | some n => some (true, some (xmlUnlinkNode root n), r.2)
        | none => some (false, some root, r.2)

/-- Function `dump_xml_doc_and_fsync`: `doc` and `file_path` tell whether the
arguments are non-`NULL`, `fopen_ok` whether the file opens, `dump` is what
`xmlDocFormatDump` returns (the bytes written, `-1` on error).  The test
`!xmlDocFormatDump(fp, doc, 1) == -1` compares the negation, `0` or `1`,
with `-1`. -/
def dump_xml_doc_and_fsync (doc file_path fopen_ok : Bool) (dump : Int) : Bool :=
  if doc = false then false
  else if file_path = false then false
  else if fopen_ok = false then false
  else if (if dump = 0 then (1 : Int) else 0) = -1 then true
  else false

/-- Function `bookmark_remove` from the point where `xmlReadFile` has given
`doc` (`none` when the file does not parse; otherwise the root element, if
any): the return value, the document that `dump_xml_doc_and_fsync` is called
with (`none` when it is not called) and the global `nodeptriter`.  The lock
file is not modelled. -/
def bookmark_remove (h : Heap) (bm_item : Option Nat) (doc : Option (Option xmlNode))
    (fopen_ok : Bool) (dump : Int) (nodeptriter : Nat) :
    Option (Bool × Option xmlNode × Nat) :=
  match bm_item with
  | none => some (false, none, nodeptriter)
  | some bm_item =>
    match doc with
    | none => some (false, none, nodeptriter)
    | some node =>
      match get_complete_path h bm_item with
      | none => none
      | some path =>
        match node with
        | none => some (false, none, 1)
        | some root =>
          let r := resolve path.reverse (some root)
          match r.1 with
          | none => some (false, none, r.2)
          | some n =>
            some (dump_xml_doc_and_fsync true true fopen_ok dump,
              some (xmlUnlinkNode root n), r.2)

/-- The loop `while (item_list)` of `bookmark_remove_list` over the document
with root element `node`. -/
def bookmark_remove_list_loop (h : Heap) : List Nat → xmlNode → Nat → Option (xmlNode × Nat)
  | [], node, nodeptriter => some (node, nodeptriter)
  | item :: item_list, node, nodeptriter =>
    if (h.deref item).isOperatorBookmark ≠ 0 then
      match bookmark_set_operator_bookmark_as_deleted h (some item) true (some node)
          nodeptriter with
      | some (_, some node1, it) => bookmark_remove_list_loop h item_list node1 it
      | _ => none
    else
      match get_complete_path h item with
      | none => none
      | some path =>
        let r := resolve path.reverse (some node)
        match r.1 with
        | some n => bookmark_remove_list_loop h item_list (xmlUnlinkNode node n) r.2
        | none => bookmark_remove_list_loop h item_list node r.2

/-- Function `bookmark_remove_list` from the point where `xmlReadFile` has
given `doc`; the results are as for `bookmark_remove`.  Without a root element
the function returns its variable `rv` unset, which is `junk` here. -/
def bookmark_remove_list (h : Heap) (item_list : List Nat) (doc : Option (Option xmlNode))
    (fopen_ok : Bool) (dump : Int) (junk : Bool) (nodeptriter : Nat) :
    Option (Bool × Option xmlNode × Nat) :=
  match doc with
  | none => some (false, none, nodeptriter)
  | some none => some (junk, none, nodeptriter)
  | some (some node) =>
    match bookmark_remove_list_loop h item_list node nodeptriter with
    | none => none
    | some (node1, it) => some (dump_xml_doc_and_fsync true true fopen_ok dump, some node1, it)

/-- Function `bm_engine_add_folder` from the point where `xmlParseFile` has
given `doc`: the return value and the document that `dump_xml_doc_and_fsync`
is called with.  The argument `parent` is not used (`(void)parent`).  `bm_item`
is taken non-`NULL`. -/
def bm_engine_add_folder (h : Heap) (parent : Option Nat) (bm_item : Nat)
    (doc : Option (Option xmlNode)) (fopen_ok : Bool) (dump : Int) :
    Option (Bool × Option xmlNode) :=
  let _ := parent
  match doc with
  | none => some (false, none)
  | some root =>
    match add_bookmark_item h bm_item with
    | none => none
    | some elem =>
      some (dump_xml_doc_and_fsync true true fopen_ok dump,
        root.map (fun r => xmlAddChild r elem))

/-! ## The mutators of the visit count and the title -/

/-- Function `bookmark_set_visit_count`; `doc` tells whether the `xmlDocPtr` is
non-`NULL`, `val` is free of entity references.  The result is the return
value, the document and the global `nodeptriter`.  When the element has no `visit_count`, the variable `node` has
just been set to `NULL` and the next statement reads `node->children`: the
result is `none`, and the creation of the element that follows in the source
is never reached. -/
def bookmark_set_visit_count (h : Heap) (bm_item : Option Nat) (val : Option String)
    (doc : Bool) (root_element : Option xmlNode) (nodeptriter : Nat) :
    Option (Bool × Option xmlNode × Nat) :=
  match bm_item, val with
  | none, _ => some (false, root_element, nodeptriter)
  | _, none => some (false, root_element, nodeptriter)
  | some bm_item, some val =>
    if doc = false then some (false, root_element, nodeptriter)
    else
      match get_complete_path h bm_item with
      | none => none
      | some path =>
        let r := resolve path.reverse root_element
        match root_element, r.1 with
        | some root, some found =>
          match nodeAt root found with
          | none => none
          | some n =>
            match get_node_by_tag n.children "visit_count" with
            | none => none
            | some (some rel) =>
              some (true, some (updateAt (fun d => xmlNodeSetContent d val) root (found ++ rel)),
                r.2)
            | some none => none
        | _, _ => some (false, root_element, r.2)

/-- libxml2 `xmlNodeSetContent(n, content)` in general: the children of an
element become the nodes `xmlStringGetNodeList(doc, content)`, in which the
entity references of `content` are resolved; another node gets `content` as
its content. -/
def xmlNodeSetContentParsed (xmlStringGetNodeList : String → List xmlNode) (n : xmlNode)
    (content : String) : xmlNode :=
  match n with
  | .mk t nm c ps _ =>
    match t with
    | XML_ELEMENT_NODE => .mk t nm c ps (xmlStringGetNodeList content)
    | _ => .mk t nm (some content) ps []

/-- Function `bookmark_set_name`, the two functions of libxml2 that it
composes being parameters: `xmlEncodeEntitiesReentrant(doc, s)`, which puts
entity references for the special characters of `s`, and
`xmlStringGetNodeList(doc, s)`, which `xmlNodeSetContent` uses to parse its
argument.  The result is the return value, the document and the global
`nodeptriter`. -/
def bookmark_set_name (xmlEncodeEntitiesReentrant : String → String)
    (xmlStringGetNodeList : String → List xmlNode) (h : Heap) (bm_item : Option Nat)
    (val : Option String) (root_element : Option xmlNode) (nodeptriter : Nat) :
    Option (Bool × Option xmlNode × Nat) :=
  match val, bm_item with
  | none, _ => some (false, root_element, nodeptriter)
  | _, none => some (false, root_element, nodeptriter)
  | some val, some bm_item =>
    match get_complete_path h bm_item with
    | none => none
    | some path =>
      let r := resolve path.reverse root_element
      match root_element, r.1 with
      | some root, some node =>
        match nodeAt root node with
        | none => none
        | some n =>
          match first_named n.children "title" with
          | none => some (false, root_element, r.2)
          | some (i, _) =>
            if (h.deref bm_item).isFolder ≠ 0 then
              some (true,
                some (updateAt (fun children => xmlNodeSetContentParsed xmlStringGetNodeList
                  children (xmlEncodeEntitiesReentrant val)) root (node ++ [i])), r.2)
            else
              match g_strndup_less3 (some val) with
              | none => none
              | some s =>
                some (true,
                  some (updateAt (fun children => xmlNodeSetContentParsed xmlStringGetNodeList
                    children (xmlEncodeEntitiesReentrant s)) root (node ++ [i])), r.2)
      | _, _ => some (false, root_element, r.2)

/-! ## The folders of the first level -/

/-- The loop of `osso_bookmark_get_dir_node` from the list node `next` onward:
the inner `while` passes over the items that are no folders, and each folder
adds the string `USER:` followed by its name to `folders`. -/
def osso_bookmark_get_dir_node_loop (h : Heap) : List Nat → List String → List String
  | [], folders => folders
  | bm :: next, folders =>
    if (h.deref bm).isFolder = 0 then osso_bookmark_get_dir_node_loop h next folders
    else
      osso_bookmark_get_dir_node_loop h next
        (folders ++ ["USER:" ++ fmt_s (h.deref bm).name])

/-- Function `osso_bookmark_get_dir_node`: the list `*folders` afterwards. -/
def osso_bookmark_get_dir_node (h : Heap) (bm_item : Option Nat) (folders : List String) :
    List String :=
  match bm_item with
  | none => folders
  | some bm_item => osso_bookmark_get_dir_node_loop h (h.deref bm_item).list folders

/-- Function `osso_bookmark_get_folders_list` from the point where the file
`MyBookmarks.xml` has been read: `node` is its root element (`NULL` when the
file does not parse or is empty) and `root_name` the text that `dgettext`
gives for `webb_folder_root_user`.  The copying of the files that
`set_bookmark_files_path` does is not modelled. -/
def osso_bookmark_get_folders_list (root_name : String) (node : Option xmlNode) :
    Option (List String) :=
  let r := create_bookmark_new []
  match get_root_bookmark_absolute_path (some r.1) r.2 node with
  | none => none
  | some (_, bm_item, h) => some (osso_bookmark_get_dir_node h bm_item ["MY:" ++ root_name])

/-! ## The Netscape exporter -/

/-- C `isalnum` in the "C" locale. -/
def isalnum (c : Char) : Bool :=
  isdigit c || (65 ≤ c.toNat && c.toNat ≤ 90) || (97 ≤ c.toNat && c.toNat ≤ 122)

/-- What `escape_bookmark_str` appends for one byte. -/
def escape_char (c : Char) : List Char :=
  if c = '>' then "&gt;".data
  else if c = '<' then "&lt;".data
  else if c = '&' then "&amp;".data
  else if c = '"' then "&quot;".data
  else if c = '\r' then "&#13;".data
  else [c]

/-- Function `escape_bookmark_str` on a string that is not `NULL`. -/
def escape_bookmark_str : List Char → List Char
  | [] => []
  | c :: s => escape_char c ++ escape_bookmark_str s

/-- The bytes `netscape_export_bookmarks_item` writes for the `HREF` of a link
with the given `url`: the loop `while (isalnum(*url)) url++` and the test
`*url != ':'`, then `g_str_has_prefix(bm_item->url, "/")`. -/
def export_href (url : List Char) : List Char :=
  if peek (url.dropWhile isalnum) ≠ ':' then
    if url.head? ≠ some '/' then "http://".data ++ url else url
  else url

/-- Function `netscape_export_bookmarks_item` for non-`NULL` arguments: `out`
is what the stream holds so far, the result what it holds afterwards.  `fuel`
bounds the depth of the recursion.  `none` when the `url` or the `name` of a
link is `NULL`, the name of a link is shorter than three bytes, the name of a
folder is `NULL` (without `bm_parent_name`), or the fuel runs out. -/
def netscape_export_bookmarks_item :
    Nat → Heap → List Char → Nat → Option String → Option (List Char)
  | 0, _, _, _, _ => none
  | fuel + 1, h, out, bm_item, bm_parent_name =>
    if (h.deref bm_item).isFolder = 0 then
      match (h.deref bm_item).url with
      | none => none
      | some url =>
        let out := out ++ "\t<DT><A HREF=\"".data
        let out := out ++ export_href url.data
        let out := out ++ "\"".data
        let out :=
          if (h.deref bm_item).time_added > 0 then
            out ++ " ADD_DATE=\"".data ++ (fmt_d (h.deref bm_item).time_added).data ++ "\"".data
          else out
        let out :=
          if (h.deref bm_item).time_last_visited > 0 then
            out ++ " LAST_VISIT=\"".data ++ (fmt_d (h.deref bm_item).time_last_visited).data ++
              "\"".data
          else out
        let out := out ++ ">".data
        match g_strndup_less3 (h.deref bm_item).name with
        | none => none
        | some name => some (out ++ escape_bookmark_str name.data ++ "</A>\n".data)
    else
      let out := out ++ "<DT><H3 ADD_DATE=\"0\">".data
      let name : Option (List Char) :=
        match bm_parent_name with
        | some s => some s.data
        | none => (h.deref bm_item).name.map (fun s => escape_bookmark_str s.data)
      match name with
      | none => none
      | some name =>
        let out := out ++ name
        let out := out ++ "</H3>\n<DL><p>\n".data
        match (h.deref bm_item).list.foldlM
            (fun out child => netscape_export_bookmarks_item fuel h out child none) out with
        | none => none
        | some out => some (out ++ "</DL><p>\n".data)

/-- The macro `bm_export_header`. -/
def bm_export_header : List Char :=
  ("<!DOCTYPE NETSCAPE-Bookmark-file-1>\n" ++
   "<!-- This is an automatically generated file.\n" ++
   "It will be read and overwritten.\n" ++
   "Do Not Edit! -->\n" ++
   "<META HTTP-EQUIV=\"Content-Type\" CONTENT=\"text/html; charset=UTF-8\">\n" ++
   "<TITLE>Bookmarks</TITLE>\n" ++
   "<H1>Bookmarks</H1>\n\n" ++
   "<DL><p>\n").data

/-- Function `__netscape_export_bookmarks`: the return value and the bytes
written to the file (`none` when no file is written); `filename` tells whether
the argument is non-`NULL`, `out_ok` whether `g_file_replace` gives a stream.
`fuel` bounds the depth of the recursion over the items. -/
def __netscape_export_bookmarks (fuel : Nat) (filename out_ok : Bool) (h : Heap)
    (root : List Nat) (bm_parent_name : Option String) : Option (Bool × Option (List Char)) :=
  if filename = false then some (false, none)
  else if out_ok = false then some (false, none)
  else
    match root.foldlM
        (fun out bm_item => netscape_export_bookmarks_item fuel h out bm_item bm_parent_name)
        bm_export_header with
    | none => none
    | some out => some (true, some (out ++ "</DL><p>\n".data))

/-! ## The Netscape importer -/

/-- The functions of glib and libc whose results the importer takes as they
come: `g_utf8_strdown`, `g_utf8_validate`, the outcome of the two `g_convert`
attempts of `convert_iso_string_to_utf8` (the string itself when both fail),
and `time(0)` at the call made for the item that gets the given pointer. -/
structure ImportEnv where
  g_utf8_strdown : List Char → List Char
  g_utf8_validate : List Char → Bool
  g_convert : List Char → List Char
  time : Nat → Int

/-- C `strstr(s, pat)` as the offset of the first occurrence. -/
def strstr : List Char → List Char → Option Nat
  | [], pat => if pat = [] then some 0 else none
  | c :: s, pat =>
    if pat.isPrefixOf (c :: s) then some 0 else (strstr s pat).map (fun k => k + 1)

/-- C `strchr(s, c)` as the offset of the first occurrence. -/
def strchr : List Char → Char → Option Nat
  | [], _ => none
  | d :: s, c => if d = c then some 0 else (strchr s c).map (fun k => k + 1)

/-- glib `g_strrstr(haystack, needle)` as the offset of the last occurrence. -/
def g_strrstr : List Char → List Char → Option Nat
  | [], needle => if needle = [] then some 0 else none
  | c :: s, needle =>
    match g_strrstr s needle with
    | some k => some (k + 1)
    | none => if needle.isPrefixOf (c :: s) then some 0 else none

/-- Function `bookmark_string_strcasestr`: the offset into `s1` of the pointer
it returns, which is the offset of the last occurrence of the lower-cased `s2`
in the lower-cased `s1`. -/
def bookmark_string_strcasestr (env : ImportEnv) (s1 s2 : List Char) : Option Nat :=
  g_strrstr (env.g_utf8_strdown s1) (env.g_utf8_strdown s2)

/-- The loop of `bookmark_read_line_from_html_file`: `line` is the string
accumulated so far; a `NUL` byte read adds nothing to it.  The result is the
line and the bytes left in the stream. -/
def read_line_loop : List Char → List Char → List Char × List Char
  | [], line => (line, [])
  | c :: r, line =>
    if c = '\n' then (line ++ [c], r)
    else if c = NUL then read_line_loop r line
    else read_line_loop r (line ++ [c])

/-- Function `bookmark_read_line_from_html_file` on the bytes left in the
stream: the line (`NULL` when it is empty) and the bytes left afterwards. -/
def bookmark_read_line_from_html_file (stream : List Char) : Option (List Char) × List Char :=
  let r := read_line_loop stream []
  (if r.1 = [] then none else some r.1, r.2)

/-- The loop of `find_bookmarks_line` with `n` rounds to go. -/
def find_bookmarks_line_loop : Nat → List Char → Bool
  | 0, _ => false
  | n + 1, stream =>
    match bookmark_read_line_from_html_file stream with
    | (none, _) => false
    | (some line, rest) =>
      if (strstr line "Bookmarks".data).isSome then true else find_bookmarks_line_loop n rest

/-- Function `find_bookmarks_line`: the `do ... while (i != 10)` makes at most
ten rounds. -/
def find_bookmarks_line (stream : List Char) : Bool :=
  find_bookmarks_line_loop 10 stream

/-- Function `bookmarks_new_bookmark`, whose first parameter is called
`isFolder` and makes a link when it is true; `tick` is what `time(0)` returns.
The result is the pointer and the heap. -/
def bookmarks_new_bookmark (tick : Int) (h : Heap) (isFolder : Int) (name url : Option String)
    (isOperatorBookmark : Int) : Nat × Heap :=
  let r := create_bookmark_new h
  (r.1, r.2.upd r.1 (fun bm_item =>
    { (if isFolder ≠ 0 then
        { bm_item with isFolder := 0, name := some (fmt_s name ++ "." ++ "bm"), url := url }
       else { bm_item with isFolder := 1, name := name, url := none }) with
      list := [], parent := none, favicon_file := none, thumbnail_file := none,
      visit_count := 0, isOperatorBookmark := isOperatorBookmark,
      time_last_visited := toInt32 tick, time_added := toInt32 tick }))

/-- Function `convert_iso_string_to_utf8`. -/
def convert_iso_string_to_utf8 (env : ImportEnv) (s : List Char) : List Char :=
  if env.g_utf8_validate s then s else env.g_convert s

/-- The variables of `netscape_import_bookmarks` that live across the rounds
of its loop: the heap, the folder `bm_item` that items are added to, and the
memory of the buffer of the `GString` `name` (bytes that were never written
read as `NUL`). -/
structure ImportState where
  h : Heap
  bm_item : Nat
  name : List Char

/-- The buffer of a `GString` after `g_string_assign(string, s)`: the bytes of
`s`, the terminator, and what the buffer held behind. -/
def g_string_assign (buf s : List Char) : List Char :=
  s ++ NUL :: buf.drop (s.length + 1)

/-- The buffer of a `GString` after `g_string_truncate(string, p - string->str)`
for the pointer `p` that a search in `string->str` has returned: a terminator
at that offset; no change when the search found nothing (the difference is
then not below the length). -/
def g_string_truncate (buf : List Char) (p : Option Nat) : List Char :=
  match p with
  | none => buf
  | some k => buf.take k ++ NUL :: buf.drop (k + 1)

/-- The steps that `netscape_import_bookmarks` shares between a link and a
folder: the `GString` `name` is assigned the rest of the line from offset
`start`, cut at the last occurrence of `close_tag`, unescaped and converted.
The result is the buffer and the name. -/
def import_name (env : ImportEnv) (buf line : List Char) (start : Nat) (close_tag : List Char) :
    List Char × List Char :=
  let s := line.drop start
  let buf := g_string_truncate (g_string_assign buf s) (bookmark_string_strcasestr env s close_tag)
  (buf, convert_iso_string_to_utf8 env (ns_parse_bookmark_item buf))

/-- One round of the loop of `netscape_import_bookmarks` on the `line` read.
`none` when a pointer is moved past the end of the line (`found + 9` or
`found + 7` with `found` less than that many bytes before the terminator).
The strings `url` and `nick` and the dates, which are read and not used, are
left out. -/
def netscape_import_line (env : ImportEnv) (st : ImportState) (line : List Char) :
    Option ImportState :=
  match bookmark_string_strcasestr env line "<A HREF=".data with
  | some found =>
    if line.length < found + 9 then none
    else
      let url := (line.drop (found + 9)).take
        ((strchr (line.drop (found + 9)) '"').getD (line.length - (found + 9)))
      match strstr (line.drop (found + 9 + url.length)) "\">".data with
      | none => some st
      | some k =>
        let r := import_name env st.name line (found + 9 + url.length + k + 2) "</A>".data
        let bm := bookmarks_new_bookmark (env.time st.h.length) st.h 1 (some (String.mk r.2))
          (some (String.mk url)) 0
        let h := bm.2.upd bm.1 (fun it => { it with parent := some st.bm_item, isFolder := 0 })
        let h := h.upd st.bm_item (fun it => { it with list := it.list ++ [bm.1] })
        some { h := h, bm_item := st.bm_item, name := r.1 }
  | none =>
    match bookmark_string_strcasestr env line "<DT><H3".data with
    | some found =>
      if line.length < found + 7 then none
      else
        match strchr (line.drop (found + 7)) '>' with
        | none => some st
        | some k =>
          let r := import_name env st.name line (found + 7 + k + 1) "</H3>".data
          let bm := bookmarks_new_bookmark (env.time st.h.length) st.h 0 (some (String.mk r.2))
            none 0
          let h := bm.2.upd st.bm_item (fun it => { it with list := it.list ++ [bm.1] })
          let h := h.upd bm.1 (fun it => { it with isFolder := 1, parent := some st.bm_item })
          some { h := h, bm_item := bm.1, name := r.1 }
    | none =>
      match bookmark_string_strcasestr env line "</DL>".data with
      | some _ =>
        match (st.h.deref st.bm_item).parent with
        | some parent => some { st with bm_item := parent }
        | none => some st
      | none =>
        match bookmark_string_strcasestr env line "<HR>".data with
        | some _ =>
          match bookmark_string_strcasestr env line "<DD>".data with
          | some found =>
            if line.length < found + 4 then none
            else some { st with name := g_string_assign st.name (line.drop (found + 4)) }
          | none =>
            if (strchr line '<').isSome ∨ (strchr line '>').isSome then some st
            else some { st with name := g_string_assign st.name line }
        | none => some st

/-- The loop `while (1)` of `netscape_import_bookmarks` on the bytes left in
the stream; every round reads at least one byte, `fuel` counts the rounds. -/
def netscape_import_loop (env : ImportEnv) : Nat → ImportState → List Char → Option ImportState
  | 0, _, _ => none
  | fuel + 1, st, stream =>
    match bookmark_read_line_from_html_file stream with
    | (none, _) => some st
    | (some line, rest) =>
      match netscape_import_line env st line with
      | none => none
      | some st1 => netscape_import_loop env fuel st1 rest

/-- Function `netscape_import_bookmarks`; `file` holds the bytes of the file
at `path`, `none` when it cannot be opened (the function then returns
`FALSE`, a `NULL` pointer).  The result is the pointer returned and the
heap. -/
def netscape_import_bookmarks (env : ImportEnv) (file : Option (List Char))
    (importFolderName : Option String) (h : Heap) : Option (Option Nat × Heap) :=
  match file with
  | none => some (none, h)
  | some stream =>
    let bm := bookmarks_new_bookmark (env.time h.length) h 0 importFolderName none 0
    match netscape_import_loop env (stream.length + 1) { h := bm.2, bm_item := bm.1, name := [] }
        stream with
    | none => none
    | some st => some (some st.bm_item, st.h)

/-- Function `bookmark_import`; `file` holds the bytes of the file at `path`
(`none` when it cannot be opened) and `import_folder` tells whether that
argument is non-`NULL`.  The result is the return value, the pointer stored
in `*import_folder` (if any) and the heap. -/
def bookmark_import (env : ImportEnv) (file : Option (List Char))
    (importFolderName : Option String) (import_folder : Bool) (h : Heap) :
    Option (Bool × Option Nat × Heap) :=
  match file with
  | none => some (false, none, h)
  | some stream =>
    let r := bookmark_read_line_from_html_file stream
    let is_bookmark_file : Bool :=
      match r.1 with
      | some line =>
        (strstr line "NETSCAPE-Bookmark-file".data).isSome || find_bookmarks_line r.2
      | none => false
    if is_bookmark_file = false then some (false, none, h)
    else
      match netscape_import_bookmarks env file importFolderName h with
      | none => none
      | some (bm_item, h1) =>
        match bm_item with
        | some p => if import_folder then some (true, some p, h1) else some (false, none, h1)
        | none => some (false, none, h1)

/-! ## The files -/

/-- What the functions see of the file system and of libxml2: the value of
`HOME`, the contents of the files (`none` for a file that cannot be read),
whether `fopen(path, "w")` succeeds, and the root element that `xmlReadFile`
and `xmlDocGetRootElement` give for the contents of a file (`none` when the
parser gives no document or the document has no root element). -/
structure Files where
  home : String
  contents : String → Option String
  fopen_w : String → Bool
  parse : String → Option xmlNode

/-- The files after `contents` has been written to the file at `path`. -/
def Files.write (fs : Files) (path contents : String) : Files :=
  { fs with contents := fun p => if p = path then some contents else fs.contents p }

/-- The macro `MYBOOKMARKS`. -/
def MYBOOKMARKS : String := "/.bookmarks/MyBookmarks.xml"

/-- Function `file_path_with_home_dir`. -/
def file_path_with_home_dir (home : String) (file_name : Option String) : String :=
  match file_name with
  | none => home
  | some f =>
    if f.data = [] then home
    else if f.data.head? = some '/' then home ++ f
    else home ++ "/" ++ f

/-- The root element that `xmlReadFile` and `xmlDocGetRootElement` give for
the file at `path`. -/
def read_root_element (fs : Files) (path : String) : Option xmlNode :=
  (fs.contents path).bind fs.parse

/-- Function `_get_root_bookmark`. -/
def _get_root_bookmark (fs : Files) (bookmark_root : Option Nat) (h : Heap)
    (file_name : Option String) : Option (Bool × Option Nat × Heap) :=
  get_root_bookmark_absolute_path bookmark_root h
    (read_root_element fs (file_path_with_home_dir fs.home file_name))

/-- Function `get_root_bookmark`, which does not use `file_name`. -/
def get_root_bookmark (fs : Files) (bookmark_root : Option Nat) (h : Heap)
    (file_name : Option String) : Option (Bool × Option Nat × Heap) :=
  let _ := file_name
  _get_root_bookmark fs bookmark_root h (some MYBOOKMARKS)

/-- The string `bookmark_template` with the two `%d` filled in. -/
def bookmark_template (t1 t2 : Int) : String :=
  "<?xml version=\"1.0\"?>" ++
  "<!DOCTYPE xbel PUBLIC \"+//IDN python.org//DTD XML Bookmark Exchange Language 1.0//EN//XML\" \"http://www.python.org/topics/xml/dtds/xbel-1.0.dtd\">" ++
  "<xbel version=\"1.0\">" ++
  "<info>" ++
  "<metadata>" ++
  "<default_folder>yes</default_folder>" ++
  "</metadata>" ++
  "</info>" ++
  "<title>My bookmarks</title>" ++
  "<info>" ++
  "<metadata>" ++
  "<time_visited>" ++ fmt_d t1 ++ "</time_visited>" ++
  "<time_added>" ++ fmt_d t2 ++ "</time_added>" ++
  "</metadata>" ++
  "</info>" ++
  "</xbel>"

/-- Function `create_empty_bookmark_template`; `tick` is what `time(0)`
returns.  The result is the return value and the files. -/
def create_empty_bookmark_template (fs : Files) (file_name : String) (tick : Int) :
    Bool × Files :=
  if fs.fopen_w file_name = false then (false, fs)
  else (true, fs.write file_name (bookmark_template (toInt32 tick) (toInt32 tick)))

/-- Function `get_bookmark_from_backup`: the return value, the new
`*bookmark_root`, the heap and the files.  `fputs` writes the contents of the
backup up to the first `NUL`. -/
def get_bookmark_from_backup (fs : Files) (bookmark_root : Option Nat) (h : Heap) (tick : Int) :
    Option (Bool × Option Nat × Heap × Files) :=
  let file_name := file_path_with_home_dir fs.home (some MYBOOKMARKS)
  let backup_file_name := file_name ++ ".backup"
  let fs1 :=
    match fs.contents backup_file_name with
    | some contents =>
      if fs.fopen_w file_name then fs.write file_name (String.mk (c_str contents.data)) else fs
    | none => fs
  match _get_root_bookmark fs1 bookmark_root h (some MYBOOKMARKS) with
  | none => none
  | some (rv1, root1, h1) =>
    if rv1 = false then
      let t := create_empty_bookmark_template fs1 file_name tick
      if t.1 then
        (_get_root_bookmark t.2 root1 h1 (some MYBOOKMARKS)).map
          (fun r => (r.1, r.2.1, r.2.2, t.2))
      else some (true, root1, h1, fs1)
    else some (true, root1, h1, fs1)

/-! ## Specification-side definitions, invariants and sample documents -/

/-- The five entities of the specification with the character each stands for. -/
def five_entities : List (List Char × Char) :=
  [("&amp;".data, '&'), ("&lt;".data, '<'), ("&gt;".data, '>'), ("&quot;".data, '"'),
   ("&#39;".data, Char.ofNat 39)]

/-- The entity of the specification that begins at the head of `s`, if any. -/
def entity_at (s : List Char) : Option (List Char × Char) :=
  five_entities.find? (fun e => e.1.isPrefixOf s)

/-- Specification of the decoding: every entity is replaced by its character,
every other character is kept; `skip` counts the characters of the entity
being replaced that are still to be passed over. -/
def unescape_spec : List Char → Nat → List Char
  | [], _ => []
  | _ :: r, skip + 1 => unescape_spec r skip
  | c :: r, 0 =>
    match entity_at (c :: r) with
    | some e => e.2 :: unescape_spec r (e.1.length - 1)
    | none => c :: unescape_spec r 0

/-- Every `&` of `s` begins one of the five entities. -/
def amp_ok : List Char → Bool
  | [] => true
  | c :: r => (c ≠ '&' || (entity_at (c :: r)).isSome) && amp_ok r

/-- Whether `print_root_names` builds an item for the child `c`. -/
def builds_item (c : xmlNode) : Bool :=
  c.name = "bookmark" || c.name = "folder"

/-- The name `print_root_names` leaves in an item: the content of the last
child called `title`, `init` when there is none. -/
def last_title : List xmlNode → Option String → Option String
  | [], init => init
  | n :: rest, init => last_title rest (if n.name = "title" then xmlNodeGetContent n else init)

mutual
/-- No node that `print_root_names` turns into a link has a child for which it
builds an item. -/
def links_flat (node : xmlNode) : Bool :=
  match node with
  | .mk _ _ _ _ children => links_flat_list children
/-- The same for the siblings from a node onward. -/
def links_flat_list (nodes : List xmlNode) : Bool :=
  match nodes with
  | [] => true
  | c :: rest =>
    (if c.name = "title" ∨ c.name = "info" then true
     else if c.name = "bookmark" then c.children.all (fun d => !builds_item d)
     else if c.name = "folder" then links_flat c
     else true) && links_flat_list rest
end

/-- What the claim says of the item `k` built for the child `c` of the node
whose item is `bm`. -/
def ChildOK (h : Heap) (bm : Nat) (c : xmlNode) (k : Nat) : Prop :=
  (h.deref k).parent = some bm ∧
  (c.name = "folder" → (h.deref k).isFolder = 1 ∧ (h.deref k).url = none) ∧
  (c.name = "bookmark" → (h.deref k).isFolder = 0 ∧ (h.deref k).url = xmlGetProp c "href" ∧
    (h.deref k).name = some (fmt_s (last_title c.children none) ++ ".bm"))

/-- A folder has no `url`; a link has no children when `flat` holds. -/
def ItemOK (flat : Bool) (it : BookmarkItem) : Prop :=
  (it.isFolder ≠ 0 → it.url = none) ∧ (flat = true → it.isFolder = 0 → it.list = [])

/-- What the loop of `print_root_names` over `nodes` does to the heap. -/
structure LoopPost (nodes : List xmlNode) (bm : Nat) (h h1 : Heap) : Prop where
  len : h.length ≤ h1.length
  frame : ∀ i, i < h.length → i ≠ bm → h1.deref i = h.deref i
  parent : (h1.deref bm).parent = (h.deref bm).parent
  isFolder : (h1.deref bm).isFolder = (h.deref bm).isFolder
  url : (h1.deref bm).url = (h.deref bm).url
  name : (h1.deref bm).name = last_title nodes (h.deref bm).name
  list : ∃ ids, (h1.deref bm).list = (h.deref bm).list ++ ids ∧
    List.Forall₂ (fun c k => h.length ≤ k ∧ k < h1.length ∧ ChildOK h1 bm c k)
      (nodes.filter builds_item) ids
  items : ∀ i, h.length ≤ i → i < h1.length → ItemOK (links_flat_list nodes) (h1.deref i)

/-- What a call of `print_root_names` on `node` does to the heap. -/
structure CallPost (node : xmlNode) (h : Heap) (id : Nat) (h1 : Heap) : Prop where
  id_eq : id = h.length
  len : h.length < h1.length
  frame : ∀ i, i < h.length → h1.deref i = h.deref i
  parent : (h1.deref id).parent = none
  isFolder : (h1.deref id).isFolder = 0
  url : (h1.deref id).url = none
  name : (h1.deref id).name = last_title node.children none
  list : List.Forall₂ (ChildOK h1 id) (node.children.filter builds_item) (h1.deref id).list
  items : ∀ i, h.length < i → i < h1.length → ItemOK (links_flat node) (h1.deref i)

mutual
/-- Every `info` child that `print_root_names` reads below `node` has a
`metadata` element, so that `assign_node_metadata` dereferences no `NULL`. -/
def metadata_present (node : xmlNode) : Bool :=
  match node with
  | .mk _ _ _ _ children => metadata_present_list children
/-- The same for the siblings from a node onward. -/
def metadata_present_list (nodes : List xmlNode) : Bool :=
  match nodes with
  | [] => true
  | c :: rest =>
    (if c.name = "title" then true
     else if c.name = "info" then (get_attribute_pointer c.children "metadata").isSome
     else if c.name = "bookmark" ∨ c.name = "folder" then metadata_present c
     else true) && metadata_present_list rest
end

/-- Specification: the origin of an absolute URL `scheme://host...`, its
scheme (the text before the first `:`) and its host (the text behind the `//`
up to the first `/`, `?`, `#` or `:`). -/
def origin_spec (url : String) : Option (String × String) :=
  match url.data.dropWhile (fun c => c ≠ ':') with
  | a :: b :: c :: rest =>
    if a = ':' ∧ b = '/' ∧ c = '/' then
      some (String.mk (url.data.takeWhile (fun c => c ≠ ':')),
        String.mk (rest.takeWhile (fun c => c ≠ '/' ∧ c ≠ '?' ∧ c ≠ '#' ∧ c ≠ ':')))
    else none
  | _ => none

/-- Specification: the title that `bookmark_set_name` is to store for the new
name `val`, which is `val` for a folder and `val` less its last three
characters for a link. -/
def title_spec (isFolder : Int) (val : String) : String :=
  if isFolder ≠ 0 then val else String.mk (val.data.take (val.length - 3))

/-- What a node is apart from the nodes below it: its kind, name, content and
attributes and the number of its children. -/
def node_data (n : xmlNode) :
    xmlElementType × String × Option String × List (String × String) × Nat :=
  (n.type, n.name, n.content, n.properties, n.children.length)

/-- An element node. -/
def xml_element (name : String) (props : List (String × String)) (children : List xmlNode) :
    xmlNode :=
  .mk XML_ELEMENT_NODE name none props children

/-- A text node. -/
def xml_text (s : String) : xmlNode :=
  .mk XML_TEXT_NODE "text" (some s) [] []

/-- The element `<title>s</title>`. -/
def xml_title (s : String) : xmlNode :=
  xml_element "title" [] [xml_text s]

/-- The document `<xbel><title>r</title><bookmark href="http://a.com/x"
favicon="f" thumbnail="t"><title>b</title></bookmark></xbel>`. -/
def doc_one_link : xmlNode :=
  xml_element "xbel" [] [xml_title "r",
    xml_element "bookmark" [("href", "http://a.com/x"), ("favicon", "f"), ("thumbnail", "t")]
      [xml_title "b"]]

/-- The bookmark tree of `doc_one_link`: the root and its link `b.bm`. -/
def heap_one_link : Heap :=
  [{ isFolder := 1, name := some "r", list := [1] },
   { isFolder := 0, name := some "b.bm", url := some "http://a.com/x", favicon_file := some "f",
     thumbnail_file := some "t", parent := some 0 }]

/-- A processing instruction `<?target content?>`. -/
def xml_pi (target content : String) : xmlNode :=
  .mk XML_PI_NODE target (some content) [] []

/-- A `<bookmark href="url">` element titled `title`. -/
def xml_link (title url : String) (more : List xmlNode) : xmlNode :=
  xml_element "bookmark" [("href", url)] (xml_title title :: more)

/-- A `<folder>` element titled `title`. -/
def xml_folder (title : String) (more : List xmlNode) : xmlNode :=
  xml_element "folder" [] (xml_title title :: more)

/-- The document `<xbel><title>r</title><bookmark href="u"><title>Fol</title>
</bookmark><folder><title>Folder</title></folder></xbel>`. -/
def doc_link_before_folder : xmlNode :=
  xml_element "xbel" [] [xml_title "r", xml_link "Fol" "u" [], xml_folder "Folder" []]

/-- The document `<xbel><title>r</title><bookmark href="u"><title>Fol</title>
</bookmark></xbel>`, which has no folder. -/
def doc_link_only : xmlNode :=
  xml_element "xbel" [] [xml_title "r", xml_link "Fol" "u" []]

/-- The document `<xbel><title>r</title><folder><title>B</title></folder>
<folder><title>A</title></folder><folder><title>B</title></folder></xbel>`. -/
def doc_twin_folders : xmlNode :=
  xml_element "xbel" [] [xml_title "r", xml_folder "B" [], xml_folder "A" [], xml_folder "B" []]

/-- The document `<xbel><title>r</title><folder><title>F</title><bookmark
href="u"><title>b</title><info><metadata><visit_count>5</visit_count>
</metadata></info></bookmark></folder></xbel>`. -/
def doc_visited_link : xmlNode :=
  xml_element "xbel" [] [xml_title "r",
    xml_folder "F" [xml_link "b" "u"
      [xml_element "info" [] [xml_element "metadata" []
        [xml_element "visit_count" [] [xml_text "5"]]]]]]

/-- The document `<xbel><?folder x?></xbel>`. -/
def doc_pi : xmlNode :=
  xml_element "xbel" [] [xml_pi "folder" "x"]

/-- The document `<xbel><bookmark href="u"><title>a</title><bookmark href="v">
<title>b</title></bookmark></bookmark></xbel>`. -/
def doc_nested_link : xmlNode :=
  xml_element "xbel" [] [xml_link "a" "u" [xml_link "b" "v" []]]

/-- The bookmark tree of `doc_visited_link`. -/
def heap_visited_link : Heap :=
  [{ isFolder := 1, name := some "r", list := [1] },
   { isFolder := 1, name := some "F", list := [2], parent := some 0, visit_count := 5 },
   { isFolder := 0, name := some "b.bm", url := some "u", parent := some 1, visit_count := 5 }]

/-- A sample of `xmlEncodeEntitiesReentrant` on the bytes of a string: entity
references for `&`, `<` and `>`. -/
def encode_chars : List Char → List Char
  | [] => []
  | c :: r =>
    if c = '&' then '&' :: 'a' :: 'm' :: 'p' :: ';' :: encode_chars r
    else if c = '<' then '&' :: 'l' :: 't' :: ';' :: encode_chars r
    else if c = '>' then '&' :: 'g' :: 't' :: ';' :: encode_chars r
    else c :: encode_chars r

/-- A sample of `xmlEncodeEntitiesReentrant`. -/
def encode_entities (s : String) : String :=
  String.mk (encode_chars s.data)

/-- A sample of `xmlStringGetNodeList`: one text node in which the predefined
entities are resolved, no node for the empty string. -/
def string_node_list (s : String) : List xmlNode :=
  if s = "" then [] else [xml_text (String.mk (unescape_spec s.data 0))]

/-- The element `<name>value</name>`. -/
def xml_field (name value : String) : xmlNode :=
  xml_element name [] [xml_text value]

/-- A root folder `r` holding the folder `F`, which holds the operator link
`op.bm`. -/
def heap_operator_link : Heap :=
  [{ isFolder := 1, name := some "r", list := [1] },
   { isFolder := 1, name := some "F", list := [2], parent := some 0 },
   { isFolder := 0, name := some "op.bm", url := some "u", parent := some 1,
     isOperatorBookmark := 1 }]

/-- The element that `add_bookmark_item` writes for the folder `F` of
`heap_operator_link`; the link below it is laid out by `create_new_xmlnode`,
with `operator_bookmark` and `deleted` directly under `info`. -/
def folder_operator_link : xmlNode :=
  xml_element "folder" [("folded", "no")]
    [xml_text "\n", xml_title "F",
     xml_element "info" []
       [xml_text "\n",
        xml_element "metadata" [] [xml_field "time_visited" "0", xml_field "time_added" "0"]],
     xml_text "\n",
     xml_element "bookmark" [("href", "u"), ("favicon", ""), ("thumbnail", "")]
       [xml_text "\n", xml_title "op",
        xml_element "info" []
          [xml_element "metadata" []
             [xml_field "time_visited" "0", xml_field "time_added" "0",
              xml_field "visit_count" "0"],
           xml_field "operator_bookmark" "1", xml_field "deleted" "0"]]]

/-- The document of `heap_operator_link`. -/
def doc_operator_link : xmlNode :=
  xml_element "xbel" [] [xml_title "r", folder_operator_link]

/-- The document `<xbel><title>r</title></xbel>`. -/
def doc_title_only : xmlNode :=
  xml_element "xbel" [] [xml_title "r"]

/-- The document `<xbel><title>r</title><bookmark href="u"><title>a</title>
</bookmark></xbel>`. -/
def doc_link_a : xmlNode :=
  xml_element "xbel" [] [xml_title "r", xml_link "a" "u" []]

/-- The bookmark tree of `doc_link_a`, the root with its link `a.bm`, and a
new link `c.bm` of the root that is not in the list of children yet. -/
def heap_link_and_new : Heap :=
  [{ isFolder := 1, name := some "r", list := [1] },
   { isFolder := 0, name := some "a.bm", url := some "u", parent := some 0 },
   { isFolder := 0, name := some "c.bm", url := some "w", parent := some 0 }]

/-- The document `<xbel><title>r</title><folder><title>F</title></folder>
</xbel>`. -/
def doc_folder_only : xmlNode :=
  xml_element "xbel" [] [xml_title "r", xml_folder "F" []]

/-- The bookmark tree of `doc_folder_only`, the root with its folder `F`, and
a new folder `G` whose parent is `F`. -/
def heap_folder_and_new : Heap :=
  [{ isFolder := 1, name := some "r", list := [1] },
   { isFolder := 1, name := some "F", parent := some 0 },
   { isFolder := 1, name := some "G", parent := some 1 }]

/-- Specification: the entries of the folders among the children of `root`,
in the order of the children. -/
def first_level_folders (h : Heap) (root : Nat) : List String :=
  ((h.deref root).list.filter (fun c => decide ((h.deref c).isFolder ≠ 0))).map
    (fun c => "USER:" ++ fmt_s (h.deref c).name)

/-- Specification: `l` lists the pointers from an item up to the root, each
followed by its parent; the last one has no parent. -/
def is_chain (h : Heap) : List Nat → Prop
  | [] => False
  | [p] => (h.deref p).parent = none
  | p :: q :: l => (h.deref p).parent = some q ∧ is_chain h (q :: l)

/-- Whether a node is an element called `folder` or `bookmark`. -/
def is_item_element (c : xmlNode) : Bool :=
  decide (c.type = XML_ELEMENT_NODE) && (c.name = "folder" || c.name = "bookmark")

/-- Specification: the position of the element of a folder whose reversed
path is `list` and for which the resolver returns `node`: the root element
for the root folder, whose path has the single segment of its name, and
`node` otherwise. -/
def folder_element (list : List (Option String)) (node : NodePtr) : NodePtr :=
  if list.length = 1 then [] else node

/-- Specification: an item together with the items below it, as a value. -/
inductive ItemTree where
  | mk (item : BookmarkItem) (children : List ItemTree)

/-- The item at the top of a tree. -/
def ItemTree.item : ItemTree → BookmarkItem
  | .mk item _ => item

/-- The trees below the top of a tree. -/
def ItemTree.children : ItemTree → List ItemTree
  | .mk _ children => children

mutual
/-- The heap holds the tree `T` at the pointer `p`: the object is the item of
`T` and its `list` holds the trees below. -/
def Represents (h : Heap) (p : Nat) : ItemTree → Prop
  | .mk item children => h.deref p = item ∧ RepresentsList h item.list children
/-- The heap holds the trees at the pointers, one by one. -/
def RepresentsList (h : Heap) : List Nat → List ItemTree → Prop
  | [], [] => True
  | p :: ps, T :: Ts => Represents h p T ∧ RepresentsList h ps Ts
  | [], _ :: _ => False
  | _ :: _, [] => False
end

mutual
/-- The number of levels of a tree. -/
def ItemTree.depth : ItemTree → Nat
  | .mk _ children => depth_list children + 1
/-- The number of levels of the deepest of the trees. -/
def depth_list : List ItemTree → Nat
  | [] => 0
  | T :: Ts => max T.depth (depth_list Ts)
end

mutual
/-- The items of the tree are as the data model has them: a folder has a name,
a link has a url and a name of at least three bytes (it ends in `.bm`). -/
def well_formed : ItemTree → Bool
  | .mk item children =>
    (if item.isFolder ≠ 0 then item.name.isSome
     else item.url.isSome &&
      (match item.name with
       | some name => decide (3 ≤ name.length)
       | none => false)) &&
    well_formed_list children
/-- The same for each of the trees. -/
def well_formed_list : List ItemTree → Bool
  | [] => true
  | T :: Ts => well_formed T && well_formed_list Ts
end

/-- Specification: the anchor line of a link, without its line break. -/
def anchor_line_spec (item : BookmarkItem) : List Char :=
  "\t<DT><A HREF=\"".data ++ export_href (item.url.getD "").data ++ "\"".data ++
    (if item.time_added > 0 then " ADD_DATE=\"".data ++ (fmt_d item.time_added).data ++ "\"".data
     else []) ++
    (if item.time_last_visited > 0 then
      " LAST_VISIT=\"".data ++ (fmt_d item.time_last_visited).data ++ "\"".data
     else []) ++
    ">".data ++ escape_bookmark_str ((item.name.getD "").data.take ((item.name.getD "").length - 3)) ++
    "</A>".data

/-- Specification: the title in the header line of a folder, which is
`bm_parent_name` when that is given and the escaped name otherwise. -/
def folder_title_spec (bm_parent_name : Option String) (item : BookmarkItem) : List Char :=
  match bm_parent_name with
  | some s => s.data
  | none => escape_bookmark_str (item.name.getD "").data

mutual
/-- Specification: the lines of the record of a tree: for a folder the header
line, the open-list line, the records of the trees below and the close-list
line; for a link the anchor line. -/
def record_spec (bm_parent_name : Option String) : ItemTree → List (List Char)
  | .mk item children =>
    if item.isFolder ≠ 0 then
      ("<DT><H3 ADD_DATE=\"0\">".data ++ folder_title_spec bm_parent_name item ++ "</H3>".data) ::
        "<DL><p>".data :: (records_spec children ++ ["</DL><p>".data])
    else [anchor_line_spec item]
/-- The records of the trees one after the other. -/
def records_spec : List ItemTree → List (List Char)
  | [] => []
  | T :: Ts => record_spec none T ++ records_spec Ts
end

/-- The text made of the lines, each followed by a line break. -/
def unlines : List (List Char) → List Char
  | [] => []
  | l :: ls => l ++ '\n' :: unlines ls

/-- Specification: a scheme character of a URL: a letter, a digit, `+`, `-` or
`.`. -/
def scheme_char (c : Char) : Bool :=
  isalnum c || c = '+' || c = '-' || c = '.'

/-- Specification: the url has an explicit scheme, one or more scheme
characters followed by `:`. -/
def has_scheme_spec (url : List Char) : Bool :=
  url.takeWhile scheme_char ≠ [] && (url.dropWhile scheme_char).head? = some ':'

/-- The sample of the glib functions for ASCII text, with a clock that stands
at `tick`. -/
def ascii_env (tick : Int) : ImportEnv :=
  { g_utf8_strdown := fun s => s.map tolower,
    g_utf8_validate := fun s => s.all (fun c => decide (c.toNat < 128)),
    g_convert := fun s => s,
    time := fun _ => tick }

/-- A folder `F` that holds the link `c.bm`, visited at time 7, and next to it
the link `a&b.bm`, added at time 5. -/
def heap_export : Heap :=
  [{ isFolder := 1, name := some "r", list := [1, 2] },
   { isFolder := 1, name := some "F<1>", list := [3], parent := some 0 },
   { isFolder := 0, name := some "a&b.bm", url := some "/srv/x", parent := some 0,
     time_added := 5 },
   { isFolder := 0, name := some "c.bm", url := some "svn+ssh://h/x", parent := some 1,
     time_last_visited := 7 }]

/-- The element that `add_bookmark_item` writes for a folder without children
and metadata. -/
def xml_written_folder (title : String) : xmlNode :=
  xml_element "folder" [("folded", "no")]
    [xml_text "\n", xml_title title,
     xml_element "info" []
       [xml_text "\n",
        xml_element "metadata" [] [xml_field "time_visited" "0", xml_field "time_added" "0"]]]

/-- The lines that the first `n` calls of `bookmark_read_line_from_html_file`
return on a stream. -/
def read_lines : Nat → List Char → List (List Char)
  | 0, _ => []
  | n + 1, stream =>
    match bookmark_read_line_from_html_file stream with
    | (none, _) => []
    | (some line, rest) => line :: read_lines n rest

/-- Specification: the first line of the file contains
`NETSCAPE-Bookmark-file`, or one of the ten lines that follow it contains
`Bookmarks`. -/
def accepts_spec (stream : List Char) : Bool :=
  ((read_lines 11 stream).take 1).any (fun l => decide ("NETSCAPE-Bookmark-file".data <:+: l)) ||
  ((read_lines 11 stream).drop 1).any (fun l => decide ("Bookmarks".data <:+: l))

/-- A file of eleven lines, the last of which is the only one with a marker. -/
def stream_marker_in_line_11 : List Char :=
  "x\nx\nx\nx\nx\nx\nx\nx\nx\nx\nBookmarks\n".data

/-- A root folder with the link `a.bm` to `http://a.com/`, which has no
dates. -/
def heap_plain_link : Heap :=
  [{ isFolder := 1, name := some "r", list := [1] },
   { isFolder := 0, name := some "a.bm", url := some "http://a.com/", parent := some 0 }]

/-- The text `__netscape_export_bookmarks` writes for the link of
`heap_plain_link`. -/
def text_plain_link : List Char :=
  bm_export_header ++ "\t<DT><A HREF=\"http://a.com/\">a</A>\n</DL><p>\n".data

/-- The heap that the import of `text_plain_link` builds when the clock stands
at `t`: the import folder and the link. -/
def heap_imported_link (t : Int) : Heap :=
  [{ isFolder := 1, name := some "imp", list := [1], time_added := t, time_last_visited := t },
   { isFolder := 0, name := some "a.bm", url := some "http://a.com/", parent := some 0,
     time_added := t, time_last_visited := t }]

/-- Specification: the fields of two items that the `compare` of the test
checks are equal. -/
def same_fields (a b : BookmarkItem) : Bool :=
  decide (a.thumbnail_file = b.thumbnail_file) && decide (a.isFolder = b.isFolder) &&
  decide (a.isDeleted = b.isDeleted) && decide (a.isOperatorBookmark = b.isOperatorBookmark) &&
  decide (a.visit_count = b.visit_count) && decide (a.time_added = b.time_added) &&
  decide (a.time_last_visited = b.time_last_visited) && decide (a.name = b.name) &&
  decide (a.url = b.url)

/-- Specification: the trees at `p1` in `h1` and at `p2` in `h2` are equal in
the fields of `same_fields`, down to the depth `fuel`: the items are, they
have as many children, and the children are pairwise, in order. -/
def same_tree : Nat → Heap → Nat → Heap → Nat → Bool
  | 0, _, _, _, _ => true
  | fuel + 1, h1, p1, h2, p2 =>
    same_fields (h1.deref p1) (h2.deref p2) &&
    decide ((h1.deref p1).list.length = (h2.deref p2).list.length) &&
    ((h1.deref p1).list.zip (h2.deref p2).list).all
      (fun c => same_tree fuel h1 c.1 h2 c.2)

/-- Files under `/home/user` of which `MyBookmarks.xml` holds the text `doc`,
which the parser reads as `doc_one_link`. -/
def files_one_link : Files :=
  { home := "/home/user",
    contents := fun p => if p = "/home/user/.bookmarks/MyBookmarks.xml" then some "doc" else none,
    fopen_w := fun _ => true,
    parse := fun s => if s = "doc" then some doc_one_link else none }

/-- Files under `home` without anything that can be read or written, and a
parser `parse`. -/
def files_none (home : String) (parse : String → Option xmlNode) : Files :=
  { home := home, contents := fun _ => none, fopen_w := fun _ => false, parse := parse }

/-- The document `<xbel><title>r</title><info/></xbel>`, whose `info` has no
`metadata`. -/
def doc_info_without_metadata : xmlNode :=
  xml_element "xbel" [] [xml_title "r", xml_element "info" [] []]

/-- The state of the importer at the start: the import folder `imp`, made at
time `t`, is the folder in scope. -/
def import_start (t : Int) : ImportState :=
  { h := [{ isFolder := 1, name := some "imp", time_added := t, time_last_visited := t }],
    bm_item := 0, name := [] }

/-- Specification: a byte of a title that the round trip keeps: ASCII, and
none of `NUL`, line feed and carriage return. -/
def title_char (c : Char) : Bool :=
  decide (c.toNat < 128) && (c != NUL) && (c != '\n') && (c != '\r')

/-- Specification: a byte of a url that the round trip keeps: ASCII, and none
of `NUL`, line feed, `"` and `<`. -/
def url_char (c : Char) : Bool :=
  decide (c.toNat < 128) && (c != NUL) && (c != '\n') && (c != '"') && (c != '<')

/-- A root folder `r` holding the folder `F`, which holds the operator link
`op.bm`, all of whose strings are set. -/
def heap_operator_link_full : Heap :=
  [{ isFolder := 1, name := some "r", list := [1] },
   { isFolder := 1, name := some "F", list := [2], parent := some 0 },
   { isFolder := 0, name := some "op.bm", url := some "u", favicon_file := some "f",
     thumbnail_file := some "t", parent := some 1, isOperatorBookmark := 1 }]

/-- A link `x.bm` that has no parent. -/
def heap_lone_link : Heap :=
  [{ isFolder := 0, name := some "x.bm", url := some "u" }]

/-- The document `<xbel><title>r</title><folder><title>F.bm</title></folder>
<bookmark href="u"><title>a</title></bookmark></xbel>`. -/
def doc_folder_bm_link_a : xmlNode :=
  xml_element "xbel" [] [xml_title "r", xml_folder "F.bm" [], xml_link "a" "u" []]

/-- A root `r` with the link `F.bm`. -/
def heap_link_F : Heap :=
  [{ isFolder := 1, name := some "r", list := [1] },
   { isFolder := 0, name := some "F.bm", url := some "u", parent := some 0 }]

/-- The lines of the macro `bm_export_header`. -/
def bm_export_header_lines : List (List Char) :=
  ["<!DOCTYPE NETSCAPE-Bookmark-file-1>".data,
   "<!-- This is an automatically generated file.".data,
   "It will be read and overwritten.".data,
   "Do Not Edit! -->".data,
   "<META HTTP-EQUIV=\"Content-Type\" CONTENT=\"text/html; charset=UTF-8\">".data,
   "<TITLE>Bookmarks</TITLE>".data,
   "<H1>Bookmarks</H1>".data,
   [],
   "<DL><p>".data]

/-- The rounds of the loop of `netscape_import_bookmarks` on the given lines,
each of which is read with its line break. -/
def import_lines (env : ImportEnv) (st : ImportState) (ls : List (List Char)) :
    Option ImportState :=
  ls.foldlM (fun st l => netscape_import_line env st (l ++ ['\n'])) st

mutual
/-- Specification: the trees for which the round trip through the Netscape
format is proved.  A folder has a name of title bytes and no url; a link has a
name that ends in `.bm` with title bytes before it, a url of url bytes that
the exporter writes as it is (`export_href` adds no `http://`), and no
children. -/
def round_trips : ItemTree → Bool
  | .mk item children =>
    if item.isFolder ≠ 0 then
      (match item.name with
       | some name => name.data.all title_char
       | none => false) &&
      item.url.isNone && round_trips_list children
    else
      (match item.name with
       | some name =>
         decide (3 ≤ name.length) && decide (name.data.drop (name.length - 3) = ".bm".data) &&
           (name.data.take (name.length - 3)).all title_char
       | none => false) &&
      (match item.url with
       | some url => url.data.all url_char && decide (export_href url.data = url.data)
       | none => false) &&
      children.isEmpty
/-- The same for each of the trees. -/
def round_trips_list : List ItemTree → Bool
  | [] => true
  | T :: Ts => round_trips T && round_trips_list Ts
end

mutual
/-- Specification: the item at `p` in the heap mirrors the tree: it is a folder
exactly when the top of the tree is, it has the same name and the same url,
its parent is `parent`, and its children mirror the trees below, one by one in
order.  All the items lie at the pointers from `lo` up to `hi`, `hi`
excluded. -/
def Mirrors (lo hi : Nat) (h : Heap) (parent p : Nat) : ItemTree → Prop
  | .mk item children =>
    lo ≤ p ∧ p < hi ∧ ((h.deref p).isFolder ≠ 0 ↔ item.isFolder ≠ 0) ∧
    (h.deref p).name = item.name ∧ (h.deref p).url = item.url ∧
    (h.deref p).parent = some parent ∧ MirrorsList lo hi h p (h.deref p).list children
/-- The items at the pointers mirror the trees, one by one. -/
def MirrorsList (lo hi : Nat) (h : Heap) (parent : Nat) : List Nat → List ItemTree → Prop
  | [], [] => True
  | p :: ps, T :: Ts => Mirrors lo hi h parent p T ∧ MirrorsList lo hi h parent ps Ts
  | [], _ :: _ => False
  | _ :: _, [] => False
end

/-- What the rounds of the importer on the records of the trees `Ts` do to the
heap `h` when `cur` is the folder in scope: the heap grows, the objects other
than `cur` stay, and `cur` gets new children that mirror the trees. -/
def ImportPost (cur : Nat) (Ts : List ItemTree) (h h1 : Heap) : Prop :=
  h.length ≤ h1.length ∧
  (∀ p, p < h.length → p ≠ cur → h1.deref p = h.deref p) ∧
  ∃ ps, h1.deref cur = { h.deref cur with list := (h.deref cur).list ++ ps } ∧
    MirrorsList h.length h1.length h1 cur ps Ts

/-- A root folder `r` with the folder `F<1>`, which holds the link `a&b.bm` to
`http://a.com/?q=1>2`, added at time 5, and with the link `c.bm` to the
absolute path `/srv/x`. -/
def heap_round_trip : Heap :=
  [{ isFolder := 1, name := some "r", list := [1, 3] },
   { isFolder := 1, name := some "F<1>", list := [2], parent := some 0 },
   { isFolder := 0, name := some "a&b.bm", url := some "http://a.com/?q=1>2", parent := some 1,
     time_added := 5 },
   { isFolder := 0, name := some "c.bm", url := some "/srv/x", parent := some 0 }]

/-- The trees below the root of `heap_round_trip`. -/
def trees_round_trip : List ItemTree :=
  [.mk (heap_round_trip.deref 1) [.mk (heap_round_trip.deref 2) []],
   .mk (heap_round_trip.deref 3) []]

/-- A root folder `r` with the link `a.bm` to `example.com`, a url without a
scheme. -/
def heap_bare_url : Heap :=
  [{ isFolder := 1, name := some "r", list := [1] },
   { isFolder := 0, name := some "a.bm", url := some "example.com", parent := some 0 }]

end OssoBookmark

/-! # Theorems -/

namespace OssoBookmark

open xmlElementType

/-! ## Entity decoding (C7, C8) -/

theorem ns_parse_loop_acc (fuel : Nat) : ∀ (it acc : List Char),
    ns_parse_loop fuel it acc = acc ++ ns_parse_loop fuel it [] := by
  induction fuel with
  | zero => intro it acc; simp [ns_parse_loop]
  | succ f ih =>
    intro it acc
    simp only [ns_parse_loop]
    split_ifs <;> first
      | exact ih _ _
      | (rw [ih _ (acc ++ _), ih _ ([] ++ _)]; simp)

theorem c_str_append_NUL (a x : List Char) (h : NUL ∉ a) : c_str (a ++ NUL :: x) = a := by
  induction a with
  | nil => simp [c_str]
  | cons c r ih =>
    have hc : c ≠ NUL := fun e => h (by simp [e])
    have hr : NUL ∉ r := fun e => h (by simp [e])
    simp [c_str, hc] at *
    exact ih hr

theorem amp_ok_append (a b : List Char) (h : amp_ok (a ++ b) = true) : amp_ok b = true := by
  induction a with
  | nil => simpa using h
  | cons c r ih =>
    simp only [List.cons_append, amp_ok, Bool.and_eq_true] at h
    exact ih h.2

theorem unescape_spec_skip (a b : List Char) : unescape_spec (a ++ b) a.length = unescape_spec b 0 := by
  induction a with
  | nil => simp
  | cons c r ih => simpa [unescape_spec] using ih

theorem step_amp (f : Nat) (r acc : List Char) :
    ns_parse_loop (f + 1) ("&amp;".data ++ r) acc = ns_parse_loop f r (acc ++ ['&']) := by
  rfl

theorem step_lt (f : Nat) (r acc : List Char) :
    ns_parse_loop (f + 1) ("&lt;".data ++ r) acc = ns_parse_loop f r (acc ++ ['<']) := by
  rfl

theorem step_gt (f : Nat) (r acc : List Char) :
    ns_parse_loop (f + 1) ("&gt;".data ++ r) acc = ns_parse_loop f r (acc ++ ['>']) := by
  rfl

theorem step_quot (f : Nat) (r acc : List Char) :
    ns_parse_loop (f + 1) ("&quot;".data ++ r) acc = ns_parse_loop f r (acc ++ ['"']) := by
  rfl

theorem step_39 (f : Nat) (r acc : List Char) :
    ns_parse_loop (f + 1) ("&#39;".data ++ r) acc = ns_parse_loop f r (acc ++ [Char.ofNat 39]) := by
  rfl

theorem step_plain (f : Nat) (c : Char) (r acc : List Char) (hc : c ≠ '&') :
    ns_parse_loop (f + 1) (c :: r) acc = ns_parse_loop f r (acc ++ [c]) := by
  simp [ns_parse_loop, peek, hc]

theorem entity_at_plain (c : Char) (r : List Char) (hc : c ≠ '&') : entity_at (c :: r) = none := by
  have h : ('&' == c) = false := by simpa using fun e => hc e.symm
  simp [entity_at, five_entities, List.isPrefixOf, h]

theorem entity_at_some (s : List Char) (e : List Char × Char) (h : entity_at s = some e) :
    e ∈ five_entities ∧ ∃ r, s = e.1 ++ r := by
  unfold entity_at at h
  refine ⟨List.mem_of_find?_eq_some h, ?_⟩
  have h2 := List.find?_some h
  simp only [List.isPrefixOf_iff_prefix] at h2
  obtain ⟨r, hr⟩ := h2
  exact ⟨r, hr.symm⟩

theorem ns_parse_loop_spec : ∀ (n : Nat) (s : List Char), s.length ≤ n → NUL ∉ s →
    amp_ok s = true → ∀ (fuel : Nat) (tail acc : List Char), s.length + 1 ≤ fuel → NUL ∉ acc →
    c_str (ns_parse_loop fuel (s ++ NUL :: tail) acc) = acc ++ unescape_spec s 0 := by
  intro n
  induction n with
  | zero =>
    intro s hs _ _ fuel tail acc hf hacc
    have : s = [] := List.length_eq_zero.mp (Nat.le_zero.mp hs)
    subst this
    obtain ⟨f, rfl⟩ : ∃ f, fuel = f + 1 := ⟨fuel - 1, by simp at hf; omega⟩
    have h1 : ns_parse_loop (f + 1) ([] ++ NUL :: tail) acc = ns_parse_loop f tail (acc ++ [NUL]) := by
      rfl
    rw [h1, ns_parse_loop_acc, List.append_assoc, List.singleton_append, c_str_append_NUL _ _ hacc]
    simp [unescape_spec]
  | succ n ih =>
    intro s hs h0 hok fuel tail acc hf hacc
    cases s with
    | nil => exact ih [] (by simp) h0 hok fuel tail acc hf hacc
    | cons c r =>
      obtain ⟨f, rfl⟩ : ∃ f, fuel = f + 1 := ⟨fuel - 1, by simp at hf; omega⟩
      have hcN : c ≠ NUL := fun e => h0 (by simp [e])
      have hrN : NUL ∉ r := fun e => h0 (by simp [e])
      have hok0 := hok
      simp only [amp_ok, Bool.and_eq_true, Bool.or_eq_true] at hok
      by_cases hc : c = '&'
      · have hsome : (entity_at (c :: r)).isSome = true := by
          rcases hok.1 with h | h
          · simp [hc] at h
          · exact h
        obtain ⟨e, he⟩ := Option.isSome_iff_exists.mp hsome
        obtain ⟨hmem, r2, hr2⟩ := entity_at_some _ _ he
        have hspec : unescape_spec (c :: r) 0 = e.2 :: unescape_spec r2 0 := by
          have hr3 : r = e.1.tail ++ r2 := by
            cases h1 : e.1 with
            | nil =>
              simp only [five_entities, List.mem_cons, List.mem_singleton, List.not_mem_nil,
                or_false] at hmem
              rcases hmem with rfl | rfl | rfl | rfl | rfl <;> simp at h1
            | cons a t => rw [h1] at hr2; simp at hr2; simp [hr2.2]
          have hl : e.1.length - 1 = e.1.tail.length := by simp
          simp only [unescape_spec, he, hl]
          rw [hr3, unescape_spec_skip]
        rw [hspec]
        rw [hr2] at hok0 h0 hs hf ⊢
        have hok3 := amp_ok_append _ _ hok0
        have h03 : NUL ∉ r2 := fun e => h0 (by simp [e])
        simp only [List.length_append] at hs hf
        have hacc2 : ∀ ch : Char, ch ≠ NUL → NUL ∉ acc ++ [ch] := by
          intro ch hch; simpa using ⟨hacc, fun e => hch e.symm⟩
        simp only [five_entities, List.mem_cons, List.mem_singleton, List.not_mem_nil,
          or_false] at hmem
        rcases hmem with rfl | rfl | rfl | rfl | rfl
        · rw [List.append_assoc, step_amp,
            ih r2 (by simp at hs; omega) h03 hok3 f tail _ (by simp at hf; omega)
              (hacc2 _ (by decide))]
          simp
        · rw [List.append_assoc, step_lt,
            ih r2 (by simp at hs; omega) h03 hok3 f tail _ (by simp at hf; omega)
              (hacc2 _ (by decide))]
          simp
        · rw [List.append_assoc, step_gt,
            ih r2 (by simp at hs; omega) h03 hok3 f tail _ (by simp at hf; omega)
              (hacc2 _ (by decide))]
          simp
        · rw [List.append_assoc, step_quot,
            ih r2 (by simp at hs; omega) h03 hok3 f tail _ (by simp at hf; omega)
              (hacc2 _ (by decide))]
          simp
        · rw [List.append_assoc, step_39,
            ih r2 (by simp at hs; omega) h03 hok3 f tail _ (by simp at hf; omega)
              (hacc2 _ (by decide))]
          simp
      · simp only [List.length_cons] at hs hf
        rw [List.cons_append, step_plain _ _ _ _ hc]
        rw [ih r (by omega) hrN hok.2 f tail _ (by omega)
          (by simpa using ⟨hacc, fun e => hcN e.symm⟩)]
        simp [unescape_spec, entity_at_plain c r hc]

theorem unescape_spec_plain (s : List Char) (h : '&' ∉ s) : unescape_spec s 0 = s := by
  induction s with
  | nil => rfl
  | cons c r ih =>
    have hc : c ≠ '&' := fun e => h (by simp [e])
    have hr : '&' ∉ r := fun e => h (by simp [e])
    simp [unescape_spec, entity_at_plain c r hc, ih hr]

theorem strlen_c_mem (s tail : List Char) (h : NUL ∉ s) : strlen (s ++ NUL :: tail) = s.length := by
  simp [strlen, c_str_append_NUL s tail h]

theorem ns_parse_bookmark_item_spec (s tail : List Char) (h0 : NUL ∉ s)
    (hamp : amp_ok s = true) :
    ns_parse_bookmark_item (s ++ NUL :: tail) = unescape_spec s 0 := by
  unfold ns_parse_bookmark_item
  rw [strlen_c_mem s tail h0]
  simpa using ns_parse_loop_spec s.length s (Nat.le_refl _) h0 hamp (s.length + 1) tail []
    (Nat.le_refl _) (by simp)

/-- C7: on a string in which every `&` begins one of the five entities
`&amp;` `&lt;` `&gt;` `&quot;` `&#39;`, `ns_parse_bookmark_item` returns the
string with each entity replaced by its character and every other character
kept, whatever lies in memory behind the terminator; so a string without `&`
comes back unchanged and `Tom &amp; Jerry&#39;s` gives `Tom & Jerry's`. -/
theorem ns_parse_bookmark_item_five_entities (s tail : List Char) (h0 : NUL ∉ s)
    (hamp : amp_ok s = true) :
    ns_parse_bookmark_item (s ++ NUL :: tail) = unescape_spec s 0 ∧
    ('&' ∉ s → ns_parse_bookmark_item (s ++ NUL :: tail) = s) ∧
    ns_parse_bookmark_item (c_mem "Tom &amp; Jerry&#39;s" tail) = "Tom & Jerry's".data := by
  refine ⟨ns_parse_bookmark_item_spec s tail h0 hamp, ?_, ?_⟩
  · intro h
    rw [ns_parse_bookmark_item_spec s tail h0 hamp, unescape_spec_plain s h]
  · unfold c_mem
    rw [ns_parse_bookmark_item_spec _ tail (by decide) (by decide)]
    decide

theorem ns_parse_bookmark_item_five_entities_witness :
    ns_parse_bookmark_item ("a &lt; b &amp;&amp; c &gt; d".data ++ NUL :: "</A>".data)
      = unescape_spec "a &lt; b &amp;&amp; c &gt; d".data 0 ∧
    ('&' ∉ "a &lt; b &amp;&amp; c &gt; d".data →
      ns_parse_bookmark_item ("a &lt; b &amp;&amp; c &gt; d".data ++ NUL :: "</A>".data)
        = "a &lt; b &amp;&amp; c &gt; d".data) ∧
    ns_parse_bookmark_item (c_mem "Tom &amp; Jerry&#39;s" "</A>".data) = "Tom & Jerry's".data :=
  ns_parse_bookmark_item_five_entities "a &lt; b &amp;&amp; c &gt; d".data "</A>".data
    (by decide) (by decide)

theorem atoi_65 (r : List Char) : atoi ('6' :: '5' :: ';' :: r) = 65 := by
  simp [atoi, strtol, List.dropWhile, isspace, isdigit, digitsVal, clampLong, toInt32]

theorem fmt_65 : fmt_d_len 65 = 2 ∧ fmt_c 65 = ['A'] := by decide

theorem step_65 (f : Nat) (r acc : List Char) :
    ns_parse_loop (f + 1) ("&#65;".data ++ r) acc = ns_parse_loop f (';' :: r) (acc ++ ['A']) := by
  have h : "&#65;".data ++ r = '&' :: '#' :: '6' :: '5' :: ';' :: r := rfl
  rw [h]
  simp [ns_parse_loop, peek, g_strncasecmp_eq, tolower, atoi_65, fmt_65, NUL]

/-- C8 (code bug): on the numeric character reference `&#65;` the function
`ns_parse_bookmark_item` returns `A;`, not `A`: the digits are passed over but
the `;` that ends the reference is copied to the result. -/
theorem ns_parse_bookmark_item_numeric_keeps_semicolon (tail : List Char) :
    ns_parse_bookmark_item (c_mem "&#65;" tail) = "A;".data ∧
    ns_parse_bookmark_item (c_mem "&#65;" tail) ≠ "A".data := by
  have h : ns_parse_bookmark_item (c_mem "&#65;" tail) = "A;".data := by
    unfold ns_parse_bookmark_item c_mem
    rw [strlen_c_mem _ tail (by decide)]
    have e : "&#65;".data.length + 1 = 3 + 2 + 1 := rfl
    rw [e, step_65, step_plain _ _ _ _ (by decide)]
    have h1 : ∀ f, ns_parse_loop (f + 1) (NUL :: tail) ([] ++ ['A'] ++ [';'])
        = ns_parse_loop f tail (['A', ';'] ++ [NUL]) := fun f => rfl
    rw [h1, ns_parse_loop_acc, List.append_assoc, List.singleton_append,
      c_str_append_NUL _ _ (by decide)]
  exact ⟨h, by rw [h]; decide⟩

/-! ## The heap of bookmark items and `print_root_names` -/

theorem Heap.length_upd (h : Heap) (p : Nat) (f : BookmarkItem → BookmarkItem) :
    (h.upd p f).length = h.length := by
  simp [Heap.upd]

theorem Heap.deref_upd_same (h : Heap) (p : Nat) (f : BookmarkItem → BookmarkItem)
    (hp : p < h.length) : (h.upd p f).deref p = f (h.deref p) := by
  simp [Heap.upd, Heap.deref, List.getD_eq_getElem?_getD, List.getElem?_set, hp]

theorem Heap.deref_upd_other (h : Heap) (p q : Nat) (f : BookmarkItem → BookmarkItem)
    (hq : q ≠ p) : (h.upd p f).deref q = h.deref q := by
  simp [Heap.upd, Heap.deref, List.getD_eq_getElem?_getD, List.getElem?_set, Ne.symm hq]

theorem Heap.deref_append_lt (h x : Heap) (p : Nat) (hp : p < h.length) :
    Heap.deref (h ++ x) p = h.deref p := by
  simp [Heap.deref, List.getD_eq_getElem?_getD, List.getElem?_append_left hp]

theorem Heap.deref_alloc (h : Heap) (z : BookmarkItem) :
    Heap.deref (h ++ [z]) h.length = z := by
  simp [Heap.deref, List.getD_eq_getElem?_getD]

theorem assign_metadata_field_shape (it : BookmarkItem) (n : xmlNode) :
    (assign_metadata_field it n).parent = it.parent ∧
    (assign_metadata_field it n).isFolder = it.isFolder ∧
    (assign_metadata_field it n).url = it.url ∧
    (assign_metadata_field it n).name = it.name ∧
    (assign_metadata_field it n).list = it.list := by
  unfold assign_metadata_field
  split_ifs <;> simp

theorem foldl_metadata_shape (ns : List xmlNode) : ∀ (it : BookmarkItem),
    (ns.foldl assign_metadata_field it).parent = it.parent ∧
    (ns.foldl assign_metadata_field it).isFolder = it.isFolder ∧
    (ns.foldl assign_metadata_field it).url = it.url ∧
    (ns.foldl assign_metadata_field it).name = it.name ∧
    (ns.foldl assign_metadata_field it).list = it.list := by
  induction ns with
  | nil => intro it; simp
  | cons n r ih =>
    intro it
    simp only [List.foldl_cons]
    have h1 := ih (assign_metadata_field it n)
    have h2 := assign_metadata_field_shape it n
    exact ⟨h1.1.trans h2.1, h1.2.1.trans h2.2.1, h1.2.2.1.trans h2.2.2.1,
      h1.2.2.2.1.trans h2.2.2.2.1, h1.2.2.2.2.trans h2.2.2.2.2⟩

theorem assign_node_metadata_shape (it it1 : BookmarkItem) (node : xmlNode)
    (e : assign_node_metadata it node = some it1) :
    it1.parent = it.parent ∧ it1.isFolder = it.isFolder ∧ it1.url = it.url ∧
    it1.name = it.name ∧ it1.list = it.list := by
  unfold assign_node_metadata at e
  split at e
  · simp at e
  · simp only [Option.some.injEq] at e
    rw [← e]
    exact foldl_metadata_shape _ it

theorem raise_visit_count_root (fuel : Nat) (bm vc : Nat) (h : Heap)
    (hp : (h.deref bm).parent = none) :
    ∃ h1, raise_visit_count (fuel + 1) (some bm) vc h = some h1 ∧ h1.length = h.length ∧
      (∀ i, i ≠ bm → h1.deref i = h.deref i) ∧
      (h1.deref bm).parent = (h.deref bm).parent ∧
      (h1.deref bm).isFolder = (h.deref bm).isFolder ∧
      (h1.deref bm).url = (h.deref bm).url ∧
      (h1.deref bm).name = (h.deref bm).name ∧
      (h1.deref bm).list = (h.deref bm).list := by
  by_cases hlt : bm < h.length
  · by_cases hv : (h.deref bm).visit_count < vc
    · refine ⟨h.upd bm (fun it => { it with visit_count := vc }), ?_, ?_, ?_, ?_⟩
      · simp only [raise_visit_count, hv, if_true]
        rw [Heap.deref_upd_same _ _ _ hlt]
        simp only [hp]
        cases fuel <;> rfl
      · exact Heap.length_upd _ _ _
      · intro i hi; exact Heap.deref_upd_other _ _ _ _ hi
      · rw [Heap.deref_upd_same _ _ _ hlt]; simp
    · refine ⟨h, ?_, rfl, fun _ _ => rfl, rfl, rfl, rfl, rfl, rfl⟩
      simp only [raise_visit_count, hv, if_false, hp]
  · have hz : h.deref bm = BookmarkItem.zero := by
      simp [Heap.deref, List.getD_eq_getElem?_getD, List.getElem?_eq_none (Nat.le_of_not_lt hlt)]
    have hu : ∀ f, h.upd bm f = h := by
      intro f; simp [Heap.upd, List.set_eq_of_length_le (Nat.le_of_not_lt hlt)]
    refine ⟨h, ?_, rfl, fun _ _ => rfl, rfl, rfl, rfl, rfl, rfl⟩
    simp only [raise_visit_count, hu, ite_self, hp]

theorem ItemOK_mono (f1 f2 : Bool) (it : BookmarkItem) (hf : f1 = true → f2 = true)
    (h : ItemOK f2 it) : ItemOK f1 it :=
  ⟨h.1, fun a => h.2 (hf a)⟩

theorem links_flat_list_append (a b : List xmlNode) :
    links_flat_list (a ++ b) = (links_flat_list a && links_flat_list b) := by
  induction a with
  | nil => simp [links_flat_list]
  | cons c r ih =>
    have e : links_flat_list (r.append b) = links_flat_list (r ++ b) := rfl
    simp only [List.cons_append, links_flat_list]
    rw [e, ih, Bool.and_assoc]

theorem last_title_append (a b : List xmlNode) : ∀ init : Option String,
    last_title (a ++ b) init = last_title b (last_title a init) := by
  induction a with
  | nil => intro init; rfl
  | cons c r ih => intro init; simp only [List.cons_append, last_title]; exact ih _

theorem zero_fields : BookmarkItem.zero.parent = none ∧ BookmarkItem.zero.isFolder = 0 ∧
    BookmarkItem.zero.url = none ∧ BookmarkItem.zero.name = none ∧ BookmarkItem.zero.list = [] :=
  ⟨rfl, rfl, rfl, rfl, rfl⟩

theorem ChildOK_congr (h h1 : Heap) (bm : Nat) (c : xmlNode) (k : Nat)
    (e : h1.deref k = h.deref k) (hc : ChildOK h bm c k) : ChildOK h1 bm c k := by
  unfold ChildOK at *
  rw [e]; exact hc

theorem LoopPost_nil (bm : Nat) (h : Heap) : LoopPost [] bm h h :=
  ⟨Nat.le_refl _, fun _ _ _ => rfl, rfl, rfl, rfl, rfl, ⟨[], by simp, by simp⟩,
    fun i h1 h2 => absurd h2 (by omega)⟩

theorem LoopPost_append (a b : List xmlNode) (bm : Nat) (h h5 h1 : Heap) (hb : bm < h.length)
    (P1 : LoopPost a bm h h5) (P2 : LoopPost b bm h5 h1) : LoopPost (a ++ b) bm h h1 := by
  have hl1 := P1.len
  have hl2 := P2.len
  refine ⟨by omega, ?_, ?_, ?_, ?_, ?_, ?_, ?_⟩
  · intro i hi hne
    rw [P2.frame i (by omega) hne, P1.frame i hi hne]
  · rw [P2.parent, P1.parent]
  · rw [P2.isFolder, P1.isFolder]
  · rw [P2.url, P1.url]
  · rw [P2.name, P1.name, last_title_append]
  · obtain ⟨ids1, e1, f1⟩ := P1.list
    obtain ⟨ids2, e2, f2⟩ := P2.list
    refine ⟨ids1 ++ ids2, by rw [e2, e1, List.append_assoc], ?_⟩
    rw [List.filter_append]
    apply List.rel_append
    · refine f1.imp ?_
      intro c k ⟨k1, k2, k3⟩
      exact ⟨k1, by omega, ChildOK_congr _ _ _ _ _ (P2.frame k k2 (by omega)) k3⟩
    · refine f2.imp ?_
      intro c k ⟨k1, k2, k3⟩
      exact ⟨by omega, k2, k3⟩
  · intro i hi1 hi2
    by_cases hi : i < h5.length
    · rw [P2.frame i hi (by omega)]
      exact ItemOK_mono _ _ _ (by rw [links_flat_list_append]; simp; tauto) (P1.items i hi1 hi)
    · exact ItemOK_mono _ _ _ (by rw [links_flat_list_append]; simp)
        (P2.items i (by omega) hi2)

/-- A step of the loop that only rewrites fields of `bm` other than those the
claims speak of. -/
theorem LoopPost_plain (node : xmlNode) (bm : Nat) (h : Heap) (it1 : BookmarkItem)
    (hb : bm < h.length) (hnb : builds_item node = false)
    (s1 : it1.parent = (h.deref bm).parent) (s2 : it1.isFolder = (h.deref bm).isFolder)
    (s3 : it1.url = (h.deref bm).url) (s4 : it1.list = (h.deref bm).list)
    (s5 : it1.name = if node.name = "title" then xmlNodeGetContent node else (h.deref bm).name) :
    LoopPost [node] bm h (h.upd bm (fun _ => it1)) := by
  have hd := Heap.deref_upd_same h bm (fun _ => it1) hb
  refine ⟨by rw [Heap.length_upd], ?_, ?_, ?_, ?_, ?_, ?_, ?_⟩
  · intro i _ hne; exact Heap.deref_upd_other _ _ _ _ hne
  · rw [hd, s1]
  · rw [hd, s2]
  · rw [hd, s3]
  · rw [hd, s5]; rfl
  · exact ⟨[], by rw [hd, s4]; simp, by simp [List.filter, hnb]⟩
  · intro i hi1 hi2
    rw [Heap.length_upd] at hi2
    omega

theorem links_flat_list_of_no_items (cs : List xmlNode)
    (h : cs.all (fun d => !builds_item d) = true) : links_flat_list cs = true := by
  induction cs with
  | nil => simp [links_flat_list]
  | cons c r ih =>
    simp only [List.all_cons, Bool.and_eq_true, Bool.not_eq_true'] at h
    have hb : c.name ≠ "bookmark" ∧ c.name ≠ "folder" := by
      have := h.1
      simp only [builds_item, Bool.or_eq_false_iff, decide_eq_false_iff_not] at this
      exact this
    have ih2 := ih (by simpa using h.2)
    simp only [links_flat_list, hb.1, hb.2, if_false, ih2]
    split_ifs <;> rfl

theorem filter_of_no_items (cs : List xmlNode)
    (h : cs.all (fun d => !builds_item d) = true) : cs.filter builds_item = [] := by
  rw [List.filter_eq_nil_iff]
  intro a ha
  have := List.all_eq_true.mp h a ha
  simpa using this

theorem step_folder_post (node : xmlNode) (bm : Nat) (h : Heap) (b : Nat) (h1c : Heap)
    (hb : bm < h.length) (hn : node.name = "folder") (C : CallPost node h b h1c) :
    LoopPost [node] bm h
      ((h1c.upd b (fun it => { it with isFolder := 1, parent := some bm })).upd bm
        (fun it => { it with list := it.list ++ [b] })) := by
  have hbe := C.id_eq
  have hl := C.len
  have hne : bm ≠ b := by omega
  have hdb : ((h1c.upd b (fun it => { it with isFolder := 1, parent := some bm })).upd bm
        (fun it => { it with list := it.list ++ [b] })).deref b
      = { h1c.deref b with isFolder := 1, parent := some bm } := by
    rw [Heap.deref_upd_other _ _ _ _ (Ne.symm hne), Heap.deref_upd_same _ _ _ (by omega)]
  have hdm : ((h1c.upd b (fun it => { it with isFolder := 1, parent := some bm })).upd bm
        (fun it => { it with list := it.list ++ [b] })).deref bm
      = { h.deref bm with list := (h.deref bm).list ++ [b] } := by
    rw [Heap.deref_upd_same _ _ _ (by rw [Heap.length_upd]; omega),
      Heap.deref_upd_other _ _ _ _ hne, C.frame bm hb]
  have hnb : builds_item node = true := by simp [builds_item, hn]
  refine ⟨by simp only [Heap.length_upd]; omega, ?_, ?_, ?_, ?_, ?_, ?_, ?_⟩
  · intro i hi hne2
    rw [Heap.deref_upd_other _ _ _ _ hne2, Heap.deref_upd_other _ _ _ _ (by omega), C.frame i hi]
  · rw [hdm]
  · rw [hdm]
  · rw [hdm]
  · rw [hdm]; simp [last_title, hn]
  · refine ⟨[b], by rw [hdm], ?_⟩
    simp only [List.filter, hnb, List.forall₂_cons, List.Forall₂.nil, and_true,
      Heap.length_upd]
    refine ⟨by omega, by omega, ?_⟩
    unfold ChildOK
    rw [hdb]
    refine ⟨rfl, fun _ => ⟨rfl, C.url⟩, fun hx => ?_⟩
    rw [hn] at hx; simp at hx
  · intro i hi1 hi2
    simp only [Heap.length_upd] at hi2
    by_cases hib : i = b
    · subst hib
      rw [hdb]
      exact ⟨fun _ => C.url, fun _ hx => by simp at hx⟩
    · rw [Heap.deref_upd_other _ _ _ _ (by omega), Heap.deref_upd_other _ _ _ _ hib]
      refine ItemOK_mono _ _ _ ?_ (C.items i (by omega) hi2)
      simp only [links_flat_list, hn]
      simp

theorem step_bookmark_post (node : xmlNode) (bm : Nat) (h : Heap) (b : Nat) (h1c : Heap)
    (hb : bm < h.length) (hp : (h.deref bm).parent = none) (hn : node.name = "bookmark")
    (C : CallPost node h b h1c) (h3 : Heap)
    (e3 : h3 = (h1c.upd b (fun it =>
          { it with url := xmlGetProp node "href",
                    thumbnail_file := xmlGetProp node "thumbnail",
                    favicon_file := xmlGetProp node "favicon",
                    parent := some bm })).upd bm (fun it => { it with list := it.list ++ [b] })) :
    ∃ h4, raise_visit_count (h3.length + 1) (some bm) (h3.deref b).visit_count h3 = some h4 ∧
      LoopPost [node] bm h
        (h4.upd b (fun it => { it with name := some (fmt_s it.name ++ ".bm") })) := by
  have hbe := C.id_eq
  have hl := C.len
  have hne : bm ≠ b := by omega
  have hl3 : h3.length = h1c.length := by rw [e3]; simp only [Heap.length_upd]
  have hdb : h3.deref b = { h1c.deref b with
      url := xmlGetProp node "href", thumbnail_file := xmlGetProp node "thumbnail",
      favicon_file := xmlGetProp node "favicon", parent := some bm } := by
    rw [e3, Heap.deref_upd_other _ _ _ _ (Ne.symm hne), Heap.deref_upd_same _ _ _ (by omega)]
  have hdm : h3.deref bm = { h.deref bm with list := (h.deref bm).list ++ [b] } := by
    rw [e3, Heap.deref_upd_same _ _ _ (by rw [Heap.length_upd]; omega),
      Heap.deref_upd_other _ _ _ _ hne, C.frame bm hb]
  have hdo : ∀ i, i ≠ bm → i ≠ b → h3.deref i = h1c.deref i := by
    intro i h1 h2
    rw [e3, Heap.deref_upd_other _ _ _ _ h1, Heap.deref_upd_other _ _ _ _ h2]
  obtain ⟨h4, hr, hl4, ho4, p1, p2, p3, p4, p5⟩ :=
    raise_visit_count_root h3.length bm (h3.deref b).visit_count h3 (by rw [hdm]; exact hp)
  refine ⟨h4, hr, ?_⟩
  have h5b : (h4.upd b (fun it => { it with name := some (fmt_s it.name ++ ".bm") })).deref b
      = { h3.deref b with name := some (fmt_s (h3.deref b).name ++ ".bm") } := by
    rw [Heap.deref_upd_same _ _ _ (by omega), ho4 b (Ne.symm hne)]
  have h5o : ∀ i, i ≠ b →
      (h4.upd b (fun it => { it with name := some (fmt_s it.name ++ ".bm") })).deref i
        = h4.deref i := fun i hi => Heap.deref_upd_other _ _ _ _ hi
  have hnb : builds_item node = true := by simp [builds_item, hn]
  refine ⟨by simp only [Heap.length_upd]; omega, ?_, ?_, ?_, ?_, ?_, ?_, ?_⟩
  · intro i hi hne2
    rw [h5o i (by omega), ho4 i hne2, hdo i hne2 (by omega), C.frame i hi]
  · rw [h5o bm hne, p1, hdm]
  · rw [h5o bm hne, p2, hdm]
  · rw [h5o bm hne, p3, hdm]
  · rw [h5o bm hne, p4, hdm]; simp [last_title, hn]
  · refine ⟨[b], by rw [h5o bm hne, p5, hdm], ?_⟩
    simp only [List.filter, hnb, List.forall₂_cons, List.Forall₂.nil, and_true,
      Heap.length_upd]
    refine ⟨by omega, by omega, ?_⟩
    unfold ChildOK
    rw [h5b, hdb]
    refine ⟨rfl, fun hx => ?_, fun _ => ⟨C.isFolder, rfl, ?_⟩⟩
    · rw [hn] at hx; simp at hx
    · simp only [C.name]
  · intro i hi1 hi2
    simp only [Heap.length_upd] at hi2
    by_cases hib : i = b
    · subst hib
      rw [h5b, hdb]
      refine ⟨fun hx => absurd C.isFolder hx, fun hf _ => ?_⟩
      have hall : node.children.all (fun d => !builds_item d) = true := by
        simp only [links_flat_list, hn] at hf
        simpa using hf
      have hlist := C.list
      rw [filter_of_no_items _ hall, List.forall₂_nil_left_iff] at hlist
      exact hlist
    · rw [h5o i hib, ho4 i (by omega), hdo i (by omega) hib]
      refine ItemOK_mono _ _ _ ?_ (C.items i (by omega) (by omega))
      intro hf
      have hall : node.children.all (fun d => !builds_item d) = true := by
        simp only [links_flat_list, hn] at hf
        simpa using hf
      cases node with
      | mk t nm c ps cs =>
        simp only [links_flat]
        exact links_flat_list_of_no_items cs hall

mutual
theorem print_root_names_post (node : xmlNode) (h : Heap) (id : Nat) (h1 : Heap)
    (e : print_root_names node h = some (id, h1)) : CallPost node h id h1 := by
  match node with
  | .mk t nm c ps children =>
    unfold print_root_names at e
    simp only [create_bookmark_new] at e
    cases hl : print_root_names_loop children h.length (h ++ [BookmarkItem.zero]) with
    | none => rw [hl] at e; simp at e
    | some h2 =>
      rw [hl] at e
      simp only [Option.some.injEq, Prod.mk.injEq] at e
      obtain ⟨rfl, rfl⟩ := e
      have P := print_root_names_loop_post children h.length (h ++ [BookmarkItem.zero]) h2
        (by simp) (by rw [Heap.deref_alloc]; rfl) hl
      have hz := Heap.deref_alloc h BookmarkItem.zero
      have hlen : (h ++ [BookmarkItem.zero]).length = h.length + 1 := by simp
      refine ⟨rfl, ?_, ?_, ?_, ?_, ?_, ?_, ?_, ?_⟩
      · have := P.len; omega
      · intro i hi
        rw [P.frame i (by omega) (by omega), Heap.deref_append_lt _ _ _ hi]
      · rw [P.parent, hz]; rfl
      · rw [P.isFolder, hz]; rfl
      · rw [P.url, hz]; rfl
      · rw [P.name, hz]; rfl
      · obtain ⟨ids, h3, h4⟩ := P.list
        rw [h3, hz]
        simp only [zero_fields, List.nil_append, xmlNode.children]
        exact h4.imp (fun c k hk => hk.2.2)
      · intro i hi1 hi2
        exact P.items i (by omega) hi2
theorem print_root_names_loop_post (nodes : List xmlNode) (bm : Nat) (h h1 : Heap)
    (hb : bm < h.length) (hp : (h.deref bm).parent = none)
    (e : print_root_names_loop nodes bm h = some h1) : LoopPost nodes bm h h1 := by
  match nodes with
  | [] =>
    unfold print_root_names_loop at e
    simp only [Option.some.injEq] at e
    subst e
    exact LoopPost_nil bm h
  | node :: rest =>
    unfold print_root_names_loop at e
    by_cases ht : node.name = "title"
    · simp only [ht, if_true] at e
      have S := LoopPost_plain node bm h { h.deref bm with name := xmlNodeGetContent node } hb
        (by simp [builds_item, ht]) rfl rfl rfl rfl (by simp [ht])
      have P := print_root_names_loop_post rest bm _ h1 (by rw [Heap.length_upd]; exact hb)
        (by rw [Heap.deref_upd_same _ _ _ hb]; exact hp) e
      exact LoopPost_append [node] rest bm h _ h1 hb S P
    · simp only [ht, if_false] at e
      by_cases hi : node.name = "info"
      · simp only [hi, if_true] at e
        cases hm : assign_node_metadata (h.deref bm) node with
        | none => rw [hm] at e; simp at e
        | some it1 =>
          rw [hm] at e
          simp only at e
          obtain ⟨s1, s2, s3, s4, s5⟩ := assign_node_metadata_shape _ _ _ hm
          have S := LoopPost_plain node bm h it1 hb (by simp [builds_item, hi]) s1 s2 s3 s5
            (by simp [ht, s4])
          have P := print_root_names_loop_post rest bm _ h1 (by rw [Heap.length_upd]; exact hb)
            (by rw [Heap.deref_upd_same _ _ _ hb, s1]; exact hp) e
          exact LoopPost_append [node] rest bm h _ h1 hb S P
      · simp only [hi, if_false] at e
        by_cases hk : node.name = "bookmark"
        · simp only [hk, if_true] at e
          cases hc : print_root_names node h with
          | none => rw [hc] at e; simp at e
          | some r =>
            obtain ⟨b, h1c⟩ := r
            rw [hc] at e
            simp only at e
            have C := print_root_names_post node h b h1c hc
            obtain ⟨h4, hr, S⟩ := step_bookmark_post node bm h b h1c hb hp hk C _ rfl
            rw [hr] at e
            simp only at e
            have P := print_root_names_loop_post rest bm _ h1
              (by have := S.len; omega) (by rw [S.parent]; exact hp) e
            exact LoopPost_append [node] rest bm h _ h1 hb S P
        · simp only [hk, if_false] at e
          by_cases hf : node.name = "folder"
          · simp only [hf, if_true] at e
            cases hc : print_root_names node h with
            | none => rw [hc] at e; simp at e
            | some r =>
              obtain ⟨b, h1c⟩ := r
              rw [hc] at e
              simp only at e
              have C := print_root_names_post node h b h1c hc
              have S := step_folder_post node bm h b h1c hb hf C
              have P := print_root_names_loop_post rest bm _ h1
                (by have := S.len; omega) (by rw [S.parent]; exact hp) e
              exact LoopPost_append [node] rest bm h _ h1 hb S P
          · simp only [hf, if_false] at e
            have S : LoopPost [node] bm h h :=
              ⟨Nat.le_refl _, fun _ _ _ => rfl, rfl, rfl, rfl, by simp [last_title, ht],
                ⟨[], by simp, by simp [List.filter, builds_item, hk, hf]⟩,
                fun i h1 h2 => absurd h2 (by omega)⟩
            have P := print_root_names_loop_post rest bm h h1 hb hp e
            exact LoopPost_append [node] rest bm h _ h1 hb S P
end

theorem assign_node_metadata_total (it : BookmarkItem) (node : xmlNode)
    (h : (get_attribute_pointer node.children "metadata").isSome = true) :
    ∃ it1, assign_node_metadata it node = some it1 := by
  unfold assign_node_metadata
  obtain ⟨r, hr⟩ := Option.isSome_iff_exists.mp h
  rw [hr]
  exact ⟨_, rfl⟩

mutual
theorem print_root_names_total (node : xmlNode) (h : Heap)
    (hm : metadata_present node = true) : ∃ r, print_root_names node h = some r := by
  match node with
  | .mk t nm c ps children =>
    unfold metadata_present at hm
    unfold print_root_names
    simp only [create_bookmark_new]
    obtain ⟨h2, e2⟩ := print_root_names_loop_total children h.length (h ++ [BookmarkItem.zero])
      (by simp) (by rw [Heap.deref_alloc]; rfl) hm
    rw [e2]
    exact ⟨_, rfl⟩
theorem print_root_names_loop_total (nodes : List xmlNode) (bm : Nat) (h : Heap)
    (hb : bm < h.length) (hp : (h.deref bm).parent = none)
    (hm : metadata_present_list nodes = true) :
    ∃ h1, print_root_names_loop nodes bm h = some h1 := by
  match nodes with
  | [] => exact ⟨h, by unfold print_root_names_loop; rfl⟩
  | node :: rest =>
    unfold metadata_present_list at hm
    simp only [Bool.and_eq_true] at hm
    obtain ⟨hm1, hm2⟩ := hm
    unfold print_root_names_loop
    by_cases ht : node.name = "title"
    · simp only [ht, if_true]
      exact print_root_names_loop_total rest bm _ (by rw [Heap.length_upd]; exact hb)
        (by rw [Heap.deref_upd_same _ _ _ hb]; exact hp) hm2
    · simp only [ht, if_false] at hm1 ⊢
      by_cases hi : node.name = "info"
      · simp only [hi, if_true] at hm1 ⊢
        obtain ⟨it1, e1⟩ := assign_node_metadata_total (h.deref bm) node hm1
        rw [e1]
        simp only
        obtain ⟨s1, _⟩ := assign_node_metadata_shape _ _ _ e1
        exact print_root_names_loop_total rest bm _ (by rw [Heap.length_upd]; exact hb)
          (by rw [Heap.deref_upd_same _ _ _ hb, s1]; exact hp) hm2
      · simp only [hi, if_false] at hm1 ⊢
        by_cases hk : node.name = "bookmark"
        · simp only [hk, true_or, if_true] at hm1 ⊢
          obtain ⟨r, hc⟩ := print_root_names_total node h hm1
          obtain ⟨b, h1c⟩ := r
          rw [hc]
          simp only
          have C := print_root_names_post node h b h1c hc
          obtain ⟨h4, hr, S⟩ := step_bookmark_post node bm h b h1c hb hp hk C _ rfl
          rw [hr]
          simp only
          exact print_root_names_loop_total rest bm _ (by have := S.len; omega)
            (by rw [S.parent]; exact hp) hm2
        · simp only [hk, if_false, false_or] at hm1 ⊢
          by_cases hf : node.name = "folder"
          · simp only [hf, if_true] at hm1 ⊢
            obtain ⟨r, hc⟩ := print_root_names_total node h hm1
            obtain ⟨b, h1c⟩ := r
            rw [hc]
            simp only
            have C := print_root_names_post node h b h1c hc
            have S := step_folder_post node bm h b h1c hb hf C
            exact print_root_names_loop_total rest bm _ (by have := S.len; omega)
              (by rw [S.parent]; exact hp) hm2
          · simp only [hf, if_false]
            exact print_root_names_loop_total rest bm h hb hp hm2
end

/-! ## Pointers into the document -/

theorem ite_fst_cases {α β : Type} (c : Prop) [Decidable c] (A B : α × β) (x : α)
    (h : (if c then A else B).1 = x) : A.1 = x ∨ B.1 = x := by
  split_ifs at h
  · exact Or.inl h
  · exact Or.inr h

theorem get_parent_nodeptr_loop_ne_nil (items_list : List (Option String)) (list_len : Nat)
    (nodes : List xmlNode) : ∀ (idx it : Nat) (p : NodePtr),
    (get_parent_nodeptr_loop items_list list_len nodes idx it).1 = some p → p ≠ [] := by
  induction nodes with
  | nil => intro idx it p h; simp [get_parent_nodeptr_loop] at h
  | cons n rest ih =>
    intro idx it p h
    unfold get_parent_nodeptr_loop at h
    by_cases h1 : n.type ≠ XML_ELEMENT_NODE
    · rw [if_pos h1] at h; exact ih _ _ _ h
    · rw [if_neg h1] at h
      by_cases h2 : n.name ≠ "folder"
      · rw [if_pos h2] at h
        by_cases h3 : n.name = "bookmark"
        · rw [if_pos h3] at h
          rcases ite_fst_cases _ _ _ _ h with h | h
          · simp only [Option.some.injEq] at h; rw [← h]; simp
          · exact ih _ _ _ h
        · rw [if_neg h3] at h; exact ih _ _ _ h
      · rw [if_neg h2] at h
        cases hd : g_slist_nth_data items_list it with
        | none => rw [hd] at h; exact ih _ _ _ h
        | some data =>
          rw [hd] at h
          simp only at h
          by_cases h4 : title_of n = some data
          · rw [if_pos h4] at h
            by_cases h5 : list_len = it + 1
            · rw [if_pos h5] at h
              simp only [Option.some.injEq] at h; rw [← h]; simp
            · rw [if_neg h5] at h
              cases hr : get_parent_nodeptr items_list n list_len (it + 1) with
              | mk a b =>
                rw [hr] at h
                cases a with
                | none => exact ih _ _ _ h
                | some next => simp only [Option.some.injEq] at h; rw [← h]; simp
          · rw [if_neg h4] at h; exact ih _ _ _ h

theorem get_parent_nodeptr_ne_nil (items_list : List (Option String)) (node : xmlNode)
    (list_len it : Nat) (p : NodePtr)
    (h : (get_parent_nodeptr items_list node list_len it).1 = some p) : p ≠ [] := by
  cases node with
  | mk t nm c ps children =>
    unfold get_parent_nodeptr at h
    by_cases h1 : items_list = []
    · rw [if_pos h1] at h; simp at h
    · rw [if_neg h1] at h
      by_cases h2 : list_len = 1
      · rw [if_pos h2] at h
        cases hf : first_named children "title" with
        | none => rw [hf] at h; simp at h
        | some r =>
          rw [hf] at h
          simp only [Option.map_some', Option.some.injEq] at h
          rw [← h]; simp
      · rw [if_neg h2] at h
        exact get_parent_nodeptr_loop_ne_nil _ _ _ _ _ _ h

theorem nodeAt_snoc (root : xmlNode) (q : NodePtr) (i : Nat) :
    nodeAt root (q ++ [i]) = (nodeAt root q).bind (fun parent => parent.children.get? i) := by
  induction q generalizing root with
  | nil =>
    simp only [List.nil_append, nodeAt, Option.some_bind]
    cases root.children.get? i <;> rfl
  | cons j r ih =>
    simp only [List.cons_append, nodeAt]
    cases root.children.get? j with
    | none => rfl
    | some c => exact ih c

theorem first_named_head (n : xmlNode) (rest : List xmlNode) (name : String)
    (h : n.name = name) : first_named (n :: rest) name = some (0, n) := by
  simp [first_named, h]

theorem seek_named_self (root : xmlNode) (p : NodePtr) (n : xmlNode) (name : String)
    (hp : p ≠ []) (hn : nodeAt root p = some n) (hname : n.name = name) :
    seek_named root p name = some p := by
  obtain ⟨q, i, rfl⟩ : ∃ q i, p = q ++ [i] := ⟨p.dropLast, p.getLast hp, (List.dropLast_append_getLast hp).symm⟩
  rw [nodeAt_snoc] at hn
  unfold seek_named
  simp only [List.getLast?_append, List.getLast?_singleton, List.dropLast_concat]
  cases hq : nodeAt root q with
  | none => rw [hq] at hn; simp at hn
  | some parent =>
    rw [hq] at hn
    simp only [Option.some_bind] at hn
    have hd : parent.children.drop i = n :: parent.children.drop (i + 1) := by
      rw [List.get?_eq_getElem?] at hn
      obtain ⟨hlt, he⟩ := List.getElem?_eq_some_iff.mp hn
      rw [← he]
      exact List.drop_eq_getElem_cons hlt
    simp [Option.or, hd, first_named_head _ _ _ hname]

mutual
theorem nodeAt_updateAt (f : xmlNode → xmlNode) (root : xmlNode) (p : NodePtr) (n : xmlNode)
    (h : nodeAt root p = some n) : nodeAt (updateAt f root p) p = some (f n) := by
  match p with
  | [] =>
    simp only [nodeAt, Option.some.injEq] at h
    subst h
    simp [updateAt, nodeAt]
  | i :: q =>
    match root with
    | .mk t nm c ps cs =>
      simp only [nodeAt, xmlNode.children] at h
      simp only [updateAt, nodeAt, xmlNode.children]
      cases hc : cs.get? i with
      | none => rw [hc] at h; simp at h
      | some ch =>
        rw [hc] at h
        simp only at h
        rw [get_updateAtList f cs i q ch hc]
        exact nodeAt_updateAt f ch q n h
theorem get_updateAtList (f : xmlNode → xmlNode) (cs : List xmlNode) (i : Nat) (q : NodePtr)
    (ch : xmlNode) (h : cs.get? i = some ch) :
    (updateAtList f cs i q).get? i = some (updateAt f ch q) := by
  match cs, i with
  | [], _ => simp at h
  | c :: rest, 0 =>
    simp only [List.get?_cons_zero, Option.some.injEq] at h
    subst h
    simp [updateAtList]
  | c :: rest, j + 1 =>
    simp only [List.get?_cons_succ] at h
    simp only [updateAtList, List.get?_cons_succ]
    exact get_updateAtList f rest j q ch h
end

theorem find_setPropList_same (ps : List (String × String)) (a v : String) :
    (setPropList ps a v).find? (fun p => p.1 == a) = some (a, v) := by
  induction ps with
  | nil => simp [setPropList]
  | cons p r ih =>
    unfold setPropList
    by_cases hp : (p.1 == a) = true
    · rw [if_pos hp]; simp
    · rw [if_neg hp]; simp [List.find?, hp, ih]

theorem find_setPropList_other (ps : List (String × String)) (a b v : String) (hab : a ≠ b) :
    (setPropList ps a v).find? (fun p => p.1 == b) = ps.find? (fun p => p.1 == b) := by
  induction ps with
  | nil => simp [setPropList, hab]
  | cons p r ih =>
    unfold setPropList
    by_cases hp : (p.1 == a) = true
    · rw [if_pos hp]
      have hpa : p.1 = a := by simpa using hp
      have hpb : (p.1 == b) = false := by rw [hpa]; simpa using hab
      have hab2 : (a == b) = false := by simpa using hab
      simp only [List.find?, hab2, hpb]
    · rw [if_neg hp]
      simp only [List.find?, ih]

theorem xmlSetProp_type (n : xmlNode) (a v : String) : (xmlSetProp n a v).type = n.type := by
  cases n with
  | mk t nm c ps cs => cases t <;> rfl

theorem xmlGetProp_set_same (n : xmlNode) (a v : String) (hel : n.type = XML_ELEMENT_NODE) :
    xmlGetProp (xmlSetProp n a v) a = some v := by
  cases n with
  | mk t nm c ps cs =>
    simp only [xmlNode.type] at hel
    subst hel
    simp [xmlGetProp, xmlSetProp, xmlNode.type, xmlNode.properties, find_setPropList_same]

theorem xmlGetProp_set_other (n : xmlNode) (a b v : String) (hab : a ≠ b) :
    xmlGetProp (xmlSetProp n a v) b = xmlGetProp n b := by
  cases n with
  | mk t nm c ps cs =>
    cases t <;>
      simp [xmlGetProp, xmlSetProp, xmlNode.type, xmlNode.properties,
        find_setPropList_other _ _ _ _ hab]

theorem resolve_ne_nil (path : List (Option String)) (root : Option xmlNode) (p : NodePtr)
    (h : (resolve path root).1 = some p) : p ≠ [] := by
  unfold resolve at h
  cases root with
  | none => simp at h
  | some node => exact get_parent_nodeptr_ne_nil _ _ _ _ _ h

theorem length_updateAtList (f : xmlNode → xmlNode) (cs : List xmlNode) :
    ∀ (i : Nat) (q : NodePtr), (updateAtList f cs i q).length = cs.length := by
  induction cs with
  | nil => intro i q; simp [updateAtList]
  | cons c rest ih =>
    intro i q
    cases i with
    | zero => simp [updateAtList]
    | succ j => simp [updateAtList, ih j q]

theorem get?_updateAtList_same (f : xmlNode → xmlNode) (cs : List xmlNode) :
    ∀ (i : Nat) (q : NodePtr),
    (updateAtList f cs i q).get? i = (cs.get? i).map (fun ch => updateAt f ch q) := by
  induction cs with
  | nil => intro i q; simp [updateAtList]
  | cons c rest ih =>
    intro i q
    cases i with
    | zero => simp [updateAtList]
    | succ j => simp only [updateAtList, List.get?_cons_succ]; exact ih j q

theorem get?_updateAtList_other (f : xmlNode → xmlNode) (cs : List xmlNode) :
    ∀ (i j : Nat) (q : NodePtr), j ≠ i → (updateAtList f cs i q).get? j = cs.get? j := by
  induction cs with
  | nil => intro i j q _; simp [updateAtList]
  | cons c rest ih =>
    intro i j q hji
    cases i with
    | zero =>
      cases j with
      | zero => exact absurd rfl hji
      | succ k => simp [updateAtList]
    | succ i1 =>
      cases j with
      | zero => simp [updateAtList]
      | succ k =>
        simp only [updateAtList, List.get?_cons_succ]
        exact ih i1 k q (fun hk => hji (by rw [hk]))

theorem updateAt_cons (f : xmlNode → xmlNode) (t : xmlElementType) (nm : String)
    (c : Option String) (ps : List (String × String)) (cs : List xmlNode) (i : Nat)
    (q : NodePtr) :
    updateAt f (.mk t nm c ps cs) (i :: q) = .mk t nm c ps (updateAtList f cs i q) := by
  simp [updateAt]

theorem updateAt_nil (f : xmlNode → xmlNode) (n : xmlNode) : updateAt f n [] = f n := by
  simp [updateAt]

theorem updateAt_congr (f g : xmlNode → xmlNode) (p : NodePtr) : ∀ (root : xmlNode),
    (∀ n, nodeAt root p = some n → f n = g n) → updateAt f root p = updateAt g root p := by
  induction p with
  | nil => intro root h; simp only [updateAt_nil]; exact h root rfl
  | cons i q ih =>
    intro root h
    cases root with
    | mk t nm c ps cs =>
      simp only [updateAt_cons, xmlNode.mk.injEq, true_and]
      apply List.ext_get?
      intro j
      by_cases hj : j = i
      · subst hj
        rw [get?_updateAtList_same, get?_updateAtList_same]
        cases hc : cs.get? j with
        | none => rfl
        | some ch =>
          simp only [Option.map_some', Option.some.injEq]
          apply ih
          intro n hn
          apply h
          simp only [nodeAt, xmlNode.children, hc]
          exact hn
      · rw [get?_updateAtList_other _ _ _ _ _ hj, get?_updateAtList_other _ _ _ _ _ hj]

theorem nodeAt_updateAt_other (f : xmlNode → xmlNode) (p : NodePtr) :
    ∀ (root : xmlNode) (q : NodePtr), ¬ p <+: q →
    (nodeAt (updateAt f root p) q).map node_data = (nodeAt root q).map node_data := by
  induction p with
  | nil => intro root q h; exact absurd List.nil_prefix h
  | cons i p1 ih =>
    intro root q h
    cases root with
    | mk t nm c ps cs =>
      rw [updateAt_cons]
      cases q with
      | nil => simp [nodeAt, node_data, length_updateAtList, xmlNode.type, xmlNode.name,
          xmlNode.content, xmlNode.properties, xmlNode.children]
      | cons j q1 =>
        simp only [nodeAt, xmlNode.children]
        by_cases hj : j = i
        · subst hj
          rw [get?_updateAtList_same]
          cases hc : cs.get? j with
          | none => rfl
          | some ch =>
            simp only [Option.map_some']
            apply ih
            intro hp
            apply h
            exact (List.prefix_cons_inj j).mpr hp
        · rw [get?_updateAtList_other _ _ _ _ _ hj]

theorem first_named_get (name : String) (nodes : List xmlNode) : ∀ (i : Nat) (n : xmlNode),
    first_named nodes name = some (i, n) → nodes.get? i = some n := by
  induction nodes with
  | nil => intro i n h; simp [first_named] at h
  | cons c rest ih =>
    intro i n h
    unfold first_named at h
    by_cases hc : c.name = name
    · rw [if_pos hc] at h
      simp only [Option.some.injEq, Prod.mk.injEq] at h
      obtain ⟨rfl, rfl⟩ := h
      rfl
    · rw [if_neg hc] at h
      cases hr : first_named rest name with
      | none => rw [hr] at h; simp at h
      | some r =>
        rw [hr] at h
        simp only [Option.map_some', Option.some.injEq, Prod.mk.injEq] at h
        obtain ⟨rfl, rfl⟩ := h
        simp only [List.get?_cons_succ]
        exact ih r.1 r.2 hr

mutual
theorem get_parent_nodeptr_valid (items_list : List (Option String)) (node : xmlNode)
    (list_len it : Nat) (p : NodePtr)
    (h : (get_parent_nodeptr items_list node list_len it).1 = some p) :
    ∃ n, nodeAt node p = some n := by
  match node with
  | .mk t nm c ps children =>
    unfold get_parent_nodeptr at h
    by_cases h1 : items_list = []
    · rw [if_pos h1] at h; simp at h
    · rw [if_neg h1] at h
      by_cases h2 : list_len = 1
      · rw [if_pos h2] at h
        cases hf : first_named children "title" with
        | none => rw [hf] at h; simp at h
        | some r =>
          rw [hf] at h
          simp only [Option.map_some', Option.some.injEq] at h
          subst h
          refine ⟨r.2, ?_⟩
          simp only [nodeAt, xmlNode.children, first_named_get "title" children r.1 r.2 hf]
      · rw [if_neg h2] at h
        obtain ⟨j, q, ch, hp, hj, n, hn⟩ :=
          get_parent_nodeptr_loop_valid items_list list_len children 0 it p h
        subst hp
        refine ⟨n, ?_⟩
        simp only [Nat.zero_add, nodeAt, xmlNode.children, hj]
        exact hn
theorem get_parent_nodeptr_loop_valid (items_list : List (Option String)) (list_len : Nat)
    (nodes : List xmlNode) (idx it : Nat) (p : NodePtr)
    (h : (get_parent_nodeptr_loop items_list list_len nodes idx it).1 = some p) :
    ∃ j q ch, p = (idx + j) :: q ∧ nodes.get? j = some ch ∧ ∃ n, nodeAt ch q = some n := by
  match nodes with
  | [] => simp [get_parent_nodeptr_loop] at h
  | n :: rest =>
    have step : ∀ it1, (get_parent_nodeptr_loop items_list list_len rest (idx + 1) it1).1 = some p →
        ∃ j q ch, p = (idx + j) :: q ∧ (n :: rest).get? j = some ch ∧
          ∃ n, nodeAt ch q = some n := by
      intro it1 h1
      obtain ⟨j, q, ch, hp, hj, hn⟩ :=
        get_parent_nodeptr_loop_valid items_list list_len rest (idx + 1) it1 p h1
      exact ⟨j + 1, q, ch, by rw [hp]; congr 1; omega, by simpa using hj, hn⟩
    have here : ∃ j q ch, [idx] = (idx + j) :: q ∧ (n :: rest).get? j = some ch ∧
        ∃ m, nodeAt ch q = some m := ⟨0, [], n, rfl, rfl, n, rfl⟩
    unfold get_parent_nodeptr_loop at h
    by_cases h1 : n.type ≠ XML_ELEMENT_NODE
    · rw [if_pos h1] at h; exact step _ h
    · rw [if_neg h1] at h
      by_cases h2 : n.name ≠ "folder"
      · rw [if_pos h2] at h
        by_cases h3 : n.name = "bookmark"
        · rw [if_pos h3] at h
          rcases ite_fst_cases _ _ _ _ h with h | h
          · simp only [Option.some.injEq] at h; rw [← h]; exact here
          · exact step _ h
        · rw [if_neg h3] at h; exact step _ h
      · rw [if_neg h2] at h
        cases hd : g_slist_nth_data items_list it with
        | none => rw [hd] at h; exact step _ h
        | some data =>
          rw [hd] at h
          simp only at h
          by_cases h4 : title_of n = some data
          · rw [if_pos h4] at h
            by_cases h5 : list_len = it + 1
            · rw [if_pos h5] at h
              simp only [Option.some.injEq] at h; rw [← h]; exact here
            · rw [if_neg h5] at h
              cases hr : get_parent_nodeptr items_list n list_len (it + 1) with
              | mk a b =>
                rw [hr] at h
                cases a with
                | none => exact step _ h
                | some next =>
                  simp only [Option.some.injEq] at h
                  rw [← h]
                  have hv := get_parent_nodeptr_valid items_list n list_len (it + 1) next
                    (by rw [hr])
                  exact ⟨0, next, n, rfl, rfl, hv⟩
          · rw [if_neg h4] at h; exact step _ h
end

theorem resolve_valid (path : List (Option String)) (root : xmlNode) (p : NodePtr)
    (h : (resolve path (some root)).1 = some p) : ∃ n, nodeAt root p = some n := by
  unfold resolve at h
  exact get_parent_nodeptr_valid _ _ _ _ _ h

/-! ## The bookmark tree (C4, C5, C6) -/

/-- C4 (code bug): in the tree built from a document whose only link, visited
5 times, lies in a folder below the root, the folder gets `visit_count` 5 but
the root keeps 0: the loop over `bm_parent->parent` runs while the `parent` of
the item under construction is still `NULL`, so only the direct parent of a
link is raised. -/
theorem print_root_names_visit_count_one_level :
    get_root_bookmark_absolute_path none [] (some doc_visited_link)
      = some (true, some 0, heap_visited_link) ∧
    (heap_visited_link.deref 0).isFolder = 1 ∧ (heap_visited_link.deref 0).list = [1] ∧
    (heap_visited_link.deref 1).list = [2] ∧ (heap_visited_link.deref 2).isFolder = 0 ∧
    (heap_visited_link.deref 2).visit_count = 5 ∧ (heap_visited_link.deref 1).visit_count = 5 ∧
    (heap_visited_link.deref 0).visit_count = 0 := by
  decide

/-- C5 (counterexample): for `<xbel><?folder x?></xbel>` the item built has one
child, a folder, though the element has no child element at all. -/
theorem print_root_names_counts_pi :
    (print_root_names doc_pi []).map (fun r => (r.2.deref r.1).list) = some [1] ∧
    (print_root_names doc_pi []).map (fun r => (r.2.deref 1).isFolder) = some 1 ∧
    doc_pi.children.all (fun c => decide (c.type ≠ XML_ELEMENT_NODE)) = true := by
  decide

/-- C5 (as amended): on a node whose `info` children all have a `metadata`
element, `print_root_names` returns, and the `list` of the item it builds has
one entry for each child node called `bookmark` or `folder`, whatever its node
kind, in document order: a `folder` child gives an item with `isFolder` true
and no `url`, a `bookmark` child an item with `isFolder` false, `url` its `href`
attribute and `name` its title followed by `.bm`; the `parent` of each is the
item built for the node. -/
theorem print_root_names_children (e : xmlNode) (h : Heap)
    (hm : metadata_present e = true) :
    ∃ id h1, print_root_names e h = some (id, h1) ∧
      List.Forall₂ (ChildOK h1 id) (e.children.filter builds_item) (h1.deref id).list := by
  obtain ⟨r, hr⟩ := print_root_names_total e h hm
  obtain ⟨id, h1⟩ := r
  exact ⟨id, h1, hr, (print_root_names_post e h id h1 hr).list⟩

theorem print_root_names_children_witness :
    ∃ id h1, print_root_names doc_visited_link [] = some (id, h1) ∧
      List.Forall₂ (ChildOK h1 id) (doc_visited_link.children.filter builds_item)
        (h1.deref id).list :=
  print_root_names_children doc_visited_link [] (by decide)

/-- C6 (counterexample): a `bookmark` element inside a `bookmark` element
gives a link item with a child. -/
theorem get_root_bookmark_link_with_child :
    (get_root_bookmark_absolute_path none [] (some doc_nested_link)).map
      (fun r => ((r.2.2.deref 1).isFolder, (r.2.2.deref 1).list)) = some (0, [2]) := by
  decide

/-- C6 (as amended): in the tree that `get_root_bookmark_absolute_path` builds,
every item with `isFolder` true has no `url`, and every item with `isFolder`
false has an empty `list` provided no `bookmark` node of the document has a
child called `bookmark` or `folder`. -/
theorem get_root_bookmark_folder_link_shape (old_root : Option Nat) (old : Heap)
    (doc : Option xmlNode) (root : Option Nat) (h : Heap)
    (e : get_root_bookmark_absolute_path old_root old doc = some (true, root, h)) :
    ∀ i, i < h.length →
      ((h.deref i).isFolder ≠ 0 → (h.deref i).url = none) ∧
      ((doc.map links_flat) = some true → (h.deref i).isFolder = 0 → (h.deref i).list = []) := by
  cases doc with
  | none => simp [get_root_bookmark_absolute_path] at e
  | some node =>
    unfold get_root_bookmark_absolute_path at e
    simp only at e
    cases hc : print_root_names node [] with
    | none => rw [hc] at e; simp at e
    | some r =>
      obtain ⟨id, h1⟩ := r
      rw [hc] at e
      simp only [Option.some.injEq, Prod.mk.injEq, true_and] at e
      obtain ⟨_, rfl⟩ := e
      have C := print_root_names_post node [] id h1 hc
      have hid : id = 0 := C.id_eq
      subst hid
      have hl : 0 < h1.length := C.len
      intro i hi
      rw [Heap.length_upd] at hi
      by_cases h0 : i = 0
      · subst h0
        rw [Heap.deref_upd_same _ _ _ hl]
        exact ⟨fun _ => C.url, fun _ hx => by simp at hx⟩
      · rw [Heap.deref_upd_other _ _ _ _ h0]
        have I := C.items i (by simp only [List.length_nil]; omega) hi
        exact ⟨I.1, fun hf => I.2 (by simpa using hf)⟩

theorem get_root_bookmark_folder_link_shape_witness :
    ((heap_visited_link.deref 2).isFolder ≠ 0 → (heap_visited_link.deref 2).url = none) ∧
    (((some doc_visited_link).map links_flat) = some true →
      (heap_visited_link.deref 2).isFolder = 0 → (heap_visited_link.deref 2).list = []) :=
  get_root_bookmark_folder_link_shape none [] (some doc_visited_link) (some 0)
    heap_visited_link (by decide) 2 (by decide)

/-! ## The path resolver (C1, C2, C3) -/

/-- C1 (code bug): in `doc_link_before_folder` the siblings `Fol.bm` and
`Folder` have different names, yet the path of the folder resolves to the
link element that precedes it, because a link is compared with the segment
less its last three characters whatever the segment is. -/
theorem get_parent_nodeptr_returns_link_for_folder :
    ∃ h, get_root_bookmark_absolute_path none [] (some doc_link_before_folder) = some (true, some 0, h) ∧
      (h.deref 0).list = [1, 2] ∧ (h.deref 1).name = some "Fol.bm" ∧
      (h.deref 2).name = some "Folder" ∧ (h.deref 2).isFolder = 1 ∧
      (get_complete_path h 2).map List.reverse = some [some "r", some "Folder"] ∧
      resolve [some "r", some "Folder"] (some doc_link_before_folder) = (some [1], 1) ∧
      (nodeAt doc_link_before_folder [1]).map xmlNode.name = some "bookmark" ∧
      (nodeAt doc_link_before_folder [2]).map xmlNode.name = some "folder" := by
  refine ⟨_, rfl, ?_⟩
  decide

/-- C2 (code bug): the document `doc_link_only` has no folder at all, yet the
path `Folder/X.bm` resolves to its link `Fol` instead of `NULL`. -/
theorem get_parent_nodeptr_finds_link_for_missing_folder :
    resolve [some "r", some "Folder", some "X.bm"] (some doc_link_only) = (some [1], 1) ∧
    (nodeAt doc_link_only [1]).map title_of = some (some "Fol") ∧
    doc_link_only.children.all (fun c => decide (c.name ≠ "folder")) = true := by
  decide

/-- C3 (code bug): in `doc_twin_folders` the path `A/B` resolves to the second
of the two sibling folders titled `B`: the counter `nodeptriter` stays raised
after the fruitless descent into `A`. -/
theorem get_parent_nodeptr_returns_second_twin :
    resolve [some "r", some "A", some "B"] (some doc_twin_folders) = (some [3], 3) ∧
    (nodeAt doc_twin_folders [1]).map xmlNode.name = some "folder" ∧
    (nodeAt doc_twin_folders [3]).map xmlNode.name = some "folder" ∧
    (nodeAt doc_twin_folders [1]).map title_of = some (some "B") ∧
    (nodeAt doc_twin_folders [3]).map title_of = some (some "B") := by
  decide

/-! ## The mutators (C9, C10) -/

theorem base_url_chars_cons_cons (c d : Char) (t : List Char) :
    base_url_chars (c :: d :: t) =
      if c = '/' ∧ d = '/' then '/' :: '/' :: t.takeWhile (fun x => x ≠ '/')
      else c :: base_url_chars (d :: t) := by
  rw [base_url_chars]

theorem base_url_chars_no_slashes : ∀ u : List Char, ¬ "//".data <:+: u →
    base_url_chars u = u := by
  intro u
  induction u with
  | nil => intro _; rfl
  | cons c r ih =>
    intro h
    cases r with
    | nil => rfl
    | cons d t =>
      have hcd : ¬ (c = '/' ∧ d = '/') := by
        rintro ⟨rfl, rfl⟩
        exact h ⟨[], t, rfl⟩
      have hr : ¬ "//".data <:+: d :: t := fun e => h (e.trans (List.suffix_cons c _).isInfix)
      rw [base_url_chars_cons_cons, if_neg hcd, ih hr]

theorem base_url_chars_first_slashes : ∀ (a rest : List Char), ¬ "//".data <:+: a ++ ['/'] →
    base_url_chars (a ++ '/' :: '/' :: rest) =
      a ++ '/' :: '/' :: rest.takeWhile (fun x => x ≠ '/') := by
  intro a
  induction a with
  | nil => intro rest _; simp [base_url_chars]
  | cons c a ih =>
    intro rest h
    have hr : ¬ "//".data <:+: a ++ ['/'] :=
      fun e => h (e.trans (List.suffix_cons c _).isInfix)
    cases a with
    | nil =>
      have hc : c ≠ '/' := by
        rintro rfl
        exact h ⟨[], [], rfl⟩
      have e : [c] ++ '/' :: '/' :: rest = c :: '/' :: ('/' :: rest) := rfl
      rw [e, base_url_chars_cons_cons, if_neg (fun x => hc x.1), base_url_chars_cons_cons,
        if_pos ⟨rfl, rfl⟩]
      rfl
    | cons d a2 =>
      have hcd : ¬ (c = '/' ∧ d = '/') := by
        rintro ⟨rfl, rfl⟩
        exact h ⟨[], a2 ++ ['/'], rfl⟩
      have e : c :: d :: a2 ++ '/' :: '/' :: rest = c :: d :: (a2 ++ '/' :: '/' :: rest) := rfl
      rw [e, base_url_chars_cons_cons, if_neg hcd]
      have := ih rest hr
      rw [List.cons_append] at this
      rw [this]
      rfl

theorem takeWhile_no_slash (b : List Char) (hb : '/' ∉ b) :
    b.takeWhile (fun x => x ≠ '/') = b := by
  rw [List.takeWhile_eq_self_iff]
  intro x hx
  simp only [ne_eq, decide_not, Bool.not_eq_true', decide_eq_false_iff_not]
  rintro rfl
  exact hb hx

theorem takeWhile_to_slash (b c : List Char) (hb : '/' ∉ b) :
    (b ++ '/' :: c).takeWhile (fun x => x ≠ '/') = b := by
  induction b with
  | nil => simp
  | cons d b ih =>
    have hd : d ≠ '/' := fun e => hb (by simp [e])
    have := ih (fun e => hb (by simp [e]))
    simp only [ne_eq, decide_not] at this
    simp [List.takeWhile, hd, this]

theorem get_base_url_name_spec :
    (∀ u : List Char, ¬ "//".data <:+: u →
      get_base_url_name (some (String.mk u)) = some (String.mk u)) ∧
    (∀ a b : List Char, ¬ "//".data <:+: a ++ ['/'] → '/' ∉ b →
      get_base_url_name (some (String.mk (a ++ '/' :: '/' :: b))) =
        some (String.mk (a ++ '/' :: '/' :: b))) ∧
    (∀ a b c : List Char, ¬ "//".data <:+: a ++ ['/'] → '/' ∉ b →
      get_base_url_name (some (String.mk (a ++ '/' :: '/' :: (b ++ '/' :: c)))) =
        some (String.mk (a ++ '/' :: '/' :: b))) := by
  refine ⟨?_, ?_, ?_⟩
  · intro u h
    simp only [get_base_url_name, Option.map_some', base_url_chars_no_slashes u h]
  · intro a b h hb
    simp only [get_base_url_name, Option.map_some', base_url_chars_first_slashes a b h,
      takeWhile_no_slash b hb]
  · intro a b c h hb
    simp only [get_base_url_name, Option.map_some', base_url_chars_first_slashes a _ h,
      takeWhile_to_slash b c hb]

/-- C9 (as amended): when the resolver finds a link element with an `href`,
`bookmark_set_url` returns `TRUE` and sets `href` to the new value; it sets
`favicon` and `thumbnail` to the empty string exactly when `get_base_url_name`
differs between the old and the new value, and leaves both as they were
otherwise.  So `http://a.com/x` to `http://a.com/y` keeps them and
`http://a.com/x` to `http://b.com/x` clears them.  `get_base_url_name` keeps
the text before the first `/` behind the first `//`: a value without `//` is
kept whole; a value `a//b` in which no `//` begins within `a` and `b` has no
`/` is kept whole; and of a value `a//b/c` of that kind `a//b` is kept. -/
theorem bookmark_set_url_on_link (h : Heap) (bm_item : Nat) (val : String) (root : xmlNode)
    (it : Nat) (path : List (Option String)) (p : NodePtr) (n : xmlNode) (o : String)
    (hlink : (h.deref bm_item).isFolder = 0)
    (hpath : get_complete_path h bm_item = some path)
    (hres : (resolve path.reverse (some root)).1 = some p)
    (hn : nodeAt root p = some n) (hel : n.type = XML_ELEMENT_NODE)
    (hname : n.name = "bookmark") (ho : xmlGetProp n "href" = some o) :
    (∃ n1, bookmark_set_url h (some bm_item) (some val) (some root) it
        = some (true, some (updateAt (fun _ => n1) root p),
            (resolve path.reverse (some root)).2) ∧
      nodeAt (updateAt (fun _ => n1) root p) p = some n1 ∧
      xmlGetProp n1 "href" = some val ∧
      (get_base_url_name (some o) ≠ get_base_url_name (some val) →
        xmlGetProp n1 "favicon" = some "" ∧ xmlGetProp n1 "thumbnail" = some "") ∧
      (get_base_url_name (some o) = get_base_url_name (some val) →
        xmlGetProp n1 "favicon" = xmlGetProp n "favicon" ∧
        xmlGetProp n1 "thumbnail" = xmlGetProp n "thumbnail")) ∧
    get_base_url_name (some "http://a.com/x") = get_base_url_name (some "http://a.com/y") ∧
    get_base_url_name (some "http://a.com/x") ≠ get_base_url_name (some "http://b.com/x") ∧
    (∀ u : List Char, ¬ "//".data <:+: u →
      get_base_url_name (some (String.mk u)) = some (String.mk u)) ∧
    (∀ a b : List Char, ¬ "//".data <:+: a ++ ['/'] → '/' ∉ b →
      get_base_url_name (some (String.mk (a ++ '/' :: '/' :: b))) =
        some (String.mk (a ++ '/' :: '/' :: b))) ∧
    (∀ a b c : List Char, ¬ "//".data <:+: a ++ ['/'] → '/' ∉ b →
      get_base_url_name (some (String.mk (a ++ '/' :: '/' :: (b ++ '/' :: c)))) =
        some (String.mk (a ++ '/' :: '/' :: b))) := by
  refine ⟨?_, by decide, by decide, get_base_url_name_spec⟩
  have hseek := seek_named_self root p n "bookmark" (resolve_ne_nil _ _ _ hres) hn hname
  have hset : xmlGetProp (xmlSetProp n "href" val) "href" = some val :=
    xmlGetProp_set_same n "href" val hel
  have hel1 : (xmlSetProp n "href" val).type = XML_ELEMENT_NODE := by
    rw [xmlSetProp_type]; exact hel
  have hel2 : (xmlSetProp (xmlSetProp n "href" val) "favicon" "").type = XML_ELEMENT_NODE := by
    rw [xmlSetProp_type]; exact hel1
  by_cases hb : get_base_url_name (some o) = get_base_url_name (some val)
  · refine ⟨xmlSetProp n "href" val, ?_, nodeAt_updateAt _ _ _ _ hn, hset, fun hx => absurd hb hx,
      fun _ => ⟨xmlGetProp_set_other _ _ _ _ (by decide), xmlGetProp_set_other _ _ _ _ (by decide)⟩⟩
    simp only [get_base_url_name, Option.map_some', Option.some.injEq] at hb
    simp only [bookmark_set_url, hlink, hpath, hres, hseek, hn, ho, hset, get_base_url_name,
      Option.map_some', ne_eq, not_true_eq_false, if_false, hb]
  · refine ⟨xmlSetProp (xmlSetProp (xmlSetProp n "href" val) "favicon" "") "thumbnail" "", ?_,
      nodeAt_updateAt _ _ _ _ hn, ?_, fun _ => ⟨?_, ?_⟩, fun hx => absurd hx hb⟩
    · simp only [get_base_url_name, Option.map_some', Option.some.injEq] at hb
      simp only [bookmark_set_url, hlink, hpath, hres, hseek, hn, ho, hset, get_base_url_name,
        Option.map_some', ne_eq, not_true_eq_false, if_false, hb, not_false_eq_true, if_true]
    · rw [xmlGetProp_set_other _ _ _ _ (by decide), xmlGetProp_set_other _ _ _ _ (by decide)]
      exact hset
    · rw [xmlGetProp_set_other _ _ _ _ (by decide)]
      exact xmlGetProp_set_same _ _ _ hel1
    · exact xmlGetProp_set_same _ _ _ hel2

theorem bookmark_set_url_on_link_witness :
    (∃ n1, bookmark_set_url heap_one_link (some 1) (some "http://b.com/x") (some doc_one_link) 0
        = some (true, some (updateAt (fun _ => n1) doc_one_link [1]),
            (resolve [some "b.bm", some "r"].reverse (some doc_one_link)).2) ∧
      nodeAt (updateAt (fun _ => n1) doc_one_link [1]) [1] = some n1 ∧
      xmlGetProp n1 "href" = some "http://b.com/x" ∧
      (get_base_url_name (some "http://a.com/x") ≠ get_base_url_name (some "http://b.com/x") →
        xmlGetProp n1 "favicon" = some "" ∧ xmlGetProp n1 "thumbnail" = some "") ∧
      (get_base_url_name (some "http://a.com/x") = get_base_url_name (some "http://b.com/x") →
        xmlGetProp n1 "favicon" = xmlGetProp
          (xml_element "bookmark"
            [("href", "http://a.com/x"), ("favicon", "f"), ("thumbnail", "t")] [xml_title "b"])
          "favicon" ∧
        xmlGetProp n1 "thumbnail" = xmlGetProp
          (xml_element "bookmark"
            [("href", "http://a.com/x"), ("favicon", "f"), ("thumbnail", "t")] [xml_title "b"])
          "thumbnail")) ∧
    get_base_url_name (some "http://a.com/x") = get_base_url_name (some "http://a.com/y") ∧
    get_base_url_name (some "http://a.com/x") ≠ get_base_url_name (some "http://b.com/x") ∧
    (∀ u : List Char, ¬ "//".data <:+: u →
      get_base_url_name (some (String.mk u)) = some (String.mk u)) ∧
    (∀ a b : List Char, ¬ "//".data <:+: a ++ ['/'] → '/' ∉ b →
      get_base_url_name (some (String.mk (a ++ '/' :: '/' :: b))) =
        some (String.mk (a ++ '/' :: '/' :: b))) ∧
    (∀ a b c : List Char, ¬ "//".data <:+: a ++ ['/'] → '/' ∉ b →
      get_base_url_name (some (String.mk (a ++ '/' :: '/' :: (b ++ '/' :: c)))) =
        some (String.mk (a ++ '/' :: '/' :: b))) :=
  bookmark_set_url_on_link heap_one_link 1 "http://b.com/x" doc_one_link 0
    [some "b.bm", some "r"] [1]
    (xml_element "bookmark" [("href", "http://a.com/x"), ("favicon", "f"), ("thumbnail", "t")]
      [xml_title "b"])
    "http://a.com/x" (by decide) (by decide) (by decide) rfl rfl rfl (by decide)

/-- C9 (counterexample): `http://a.com/x` and `http://a.com?y` have the same
scheme and host, yet re-targeting from the one to the other empties `favicon`
and `thumbnail`. -/
theorem bookmark_set_url_clears_on_same_origin :
    origin_spec "http://a.com/x" = some ("http", "a.com") ∧
    origin_spec "http://a.com?y" = some ("http", "a.com") ∧
    (bookmark_set_url heap_one_link (some 1) (some "http://a.com?y") (some doc_one_link) 0).map
      (fun r => (r.1, (r.2.1.bind (fun d => nodeAt d [1])).map
        (fun n => (xmlGetProp n "href", xmlGetProp n "favicon", xmlGetProp n "thumbnail"))))
      = some (true, some (some "http://a.com?y", some "", some "")) := by
  decide

/-- C10: on an item whose `isOperatorBookmark` flag is false,
`bookmark_set_operator_bookmark_as_deleted` returns `FALSE` and leaves the
document (and the resolver's counter) as they were. -/
theorem set_operator_bookmark_deleted_rejects_user_item (h : Heap) (bm_item : Nat) (doc : Bool)
    (root_element : Option xmlNode) (it : Nat)
    (hop : (h.deref bm_item).isOperatorBookmark = 0) :
    bookmark_set_operator_bookmark_as_deleted h (some bm_item) doc root_element it
      = some (false, root_element, it) := by
  simp [bookmark_set_operator_bookmark_as_deleted, hop]

theorem set_operator_bookmark_deleted_rejects_user_item_witness :
    bookmark_set_operator_bookmark_as_deleted heap_one_link (some 1) true (some doc_one_link) 0
      = some (false, some doc_one_link, 0) :=
  set_operator_bookmark_deleted_rejects_user_item heap_one_link 1 true (some doc_one_link) 0
    (by decide)

open BMError

/-! ## The writers and the linking of nodes -/

theorem xmlAddChild_type (parent cur : xmlNode) : (xmlAddChild parent cur).type = parent.type := by
  cases parent with
  | mk t nm c ps cs =>
    simp only [xmlAddChild]
    split
    · split_ifs <;> rfl
    · rfl

theorem xmlAddChild_element (parent cur : xmlNode) (hel : cur.type = XML_ELEMENT_NODE) :
    xmlAddChild parent cur = insert_child parent.children.length cur parent := by
  cases parent with
  | mk t nm c ps cs =>
    simp only [xmlAddChild, insert_child, xmlNode.children, List.take_length, List.drop_length]
    split
    · next h1 _ => rw [hel] at h1; cases h1
    · rfl

theorem create_new_xmlnode_type (parent_node r : xmlNode) (bm_item : BookmarkItem)
    (h : create_new_xmlnode parent_node bm_item = some r) : r.type = parent_node.type := by
  unfold create_new_xmlnode at h
  by_cases hf : bm_item.isFolder ≠ 0
  · rw [if_pos hf] at h
    simp only [Option.some.injEq] at h
    rw [← h, xmlAddChild_type, xmlAddChild_type]
  · rw [if_neg hf] at h
    cases hs : g_strndup_less3 bm_item.name with
    | none => rw [hs] at h; simp at h
    | some s =>
      rw [hs] at h
      simp only [Option.some.injEq] at h
      rw [← h, xmlAddChild_type, xmlAddChild_type]

theorem on_last_child_type (parent r : xmlNode) (f : xmlNode → Option xmlNode)
    (h : on_last_child parent f = some r) : r.type = parent.type := by
  cases parent with
  | mk t nm c ps cs =>
    simp only [on_last_child] at h
    cases hl : cs.getLast? with
    | none => rw [hl] at h; simp at h
    | some node =>
      rw [hl] at h
      simp only at h
      cases hn : f node with
      | none => rw [hn] at h; simp at h
      | some node1 =>
        rw [hn] at h
        simp only [Option.map_some', Option.some.injEq] at h
        rw [← h]
        rfl

theorem add_xmlnode_to_parent_type (fuel : Nat) (h : Heap) (parent_item : Nat)
    (parent_node r : xmlNode) (hr : add_xmlnode_to_parent fuel h parent_item parent_node = some r) :
    r.type = parent_node.type := by
  cases fuel with
  | zero => simp [add_xmlnode_to_parent] at hr
  | succ fuel =>
    unfold add_xmlnode_to_parent at hr
    cases hc : create_new_xmlnode parent_node (h.deref parent_item) with
    | none => rw [hc] at hr; simp at hr
    | some parent_node1 =>
      rw [hc] at hr
      rw [on_last_child_type _ _ _ hr, create_new_xmlnode_type _ _ _ hc]

theorem foldlM_type (step : xmlNode → Nat → Option xmlNode)
    (hstep : ∀ (n : xmlNode) (x : Nat) (r : xmlNode), step n x = some r → r.type = n.type)
    (l : List Nat) : ∀ (init r : xmlNode), l.foldlM step init = some r → r.type = init.type := by
  induction l with
  | nil =>
    intro init r h
    simp only [List.foldlM_nil] at h
    cases h
    rfl
  | cons x rest ih =>
    intro init r h
    rw [List.foldlM_cons] at h
    cases hs : step init x with
    | none => rw [hs] at h; simp at h
    | some n1 =>
      rw [hs] at h
      rw [ih n1 r h, hstep init x n1 hs]

theorem add_bookmark_item_type (h : Heap) (bm_item : Nat) (e : xmlNode)
    (he : add_bookmark_item h bm_item = some e) : e.type = XML_ELEMENT_NODE := by
  unfold add_bookmark_item at he
  simp only at he
  have hfold := foldlM_type (fun item child => add_xmlnode_to_parent (h.length + 1) h child item)
    (fun n x r hr => add_xmlnode_to_parent_type _ _ _ _ _ hr) (h.deref bm_item).list
  by_cases hf : (h.deref bm_item).isFolder ≠ 0
  · rw [if_pos hf] at he
    simp only at he
    rw [hfold _ _ he, xmlAddChild_type]
    simp only [xmlNewTextChild, xmlAddChild_type, xmlSetProp_type]
    rfl
  · rw [if_neg hf] at he
    cases hs : g_strndup_less3 (h.deref bm_item).name with
    | none => rw [hs] at he; simp at he
    | some s =>
      rw [hs] at he
      simp only at he
      rw [hfold _ _ he, xmlAddChild_type]
      simp only [xmlNewTextChild, xmlSetProp?, xmlAddChild_type, xmlSetProp_type]
      rfl

theorem xmlNodeSetContentParsed_element (xmlStringGetNodeList : String → List xmlNode)
    (t : xmlNode) (s : String) (hel : t.type = XML_ELEMENT_NODE) :
    xmlNodeGetContent (xmlNodeSetContentParsed xmlStringGetNodeList t s) =
      some (nodeListText (xmlStringGetNodeList s)) ∧
    (xmlNodeSetContentParsed xmlStringGetNodeList t s).type = t.type ∧
    (xmlNodeSetContentParsed xmlStringGetNodeList t s).name = t.name ∧
    (xmlNodeSetContentParsed xmlStringGetNodeList t s).properties = t.properties := by
  cases t with
  | mk ty nm c ps cs =>
    simp only [xmlNode.type] at hel
    subst hel
    simp [xmlNodeSetContentParsed, xmlNodeGetContent, xmlNode.type, xmlNode.name,
      xmlNode.properties, xmlNode.children]

theorem g_strndup_less3_some (val : String) (hlen : 3 ≤ val.length) :
    g_strndup_less3 (some val) = some (String.mk (val.data.take (val.length - 3))) := by
  simp only [g_strndup_less3]
  rw [if_neg (by omega)]

/-! ## The mutators and the writers (C11 to C20) -/

/-- C11 (code bug): `add_bookmark_item` writes the folder `F` of
`heap_operator_link` with its operator link laid out by `create_new_xmlnode`,
the element `deleted` directly under `info`; the resolver finds the element
of the link, and `bookmark_set_operator_bookmark_as_deleted` returns `FALSE`
and leaves the document as it was, `deleted` still reading `0`:
`get_node_by_tag` looks at the first child of `info` and below `metadata`
only. -/
theorem set_operator_bookmark_deleted_misses_deleted_under_info :
    add_bookmark_item heap_operator_link 1 = some folder_operator_link ∧
    (heap_operator_link.deref 2).isOperatorBookmark = 1 ∧
    get_complete_path heap_operator_link 2 = some [some "op.bm", some "F", some "r"] ∧
    resolve [some "r", some "F", some "op.bm"] (some doc_operator_link) = (some [1, 4], 2) ∧
    (nodeAt doc_operator_link [1, 4]).map xmlNode.name = some "bookmark" ∧
    (nodeAt doc_operator_link [1, 4, 2]).map xmlNode.name = some "info" ∧
    (nodeAt doc_operator_link [1, 4, 2, 2]).map xmlNode.name = some "deleted" ∧
    (nodeAt doc_operator_link [1, 4, 2, 2]).map xmlNodeGetContent = some (some "0") ∧
    bookmark_set_operator_bookmark_as_deleted heap_operator_link (some 2) true
      (some doc_operator_link) 0 = some (false, some doc_operator_link, 2) := by
  refine ⟨rfl, by decide, by decide, by decide, by decide, by decide, by decide, by decide, rfl⟩

/-- C12 (code bug): on the operator link of `heap_operator_link`, whose element
the resolver finds at position `[1, 4]`, both `opened_bookmark_remove` and
`bookmark_remove` unlink the element, so that the folder `F` is left without
a `bookmark` child; neither looks at `isOperatorBookmark`, which only
`bookmark_remove_list` does: it leaves the document as it is. -/
theorem remove_unlinks_operator_bookmark :
    (heap_operator_link.deref 2).isOperatorBookmark = 1 ∧
    (nodeAt doc_operator_link [1]).map (fun f => f.children.map xmlNode.name) =
      some ["text", "title", "info", "text", "bookmark"] ∧
    opened_bookmark_remove heap_operator_link (some 2) (some doc_operator_link) 0 =
      some (true, some (xmlUnlinkNode doc_operator_link [1, 4]), 2) ∧
    bookmark_remove heap_operator_link (some 2) (some (some doc_operator_link)) true 0 0 =
      some (false, some (xmlUnlinkNode doc_operator_link [1, 4]), 2) ∧
    (nodeAt (xmlUnlinkNode doc_operator_link [1, 4]) [1]).map
      (fun f => f.children.map xmlNode.name) = some ["text", "title", "info", "text"] ∧
    bookmark_remove_list heap_operator_link [2] (some (some doc_operator_link)) true 0 false 0 =
      some (false, some doc_operator_link, 2) := by
  refine ⟨by decide, by decide, rfl, rfl, by decide, rfl⟩

/-- C13 (code bug): the root of `heap_link_and_new` has the one child `a.bm`,
which resolves in `doc_link_a`; `bookmark_add_child` with position `-1` puts
the element of the new link `c.bm` before that of `a.bm`, not at the end: the
children of the root element are then the title, `c` and `a`. -/
theorem bookmark_add_child_at_end_inserts_before_last :
    (heap_link_and_new.deref 0).list = [1] ∧
    resolve [some "r", some "a.bm"] (some doc_link_a) = (some [1], 1) ∧
    doc_link_a.children.map title_of = [none, some "a"] ∧
    (bookmark_add_child heap_link_and_new (some 0) (some 2) (-1) (some doc_link_a) 0).map
      (fun r => (r.1, r.2.1.map (fun d => d.children.map title_of))) =
      some (BM_OK, some [none, some "c", some "a"]) := by
  refine ⟨by decide, by decide, by decide, by decide⟩

/-- C14 (code bug): with the folder `F` of `heap_folder_and_new` as `parent`,
which resolves in `doc_folder_only`, `bm_engine_add_folder` appends the
element of the new folder `G` to the children of the root element; the element
of `F` keeps its one child, the title. -/
theorem bm_engine_add_folder_adds_under_root :
    resolve [some "r", some "F"] (some doc_folder_only) = (some [1], 2) ∧
    (bm_engine_add_folder heap_folder_and_new (some 1) 2 (some (some doc_folder_only))
        true 0).map
      (fun r => r.2.map (fun d => (d.children.map title_of,
        (nodeAt d [1]).map (fun f => f.children.map xmlNode.name)))) =
      some (some ([none, some "F", some "G"], some ["title"])) := by
  refine ⟨by decide, by decide⟩

/-- C15 (code bug): `dump_xml_doc_and_fsync` returns `FALSE` whatever
`xmlDocFormatDump` returns, since `!xmlDocFormatDump(fp, doc, 1)` is `0` or `1`
and never `-1`; so `bookmark_remove` on the link of `heap_one_link`, which
parses, resolves, is unlinked and dumped (`xmlDocFormatDump` returning the 120
bytes written), returns `FALSE`. -/
theorem bookmark_remove_returns_false_on_success :
    (∀ (doc file_path fopen_ok : Bool) (dump : Int),
      dump_xml_doc_and_fsync doc file_path fopen_ok dump = false) ∧
    resolve [some "r", some "b.bm"] (some doc_one_link) = (some [1], 1) ∧
    bookmark_remove heap_one_link (some 1) (some (some doc_one_link)) true 120 0 =
      some (false, some doc_title_only, 1) := by
  refine ⟨?_, by decide, rfl⟩
  intro doc file_path fopen_ok dump
  unfold dump_xml_doc_and_fsync
  by_cases hd : dump = 0 <;> simp [hd]

/-- C16: for an item whose path the resolver does not find in the document,
each of `bookmark_set_name`, `bookmark_set_url`, `bookmark_set_visit_count`,
`bookmark_set_operator_bookmark_as_deleted` and `opened_bookmark_remove`
returns `FALSE` and leaves the document as it was. -/
theorem mutators_not_found_leave_document (xmlEncodeEntitiesReentrant : String → String)
    (xmlStringGetNodeList : String → List xmlNode) (h : Heap) (bm_item : Nat)
    (val : Option String) (doc : Bool) (root_element : Option xmlNode) (nodeptriter : Nat)
    (path : List (Option String)) (hpath : get_complete_path h bm_item = some path)
    (hnone : (resolve path.reverse root_element).1 = none) :
    (∃ it, bookmark_set_name xmlEncodeEntitiesReentrant xmlStringGetNodeList h (some bm_item)
      val root_element nodeptriter = some (false, root_element, it)) ∧
    (∃ it, bookmark_set_url h (some bm_item) val root_element nodeptriter =
      some (false, root_element, it)) ∧
    (∃ it, bookmark_set_visit_count h (some bm_item) val doc root_element nodeptriter =
      some (false, root_element, it)) ∧
    (∃ it, bookmark_set_operator_bookmark_as_deleted h (some bm_item) doc root_element
      nodeptriter = some (false, root_element, it)) ∧
    (∃ it, opened_bookmark_remove h (some bm_item) root_element nodeptriter =
      some (false, root_element, it)) := by
  refine ⟨?_, ?_, ?_, ?_, ?_⟩
  · cases val with
    | none => exact ⟨_, rfl⟩
    | some v =>
      cases root_element with
      | none => exact ⟨(resolve path.reverse none).2, by simp [bookmark_set_name, hpath]⟩
      | some root =>
        exact ⟨(resolve path.reverse (some root)).2, by simp [bookmark_set_name, hpath, hnone]⟩
  · cases val with
    | none => exact ⟨_, rfl⟩
    | some v =>
      by_cases hf : (h.deref bm_item).isFolder ≠ 0
      · exact ⟨nodeptriter, by simp [bookmark_set_url, hf]⟩
      · cases root_element with
        | none => exact ⟨(resolve path.reverse none).2, by simp [bookmark_set_url, hf, hpath]⟩
        | some root =>
          exact ⟨(resolve path.reverse (some root)).2,
            by simp [bookmark_set_url, hf, hpath, hnone]⟩
  · cases val with
    | none => exact ⟨_, rfl⟩
    | some v =>
      cases doc with
      | false => exact ⟨nodeptriter, by simp [bookmark_set_visit_count]⟩
      | true =>
        cases root_element with
        | none =>
          exact ⟨(resolve path.reverse none).2, by simp [bookmark_set_visit_count, hpath]⟩
        | some root =>
          exact ⟨(resolve path.reverse (some root)).2,
            by simp [bookmark_set_visit_count, hpath, hnone]⟩
  · by_cases ho : (h.deref bm_item).isOperatorBookmark = 0
    · exact ⟨nodeptriter, by simp [bookmark_set_operator_bookmark_as_deleted, ho]⟩
    · cases doc with
      | false => exact ⟨nodeptriter, by simp [bookmark_set_operator_bookmark_as_deleted, ho]⟩
      | true =>
        cases root_element with
        | none =>
          exact ⟨(resolve path.reverse none).2,
            by simp [bookmark_set_operator_bookmark_as_deleted, ho, hpath]⟩
        | some root =>
          exact ⟨(resolve path.reverse (some root)).2,
            by simp [bookmark_set_operator_bookmark_as_deleted, ho, hpath, hnone]⟩
  · cases root_element with
    | none => exact ⟨1, by simp [opened_bookmark_remove, hpath]⟩
    | some root =>
      exact ⟨(resolve path.reverse (some root)).2, by simp [opened_bookmark_remove, hpath, hnone]⟩

theorem mutators_not_found_leave_document_witness :
    get_complete_path heap_operator_link 2 = some [some "op.bm", some "F", some "r"] ∧
    (resolve [some "op.bm", some "F", some "r"].reverse (some doc_link_only)).1 = none ∧
    ((∃ it, bookmark_set_name encode_entities string_node_list heap_operator_link (some 2)
      (some "x.bm") (some doc_link_only) 0 = some (false, some doc_link_only, it)) ∧
    (∃ it, bookmark_set_url heap_operator_link (some 2) (some "x.bm") (some doc_link_only) 0 =
      some (false, some doc_link_only, it)) ∧
    (∃ it, bookmark_set_visit_count heap_operator_link (some 2) (some "x.bm") true
      (some doc_link_only) 0 = some (false, some doc_link_only, it)) ∧
    (∃ it, bookmark_set_operator_bookmark_as_deleted heap_operator_link (some 2) true
      (some doc_link_only) 0 = some (false, some doc_link_only, it)) ∧
    (∃ it, opened_bookmark_remove heap_operator_link (some 2) (some doc_link_only) 0 =
      some (false, some doc_link_only, it))) :=
  ⟨by decide, by decide,
    mutators_not_found_leave_document encode_entities string_node_list heap_operator_link 2
      (some "x.bm") true (some doc_link_only) 0 [some "op.bm", some "F", some "r"]
      (by decide) (by decide)⟩

/-- C17 (code bug): the child `a.bm` of the root of `heap_link_and_new` has no
element in `doc_title_only`, so the resolver finds no insertion point;
`bookmark_add_child` returns `BM_OK` although the document is unchanged and
holds no element for the new item. -/
theorem bookmark_add_child_ok_without_insertion :
    resolve [some "r", some "a.bm"] (some doc_title_only) = (none, 1) ∧
    bookmark_add_child heap_link_and_new (some 0) (some 2) 0 (some doc_title_only) 0 =
      some (BM_OK, some doc_title_only, 1) := by
  refine ⟨by decide, rfl⟩

/-- C18 (code bug): the element of the folder `F` in `doc_operator_link`, as
`add_bookmark_item` writes it, has an `info` with a `metadata` that holds no
`visit_count`; the resolver finds the element, `get_node_by_tag` returns
`NULL` into `node`, and `bookmark_set_visit_count` then reads
`node->children`: a `NULL` dereference, no element is created. -/
theorem bookmark_set_visit_count_faults_without_visit_count :
    resolve [some "r", some "F"] (some doc_operator_link) = (some [1], 2) ∧
    (nodeAt doc_operator_link [1, 2, 1]).map (fun m => (m.name, m.children.map xmlNode.name)) =
      some ("metadata", ["time_visited", "time_added"]) ∧
    (nodeAt doc_operator_link [1]).map (fun f => get_node_by_tag f.children "visit_count") =
      some (some none) ∧
    bookmark_set_visit_count heap_operator_link (some 1) (some "7") true
      (some doc_operator_link) 0 = none := by
  refine ⟨by decide, by decide, by decide, rfl⟩

/-- C19 (counterexample): the link `b.bm` of `heap_one_link`, whose element
the resolver finds and which has a `title` child, is given the name `ab`;
`strlen(val) - 3` wraps around and `g_strndup` faults, so that the function
does not return `TRUE`. -/
theorem bookmark_set_name_faults_on_short_name :
    (heap_one_link.deref 1).isFolder = 0 ∧
    resolve [some "r", some "b.bm"] (some doc_one_link) = (some [1], 1) ∧
    (nodeAt doc_one_link [1, 0]).map (fun t => (t.type, t.name)) =
      some (XML_ELEMENT_NODE, "title") ∧
    bookmark_set_name encode_entities string_node_list heap_one_link (some 1) (some "ab")
      (some doc_one_link) 0 = none := by
  refine ⟨by decide, by decide, by decide, rfl⟩

/-- C19: for an item whose element the resolver finds, the first
child of that element called `title` being an element `t`, and a new name
`val` that for a link has at least three characters (it ends in `.bm`),
`bookmark_set_name` returns `TRUE`; afterwards the text content of the title is
`val` for a folder and `val` less its last three characters for a link,
provided libxml2 reads back what it encodes; the title keeps its name and
attributes, the document is the old one with the title replaced, and every
node that is not at or below the title keeps its kind, name, content,
attributes and number of children. -/
theorem bookmark_set_name_rewrites_title (xmlEncodeEntitiesReentrant : String → String)
    (xmlStringGetNodeList : String → List xmlNode) (h : Heap) (bm_item : Nat) (val : String)
    (root : xmlNode) (nodeptriter : Nat) (path : List (Option String)) (p : NodePtr)
    (n t : xmlNode) (i : Nat)
    (hpath : get_complete_path h bm_item = some path)
    (hres : (resolve path.reverse (some root)).1 = some p)
    (hn : nodeAt root p = some n)
    (ht : first_named n.children "title" = some (i, t))
    (hel : t.type = XML_ELEMENT_NODE)
    (hlen : (h.deref bm_item).isFolder = 0 → 3 ≤ val.length)
    (hlib : nodeListText (xmlStringGetNodeList (xmlEncodeEntitiesReentrant
      (title_spec (h.deref bm_item).isFolder val))) = title_spec (h.deref bm_item).isFolder val) :
    ∃ root1 t1,
      bookmark_set_name xmlEncodeEntitiesReentrant xmlStringGetNodeList h (some bm_item)
        (some val) (some root) nodeptriter =
        some (true, some root1, (resolve path.reverse (some root)).2) ∧
      nodeAt root (p ++ [i]) = some t ∧
      nodeAt root1 (p ++ [i]) = some t1 ∧
      xmlNodeGetContent t1 = some (title_spec (h.deref bm_item).isFolder val) ∧
      t1.type = t.type ∧ t1.name = t.name ∧ t1.properties = t.properties ∧
      root1 = updateAt (fun _ => t1) root (p ++ [i]) ∧
      ∀ q : NodePtr, ¬ (p ++ [i]) <+: q →
        (nodeAt root1 q).map node_data = (nodeAt root q).map node_data := by
  have hti : nodeAt root (p ++ [i]) = some t := by
    rw [nodeAt_snoc, hn]
    exact first_named_get "title" n.children i t ht
  obtain ⟨g1, g2, g3, g4⟩ := xmlNodeSetContentParsed_element xmlStringGetNodeList t
    (xmlEncodeEntitiesReentrant (title_spec (h.deref bm_item).isFolder val)) hel
  refine ⟨updateAt (fun _ => xmlNodeSetContentParsed xmlStringGetNodeList t
      (xmlEncodeEntitiesReentrant (title_spec (h.deref bm_item).isFolder val))) root (p ++ [i]),
    xmlNodeSetContentParsed xmlStringGetNodeList t
      (xmlEncodeEntitiesReentrant (title_spec (h.deref bm_item).isFolder val)),
    ?_, hti, ?_, ?_, g2, g3, g4, rfl, ?_⟩
  · have hcongr : ∀ s : String,
        updateAt (fun children => xmlNodeSetContentParsed xmlStringGetNodeList children
          (xmlEncodeEntitiesReentrant s)) root (p ++ [i]) =
        updateAt (fun _ => xmlNodeSetContentParsed xmlStringGetNodeList t
          (xmlEncodeEntitiesReentrant s)) root (p ++ [i]) := by
      intro s
      apply updateAt_congr
      intro m hm
      rw [hti] at hm
      simp only [Option.some.injEq] at hm
      rw [hm]
    simp only [bookmark_set_name, hpath, hres, hn, ht]
    by_cases hf : (h.deref bm_item).isFolder ≠ 0
    · rw [if_pos hf, hcongr]
      simp only [title_spec, if_pos hf]
    · rw [if_neg hf]
      have h0 : (h.deref bm_item).isFolder = 0 := not_not.mp hf
      rw [g_strndup_less3_some val (hlen h0)]
      simp only [hcongr, title_spec, if_neg hf]
  · exact nodeAt_updateAt _ root (p ++ [i]) t hti
  · rw [g1, hlib]
  · intro q hq
    exact nodeAt_updateAt_other _ (p ++ [i]) root q hq

theorem bookmark_set_name_rewrites_title_witness :
    get_complete_path heap_one_link 1 = some [some "b.bm", some "r"] ∧
    (resolve [some "b.bm", some "r"].reverse (some doc_one_link)).1 = some [1] ∧
    nodeListText (string_node_list (encode_entities "c&d")) = "c&d" ∧
    title_spec (heap_one_link.deref 1).isFolder "c&d.bm" = "c&d" ∧
    ∃ root1 t1,
      bookmark_set_name encode_entities string_node_list heap_one_link (some 1)
        (some "c&d.bm") (some doc_one_link) 0 =
        some (true, some root1, (resolve [some "b.bm", some "r"].reverse (some doc_one_link)).2) ∧
      nodeAt doc_one_link ([1] ++ [0]) = some (xml_title "b") ∧
      nodeAt root1 ([1] ++ [0]) = some t1 ∧
      xmlNodeGetContent t1 = some (title_spec (heap_one_link.deref 1).isFolder "c&d.bm") ∧
      t1.type = (xml_title "b").type ∧ t1.name = (xml_title "b").name ∧
      t1.properties = (xml_title "b").properties ∧
      root1 = updateAt (fun _ => t1) doc_one_link ([1] ++ [0]) ∧
      ∀ q : NodePtr, ¬ ([1] ++ [0]) <+: q →
        (nodeAt root1 q).map node_data = (nodeAt doc_one_link q).map node_data :=
  ⟨by decide, by decide, by decide, by decide,
    bookmark_set_name_rewrites_title encode_entities string_node_list heap_one_link 1 "c&d.bm"
      doc_one_link 0 [some "b.bm", some "r"] [1]
      (xml_element "bookmark" [("href", "http://a.com/x"), ("favicon", "f"), ("thumbnail", "t")]
        [xml_title "b"]) (xml_title "b") 0
      (by decide) (by decide) rfl rfl rfl (fun _ => by decide) (by decide)⟩

theorem osso_bookmark_get_dir_node_loop_eq (h : Heap) (l : List Nat) : ∀ folders : List String,
    osso_bookmark_get_dir_node_loop h l folders =
      folders ++ (l.filter (fun c => decide ((h.deref c).isFolder ≠ 0))).map
        (fun c => "USER:" ++ fmt_s (h.deref c).name) := by
  induction l with
  | nil => intro folders; simp [osso_bookmark_get_dir_node_loop]
  | cons c rest ih =>
    intro folders
    unfold osso_bookmark_get_dir_node_loop
    by_cases hc : (h.deref c).isFolder = 0
    · rw [if_pos hc, ih]
      simp [hc]
    · rw [if_neg hc, ih]
      simp [hc]

/-- C30: `osso_bookmark_get_dir_node` appends to `folders` the string `USER:`
followed by the name for each child of the item that is a folder, in the order
of the children, and nothing for the other children; and
`osso_bookmark_get_folders_list` returns the entry `MY:` of the root followed
by these strings for the root that `get_root_bookmark_absolute_path` builds
(the entry alone when the file gives no root element). -/
theorem osso_bookmark_get_dir_node_first_level (h : Heap) (bm_item : Nat)
    (folders : List String) (root_name : String) (node : Option xmlNode) :
    osso_bookmark_get_dir_node h (some bm_item) folders =
      folders ++ first_level_folders h bm_item ∧
    osso_bookmark_get_folders_list root_name node =
      (get_root_bookmark_absolute_path (some 0) [BookmarkItem.zero] node).map
        (fun r => ("MY:" ++ root_name) ::
          (match r.2.1 with
           | some root => first_level_folders r.2.2 root
           | none => [])) := by
  constructor
  · simp only [osso_bookmark_get_dir_node, first_level_folders]
    exact osso_bookmark_get_dir_node_loop_eq h _ folders
  · simp only [osso_bookmark_get_folders_list, create_bookmark_new, List.length_nil,
      List.nil_append]
    cases hr : get_root_bookmark_absolute_path (some 0) [BookmarkItem.zero] node with
    | none => rfl
    | some r =>
      obtain ⟨rv, root, h1⟩ := r
      cases root with
      | none => simp [osso_bookmark_get_dir_node]
      | some root =>
        simp only [Option.map_some', osso_bookmark_get_dir_node, first_level_folders]
        rw [osso_bookmark_get_dir_node_loop_eq]
        simp

theorem is_chain_unique (h : Heap) (l1 : List Nat) : ∀ (l2 : List Nat) (p : Nat),
    is_chain h (p :: l1) → is_chain h (p :: l2) → l1 = l2 := by
  induction l1 with
  | nil =>
    intro l2 p h1 h2
    cases l2 with
    | nil => rfl
    | cons q r =>
      simp only [is_chain] at h1 h2
      rw [h1] at h2
      exact absurd h2.1 (by simp)
  | cons q1 r1 ih =>
    intro l2 p h1 h2
    cases l2 with
    | nil =>
      simp only [is_chain] at h1 h2
      rw [h2] at h1
      exact absurd h1.1 (by simp)
    | cons q2 r2 =>
      simp only [is_chain] at h1 h2
      have hq : q1 = q2 := by
        have := h1.1.symm.trans h2.1
        simpa using this
      subst hq
      rw [ih r2 q1 h1.2 h2.2]

theorem is_chain_suffix (h : Heap) (a : List Nat) : ∀ (p : Nat) (b : List Nat),
    is_chain h (a ++ p :: b) → is_chain h (p :: b) := by
  induction a with
  | nil => intro p b hc; exact hc
  | cons x r ih =>
    intro p b hc
    cases r with
    | nil =>
      simp only [List.cons_append, List.nil_append, is_chain] at hc
      exact hc.2
    | cons y s =>
      simp only [List.cons_append, is_chain] at hc
      exact ih p b hc.2

theorem is_chain_head_not_mem (h : Heap) (p : Nat) (l : List Nat) (hc : is_chain h (p :: l)) :
    p ∉ l := by
  intro hm
  obtain ⟨a, b, rfl⟩ := List.append_of_mem hm
  have h1 : is_chain h (p :: b) := is_chain_suffix h (p :: a) p b hc
  have h2 := is_chain_unique h _ _ p hc h1
  have h3 := congrArg List.length h2
  simp at h3
  omega

theorem is_chain_nodup (h : Heap) (l : List Nat) : is_chain h l → l.Nodup := by
  induction l with
  | nil => intro hc; exact List.nodup_nil
  | cons p r ih =>
    intro hc
    refine List.nodup_cons.mpr ⟨is_chain_head_not_mem h p r hc, ?_⟩
    cases r with
    | nil => exact List.nodup_nil
    | cons q s =>
      simp only [is_chain] at hc
      exact ih hc.2

theorem deref_out_of_range (h : Heap) (p : Nat) (hp : h.length ≤ p) :
    h.deref p = BookmarkItem.zero := by
  simp [Heap.deref, List.getElem?_eq_none hp]

theorem is_chain_in_range (h : Heap) (l : List Nat) : is_chain h l →
    ∀ p ∈ l.dropLast, p < h.length := by
  induction l with
  | nil => intro _ p hp; simp at hp
  | cons x r ih =>
    intro hc p hp
    cases r with
    | nil => simp at hp
    | cons q s =>
      simp only [is_chain] at hc
      simp only [List.dropLast_cons₂, List.mem_cons] at hp
      rcases hp with rfl | hp
      · by_contra hge
        rw [deref_out_of_range h p (Nat.le_of_not_lt hge)] at hc
        exact absurd hc.1 (by simp [BookmarkItem.zero])
      · exact ih hc.2 p hp

theorem is_chain_length (h : Heap) (l : List Nat) (hc : is_chain h l) :
    l.length ≤ h.length + 1 := by
  have hnd : l.dropLast.Nodup := (is_chain_nodup h l hc).sublist (List.dropLast_sublist l)
  have hsub : l.dropLast.toFinset ⊆ Finset.range h.length := by
    intro p hp
    simp only [List.mem_toFinset] at hp
    simpa using is_chain_in_range h l hc p hp
  have hcard := Finset.card_le_card hsub
  rw [List.toFinset_card_of_nodup hnd, Finset.card_range, List.length_dropLast] at hcard
  omega

theorem get_complete_path_from_chain (h : Heap) (l : List Nat) : ∀ (i fuel : Nat),
    is_chain h (i :: l) → (i :: l).length ≤ fuel →
    get_complete_path_from fuel h (some i) = some ((i :: l).map (fun p => (h.deref p).name)) := by
  induction l with
  | nil =>
    intro i fuel hc hf
    obtain ⟨f, rfl⟩ : ∃ f, fuel = f + 1 := ⟨fuel - 1, by simp at hf; omega⟩
    simp only [is_chain] at hc
    simp [get_complete_path_from, hc]
  | cons q r ih =>
    intro i fuel hc hf
    obtain ⟨f, rfl⟩ : ∃ f, fuel = f + 1 := ⟨fuel - 1, by simp at hf; omega⟩
    simp only [is_chain] at hc
    simp only [get_complete_path_from, hc.1]
    rw [ih q f hc.2 (by simp at hf ⊢; omega)]
    simp

/-- C28: for an item with the chain of pointers `i :: l` up to the root,
`get_complete_path` returns the names of the items of the chain as they are
(the `.bm` of a link included); reversed, the path runs from the name of the
root, which it contains, to the name of the item, and its length is the depth
of the item below the root plus one. -/
theorem get_complete_path_from_root_inclusive (h : Heap) (i : Nat) (l : List Nat)
    (hc : is_chain h (i :: l)) :
    (get_complete_path h i).map List.reverse =
      some ((i :: l).reverse.map (fun p => (h.deref p).name)) ∧
    ((i :: l).reverse.map (fun p => (h.deref p).name)).length = l.length + 1 ∧
    ((i :: l).reverse.map (fun p => (h.deref p).name)).head? =
      some (h.deref ((i :: l).getLast (List.cons_ne_nil i l))).name ∧
    ((i :: l).reverse.map (fun p => (h.deref p).name)).getLast? = some (h.deref i).name := by
  refine ⟨?_, by simp, ?_, ?_⟩
  · unfold get_complete_path
    rw [get_complete_path_from_chain h l i _ hc (is_chain_length h _ hc)]
    simp [List.map_reverse]
  · rw [List.head?_map, List.head?_reverse, List.getLast?_eq_getLast _ (List.cons_ne_nil i l)]
    rfl
  · rw [List.getLast?_map, List.getLast?_reverse]
    rfl

theorem get_complete_path_from_root_inclusive_witness :
    (get_complete_path heap_visited_link 2).map List.reverse =
      some (([2, 1, 0] : List Nat).reverse.map (fun p => (heap_visited_link.deref p).name)) ∧
    (([2, 1, 0] : List Nat).reverse.map (fun p => (heap_visited_link.deref p).name)).length =
      [1, 0].length + 1 ∧
    (([2, 1, 0] : List Nat).reverse.map (fun p => (heap_visited_link.deref p).name)).head? =
      some (heap_visited_link.deref (([2, 1, 0] : List Nat).getLast
        (List.cons_ne_nil 2 [1, 0]))).name ∧
    (([2, 1, 0] : List Nat).reverse.map (fun p => (heap_visited_link.deref p).name)).getLast? =
      some (heap_visited_link.deref 2).name :=
  get_complete_path_from_root_inclusive heap_visited_link 2 [1, 0]
    ⟨by decide, by decide, by show (heap_visited_link.deref 0).parent = none; decide⟩

/-- C28 (counterexample): the link `b.bm` of `heap_visited_link` lies two
levels below the root `r`, in the folder `F`; its reversed path is `r`, `F`,
`b.bm`: three segments, the name of the root among them and the suffix
`.bm` in place. -/
theorem get_complete_path_keeps_root_and_suffix :
    (heap_visited_link.deref 2).parent = some 1 ∧ (heap_visited_link.deref 1).parent = some 0 ∧
    (heap_visited_link.deref 0).parent = none ∧
    (get_complete_path heap_visited_link 2).map List.reverse =
      some [some "r", some "F", some "b.bm"] := by
  decide

theorem set_deleted_not_found (h : Heap) (i : Nat) (root : xmlNode) (it : Nat)
    (path : List (Option String)) (hpath : get_complete_path h i = some path)
    (hnone : (resolve path.reverse (some root)).1 = none)
    (hop : (h.deref i).isOperatorBookmark ≠ 0) :
    bookmark_set_operator_bookmark_as_deleted h (some i) true (some root) it =
      some (false, some root, (resolve path.reverse (some root)).2) := by
  simp [bookmark_set_operator_bookmark_as_deleted, hop, hpath, hnone]

theorem bookmark_remove_list_loop_skip (h : Heap) (i : Nat) (rest : List Nat) (root : xmlNode)
    (it : Nat) (path : List (Option String)) (hpath : get_complete_path h i = some path)
    (hnone : (resolve path.reverse (some root)).1 = none) :
    bookmark_remove_list_loop h (i :: rest) root it =
      bookmark_remove_list_loop h rest root (resolve path.reverse (some root)).2 := by
  by_cases hop : (h.deref i).isOperatorBookmark ≠ 0
  · simp only [bookmark_remove_list_loop]
    rw [if_pos hop, set_deleted_not_found h i root it path hpath hnone hop]
  · simp only [bookmark_remove_list_loop]
    rw [if_neg hop]
    simp only [hpath, hnone]

theorem bookmark_remove_list_loop_none_found (h : Heap) (items : List Nat) (root : xmlNode) :
    ∀ it : Nat, (∀ i ∈ items, ∃ path, get_complete_path h i = some path ∧
      (resolve path.reverse (some root)).1 = none) →
    ∃ it1, bookmark_remove_list_loop h items root it = some (root, it1) := by
  induction items with
  | nil => intro it _; exact ⟨it, rfl⟩
  | cons i rest ih =>
    intro it hall
    obtain ⟨path, hpath, hnone⟩ := hall i (List.mem_cons_self _ _)
    rw [bookmark_remove_list_loop_skip h i rest root it path hpath hnone]
    exact ih _ (fun k hk => hall k (List.mem_cons_of_mem _ hk))

/-- C29: `bookmark_remove_list` passes over an item whose path the resolver
does not find and goes on with the rest of the list; when the path of no item
of the list is found, the document that is written back is the one that was
read. -/
theorem bookmark_remove_list_skips_not_found (h : Heap) (i : Nat) (rest : List Nat)
    (root : xmlNode) (fopen_ok : Bool) (dump : Int) (junk : Bool) (nodeptriter : Nat)
    (path : List (Option String)) (hpath : get_complete_path h i = some path)
    (hnone : (resolve path.reverse (some root)).1 = none) :
    bookmark_remove_list h (i :: rest) (some (some root)) fopen_ok dump junk nodeptriter =
      bookmark_remove_list h rest (some (some root)) fopen_ok dump junk
        (resolve path.reverse (some root)).2 ∧
    ((∀ k ∈ rest, ∃ p, get_complete_path h k = some p ∧
        (resolve p.reverse (some root)).1 = none) →
      ∃ it1, bookmark_remove_list h (i :: rest) (some (some root)) fopen_ok dump junk
        nodeptriter = some (dump_xml_doc_and_fsync true true fopen_ok dump, some root, it1)) := by
  have hs := bookmark_remove_list_loop_skip h i rest root nodeptriter path hpath hnone
  constructor
  · simp only [bookmark_remove_list, hs]
  · intro hall
    obtain ⟨it1, h1⟩ := bookmark_remove_list_loop_none_found h rest root
      (resolve path.reverse (some root)).2 hall
    exact ⟨it1, by simp only [bookmark_remove_list, hs, h1]⟩

theorem bookmark_remove_list_skips_not_found_witness :
    bookmark_remove_list heap_link_and_new (1 :: [2]) (some (some doc_title_only)) true 0 false
        0 =
      bookmark_remove_list heap_link_and_new [2] (some (some doc_title_only)) true 0 false
        (resolve [some "a.bm", some "r"].reverse (some doc_title_only)).2 ∧
    ∃ it1, bookmark_remove_list heap_link_and_new (1 :: [2]) (some (some doc_title_only)) true 0
      false 0 = some (dump_xml_doc_and_fsync true true true 0, some doc_title_only, it1) :=
  ⟨(bookmark_remove_list_skips_not_found heap_link_and_new 1 [2] doc_title_only true 0 false 0
      [some "a.bm", some "r"] (by decide) (by decide)).1,
    (bookmark_remove_list_skips_not_found heap_link_and_new 1 [2] doc_title_only true 0 false 0
      [some "a.bm", some "r"] (by decide) (by decide)).2
      (fun k hk => by
        have hk2 : k = 2 := by simpa using hk
        subst hk2
        exact ⟨[some "c.bm", some "r"], by decide, by decide⟩)⟩

/-- C29 (counterexample): of the two links passed to `bookmark_remove_list`,
`a.bm` has an element in `doc_link_a` and `c.bm` has none; the element of
`a.bm` is unlinked all the same, and the document written back is
`doc_title_only`. -/
theorem bookmark_remove_list_applies_partial_edit :
    resolve [some "r", some "a.bm"] (some doc_link_a) = (some [1], 1) ∧
    resolve [some "r", some "c.bm"] (some doc_link_a) = (none, 1) ∧
    doc_link_a.children.map title_of = [none, some "a"] ∧
    doc_title_only.children.map title_of = [none] ∧
    bookmark_remove_list heap_link_and_new [1, 2] (some (some doc_link_a)) true 0 false 0 =
      some (false, some doc_title_only, 1) ∧
    bookmark_remove_list heap_link_and_new [2, 1] (some (some doc_link_a)) true 0 false 0 =
      some (false, some doc_title_only, 1) := by
  refine ⟨by decide, by decide, by decide, by decide, rfl, rfl⟩

theorem xmlAddChild_name (parent cur : xmlNode) : (xmlAddChild parent cur).name = parent.name := by
  cases parent with
  | mk t nm c ps cs =>
    simp only [xmlAddChild]
    split
    · split_ifs <;> rfl
    · rfl

theorem xmlSetProp_name (n : xmlNode) (a v : String) : (xmlSetProp n a v).name = n.name := by
  cases n with
  | mk t nm c ps cs => cases t <;> rfl

theorem create_new_xmlnode_name (parent_node r : xmlNode) (bm_item : BookmarkItem)
    (h : create_new_xmlnode parent_node bm_item = some r) : r.name = parent_node.name := by
  unfold create_new_xmlnode at h
  by_cases hf : bm_item.isFolder ≠ 0
  · rw [if_pos hf] at h
    simp only [Option.some.injEq] at h
    rw [← h, xmlAddChild_name, xmlAddChild_name]
  · rw [if_neg hf] at h
    cases hs : g_strndup_less3 bm_item.name with
    | none => rw [hs] at h; simp at h
    | some s =>
      rw [hs] at h
      simp only [Option.some.injEq] at h
      rw [← h, xmlAddChild_name, xmlAddChild_name]

theorem on_last_child_name (parent r : xmlNode) (f : xmlNode → Option xmlNode)
    (h : on_last_child parent f = some r) : r.name = parent.name := by
  cases parent with
  | mk t nm c ps cs =>
    simp only [on_last_child] at h
    cases hl : cs.getLast? with
    | none => rw [hl] at h; simp at h
    | some node =>
      rw [hl] at h
      simp only at h
      cases hn : f node with
      | none => rw [hn] at h; simp at h
      | some node1 =>
        rw [hn] at h
        simp only [Option.map_some', Option.some.injEq] at h
        rw [← h]
        rfl

theorem add_xmlnode_to_parent_name (fuel : Nat) (h : Heap) (parent_item : Nat)
    (parent_node r : xmlNode) (hr : add_xmlnode_to_parent fuel h parent_item parent_node = some r) :
    r.name = parent_node.name := by
  cases fuel with
  | zero => simp [add_xmlnode_to_parent] at hr
  | succ fuel =>
    unfold add_xmlnode_to_parent at hr
    cases hc : create_new_xmlnode parent_node (h.deref parent_item) with
    | none => rw [hc] at hr; simp at hr
    | some parent_node1 =>
      rw [hc] at hr
      rw [on_last_child_name _ _ _ hr, create_new_xmlnode_name _ _ _ hc]

theorem foldlM_name (step : xmlNode → Nat → Option xmlNode)
    (hstep : ∀ (n : xmlNode) (x : Nat) (r : xmlNode), step n x = some r → r.name = n.name)
    (l : List Nat) : ∀ (init r : xmlNode), l.foldlM step init = some r → r.name = init.name := by
  induction l with
  | nil =>
    intro init r h
    simp only [List.foldlM_nil] at h
    cases h
    rfl
  | cons x rest ih =>
    intro init r h
    rw [List.foldlM_cons] at h
    cases hs : step init x with
    | none => rw [hs] at h; simp at h
    | some n1 =>
      rw [hs] at h
      rw [ih n1 r h, hstep init x n1 hs]

theorem add_bookmark_item_name (h : Heap) (bm_item : Nat) (e : xmlNode)
    (he : add_bookmark_item h bm_item = some e) :
    e.name = if (h.deref bm_item).isFolder ≠ 0 then "folder" else "bookmark" := by
  unfold add_bookmark_item at he
  simp only at he
  have hfold := foldlM_name (fun item child => add_xmlnode_to_parent (h.length + 1) h child item)
    (fun n x r hr => add_xmlnode_to_parent_name _ _ _ _ _ hr) (h.deref bm_item).list
  by_cases hf : (h.deref bm_item).isFolder ≠ 0
  · rw [if_pos hf] at he
    simp only at he
    rw [hfold _ _ he, xmlAddChild_name, if_pos hf]
    simp only [xmlNewTextChild, xmlAddChild_name, xmlSetProp_name]
    rfl
  · rw [if_neg hf] at he
    cases hs : g_strndup_less3 (h.deref bm_item).name with
    | none => rw [hs] at he; simp at he
    | some s =>
      rw [hs] at he
      simp only at he
      rw [hfold _ _ he, xmlAddChild_name, if_neg hf]
      simp only [xmlNewTextChild, xmlSetProp?, xmlAddChild_name, xmlSetProp_name]
      rfl

theorem add_bookmark_item_is_item (h : Heap) (bm_item : Nat) (e : xmlNode)
    (he : add_bookmark_item h bm_item = some e) : is_item_element e = true := by
  have h1 := add_bookmark_item_type h bm_item e he
  have h2 := add_bookmark_item_name h bm_item e he
  unfold is_item_element
  rw [h1, h2]
  split_ifs <;> simp

theorem resolve_root_pointer (list : List (Option String)) (root : xmlNode) (node : NodePtr)
    (hl : list.length = 1) (hres : (resolve list (some root)).1 = some node) :
    node.dropLast = [] := by
  unfold resolve at hres
  cases root with
  | mk t nm c ps children =>
    unfold get_parent_nodeptr at hres
    have h1 : list ≠ [] := by intro e; rw [e] at hl; simp at hl
    rw [if_neg h1, if_pos hl] at hres
    cases hf : first_named children "title" with
    | none => rw [hf] at hres; simp at hres
    | some r =>
      rw [hf] at hres
      simp only [Option.map_some', Option.some.injEq] at hres
      rw [← hres]
      rfl

/-- C21: when the folder `parent` has no children and the resolver finds its
path, `bookmark_add_child` returns `BM_OK` and appends the element `elem`
serialised from the item to the children of the element `e` of the folder,
which for the root folder is the root element; `elem` is a `folder` or
`bookmark` element, and when `e` had no such child before, `elem` is the only
one afterwards.  Nothing else in the document changes. -/
theorem bookmark_add_child_into_empty_folder (h : Heap) (parent bm_item : Nat) (position : Int)
    (root : xmlNode) (nodeptriter : Nat) (path : List (Option String)) (node : NodePtr)
    (elem : xmlNode)
    (hfolder : (h.deref parent).isFolder ≠ 0)
    (hempty : (h.deref parent).list = [])
    (hpath : get_complete_path h parent = some path)
    (hres : (resolve path.reverse (some root)).1 = some node)
    (helem : add_bookmark_item h bm_item = some elem) :
    ∃ e root1,
      nodeAt root (folder_element path.reverse node) = some e ∧
      bookmark_add_child h (some parent) (some bm_item) position (some root) nodeptriter =
        some (BM_OK, some root1, (resolve path.reverse (some root)).2) ∧
      root1 = updateAt (fun n => xmlAddChild n elem) root (folder_element path.reverse node) ∧
      nodeAt root1 (folder_element path.reverse node) =
        some (.mk e.type e.name e.content e.properties (e.children ++ [elem])) ∧
      is_item_element elem = true ∧
      (e.children.filter is_item_element = [] →
        (e.children ++ [elem]).filter is_item_element = [elem]) ∧
      ∀ q : NodePtr, ¬ (folder_element path.reverse node) <+: q →
        (nodeAt root1 q).map node_data = (nodeAt root q).map node_data := by
  have hitem := add_bookmark_item_is_item h bm_item elem helem
  have hty := add_bookmark_item_type h bm_item elem helem
  have hE : ∃ e, nodeAt root (folder_element path.reverse node) = some e := by
    unfold folder_element
    by_cases h1 : path.reverse.length = 1
    · rw [if_pos h1]; exact ⟨root, rfl⟩
    · rw [if_neg h1]; exact resolve_valid _ _ _ hres
  obtain ⟨e, he⟩ := hE
  have hroot1 : bookmark_add_child h (some parent) (some bm_item) position (some root)
      nodeptriter = some (BM_OK,
        some (updateAt (fun n => xmlAddChild n elem) root (folder_element path.reverse node)),
        (resolve path.reverse (some root)).2) := by
    have hf0 : ¬ (h.deref parent).isFolder = 0 := hfolder
    simp only [bookmark_add_child, bookmark_add_child_at, if_neg hf0, hempty, ne_eq,
      not_true_eq_false, if_false, hpath, helem, hres]
    unfold folder_element
    by_cases h1 : path.reverse.length = 1
    · rw [if_pos h1, if_pos h1]
      simp only [Option.map_some', xmlAddSibling, resolve_root_pointer _ _ _ h1 hres]
    · rw [if_neg h1, if_neg h1]
      simp only [Option.map_some', xmlAddChildAt]
  have hnew : xmlAddChild e elem =
      .mk e.type e.name e.content e.properties (e.children ++ [elem]) := by
    rw [xmlAddChild_element e elem hty]
    cases e with
    | mk t nm c ps cs => simp [insert_child, xmlNode.children, xmlNode.type, xmlNode.name,
        xmlNode.content, xmlNode.properties]
  refine ⟨e, _, he, hroot1, rfl, ?_, hitem, ?_, ?_⟩
  · rw [nodeAt_updateAt _ root _ e he, hnew]
  · intro hnone
    rw [List.filter_append, hnone]
    simp [hitem]
  · intro q hq
    exact nodeAt_updateAt_other _ _ root q hq

theorem bookmark_add_child_into_empty_folder_witness :
    ∃ e root1,
      nodeAt doc_folder_only (folder_element [some "F", some "r"].reverse [1]) = some e ∧
      bookmark_add_child heap_folder_and_new (some 1) (some 2) 0 (some doc_folder_only) 0 =
        some (BM_OK, some root1, (resolve [some "F", some "r"].reverse (some doc_folder_only)).2) ∧
      root1 = updateAt (fun n => xmlAddChild n (xml_written_folder "G")) doc_folder_only
        (folder_element [some "F", some "r"].reverse [1]) ∧
      nodeAt root1 (folder_element [some "F", some "r"].reverse [1]) =
        some (.mk e.type e.name e.content e.properties
          (e.children ++ [xml_written_folder "G"])) ∧
      is_item_element (xml_written_folder "G") = true ∧
      (e.children.filter is_item_element = [] →
        (e.children ++ [xml_written_folder "G"]).filter is_item_element =
          [xml_written_folder "G"]) ∧
      ∀ q : NodePtr, ¬ (folder_element [some "F", some "r"].reverse [1]) <+: q →
        (nodeAt root1 q).map node_data = (nodeAt doc_folder_only q).map node_data :=
  bookmark_add_child_into_empty_folder heap_folder_and_new 1 2 0 doc_folder_only 0
    [some "F", some "r"] [1] (xml_written_folder "G") (by decide) (by decide) (by decide)
    (by decide) rfl

theorem unlines_append (a b : List (List Char)) : unlines (a ++ b) = unlines a ++ unlines b := by
  induction a with
  | nil => rfl
  | cons l ls ih => simp [unlines, ih]

mutual
theorem export_item_lines (T : ItemTree) (h : Heap) (p : Nat) (out : List Char)
    (bm_parent_name : Option String) (fuel : Nat) (hwf : well_formed T = true)
    (hrep : Represents h p T) (hfuel : T.depth ≤ fuel) :
    netscape_export_bookmarks_item fuel h out p bm_parent_name =
      some (out ++ unlines (record_spec bm_parent_name T)) := by
  match T with
  | .mk item children =>
    simp only [Represents] at hrep
    simp only [well_formed, Bool.and_eq_true] at hwf
    simp only [ItemTree.depth] at hfuel
    obtain ⟨f, rfl⟩ : ∃ f, fuel = f + 1 := ⟨fuel - 1, by omega⟩
    obtain ⟨hitem, hlist⟩ := hrep
    simp only [netscape_export_bookmarks_item, hitem, record_spec]
    by_cases hf : item.isFolder ≠ 0
    · have hf0 : ¬ item.isFolder = 0 := hf
      rw [if_neg hf0, if_pos hf]
      rw [if_pos hf] at hwf
      have hl := export_list_lines children h item.list
        (out ++ "<DT><H3 ADD_DATE=\"0\">".data ++ folder_title_spec bm_parent_name item ++
          "</H3>\n<DL><p>\n".data) f hwf.2 hlist (by omega)
      cases bm_parent_name with
      | some s =>
        simp only [folder_title_spec] at hl ⊢
        rw [hl]
        simp only [unlines, unlines_append, Option.some.injEq, List.append_assoc]
        simp
      | none =>
        cases hn : item.name with
        | none => rw [hn] at hwf; simp at hwf
        | some name =>
          simp only [folder_title_spec, hn, Option.getD_some, Option.map_some'] at hl ⊢
          rw [hl]
          simp only [unlines, unlines_append, Option.some.injEq, List.append_assoc]
          simp
    · have hf0 : item.isFolder = 0 := not_not.mp hf
      rw [if_pos hf0, if_neg hf]
      rw [if_neg hf] at hwf
      simp only [Bool.and_eq_true] at hwf
      obtain ⟨⟨hu, hnm⟩, _⟩ := hwf
      cases hurl : item.url with
      | none => rw [hurl] at hu; simp at hu
      | some url =>
        cases hn : item.name with
        | none => rw [hn] at hnm; simp at hnm
        | some name =>
          rw [hn] at hnm
          have hlen : 3 ≤ name.length := by simpa using hnm
          simp only [g_strndup_less3_some name hlen, unlines, anchor_line_spec, hurl, hn,
            Option.getD_some, Option.some.injEq]
          split_ifs <;> simp
theorem export_list_lines (Ts : List ItemTree) (h : Heap) (ps : List Nat) (out : List Char)
    (fuel : Nat) (hwf : well_formed_list Ts = true) (hrep : RepresentsList h ps Ts)
    (hfuel : depth_list Ts ≤ fuel) :
    ps.foldlM (fun out child => netscape_export_bookmarks_item fuel h out child none) out =
      some (out ++ unlines (records_spec Ts)) := by
  match Ts, ps with
  | [], [] => simp [records_spec, unlines]
  | [], _ :: _ => simp [RepresentsList] at hrep
  | _ :: _, [] => simp [RepresentsList] at hrep
  | T :: Ts, p :: ps =>
    simp only [RepresentsList] at hrep
    simp only [well_formed_list, Bool.and_eq_true] at hwf
    simp only [depth_list] at hfuel
    rw [List.foldlM_cons, export_item_lines T h p out none fuel hwf.1 hrep.1 (by omega)]
    simp only [Option.bind_eq_bind, Option.some_bind]
    rw [export_list_lines Ts h ps _ fuel hwf.2 hrep.2 (by omega)]
    simp [records_spec, unlines_append]
end


theorem peek_dropWhile_colon (url : List Char) :
    peek (url.dropWhile isalnum) = ':' ↔
      ∃ s rest, url = s ++ ':' :: rest ∧ ∀ c ∈ s, isalnum c = true := by
  constructor
  · intro hp
    refine ⟨url.takeWhile isalnum, (url.dropWhile isalnum).tail, ?_, ?_⟩
    · cases hd : url.dropWhile isalnum with
      | nil => rw [hd] at hp; exact absurd hp (by decide)
      | cons c r =>
        rw [hd] at hp
        simp only [peek, List.headD_cons] at hp
        subst hp
        have := List.takeWhile_append_dropWhile isalnum url
        rw [hd] at this
        simpa using this.symm
    · intro c hc
      exact List.mem_takeWhile_imp hc
  · rintro ⟨s, rest, rfl, hs⟩
    have h1 : (s ++ ':' :: rest).dropWhile isalnum = ':' :: rest := by
      induction s with
      | nil => rfl
      | cons a t ih =>
        have ha : isalnum a = true := hs a (List.mem_cons_self _ _)
        simp only [List.cons_append, List.dropWhile_cons, ha, if_true]
        exact ih (fun c hc => hs c (List.mem_cons_of_mem _ hc))
    rw [h1]
    rfl

/-- C25: for a link with the url `url`, `netscape_export_bookmarks_item`
writes as `HREF` the url unchanged when it begins with letters and digits
(possibly none) followed by `:`, or begins with `/`, and `http://` followed
by the url otherwise. -/
theorem export_href_by_alnum_scheme (fuel : Nat) (h : Heap) (out : List Char) (bm_item : Nat)
    (bm_parent_name : Option String) (url name : String)
    (hlink : (h.deref bm_item).isFolder = 0) (hurl : (h.deref bm_item).url = some url)
    (hname : (h.deref bm_item).name = some name) (hlen : 3 ≤ name.length) :
    netscape_export_bookmarks_item (fuel + 1) h out bm_item bm_parent_name =
      some (out ++ "\t<DT><A HREF=\"".data ++ export_href url.data ++ "\"".data ++
        (if (h.deref bm_item).time_added > 0 then
          " ADD_DATE=\"".data ++ (fmt_d (h.deref bm_item).time_added).data ++ "\"".data
         else []) ++
        (if (h.deref bm_item).time_last_visited > 0 then
          " LAST_VISIT=\"".data ++ (fmt_d (h.deref bm_item).time_last_visited).data ++ "\"".data
         else []) ++
        ">".data ++ escape_bookmark_str (name.data.take (name.length - 3)) ++ "</A>\n".data) ∧
    (((∃ s rest, url.data = s ++ ':' :: rest ∧ ∀ c ∈ s, isalnum c = true) ∨
        ∃ rest, url.data = '/' :: rest) → export_href url.data = url.data) ∧
    (¬ ((∃ s rest, url.data = s ++ ':' :: rest ∧ ∀ c ∈ s, isalnum c = true) ∨
        ∃ rest, url.data = '/' :: rest) → export_href url.data = "http://".data ++ url.data) := by
  refine ⟨?_, ?_, ?_⟩
  · simp only [netscape_export_bookmarks_item, hlink, if_true, hurl, hname,
      g_strndup_less3_some name hlen]
    split_ifs <;> simp
  · intro hc
    unfold export_href
    rcases hc with hc | ⟨rest, hr⟩
    · rw [if_neg (not_not.mpr ((peek_dropWhile_colon _).mpr hc))]
    · by_cases hp : peek (url.data.dropWhile isalnum) ≠ ':'
      · rw [if_pos hp, if_neg (by simp [hr])]
      · rw [if_neg hp]
  · intro hc
    unfold export_href
    have h1 : peek (url.data.dropWhile isalnum) ≠ ':' :=
      fun e => hc (Or.inl ((peek_dropWhile_colon _).mp e))
    have h2 : url.data.head? ≠ some '/' := by
      intro e
      apply hc
      right
      cases hd : url.data with
      | nil => rw [hd] at e; simp at e
      | cons c r =>
        rw [hd] at e
        simp only [List.head?_cons, Option.some.injEq] at e
        exact ⟨r, by rw [e]⟩
    rw [if_pos h1, if_pos h2]

theorem export_href_by_alnum_scheme_witness :
    netscape_export_bookmarks_item (0 + 1) heap_export [] 2 none =
      some ([] ++ "\t<DT><A HREF=\"".data ++ export_href "/srv/x".data ++ "\"".data ++
        (if (heap_export.deref 2).time_added > 0 then
          " ADD_DATE=\"".data ++ (fmt_d (heap_export.deref 2).time_added).data ++ "\"".data
         else []) ++
        (if (heap_export.deref 2).time_last_visited > 0 then
          " LAST_VISIT=\"".data ++ (fmt_d (heap_export.deref 2).time_last_visited).data ++
            "\"".data
         else []) ++
        ">".data ++ escape_bookmark_str ("a&b.bm".data.take ("a&b.bm".length - 3)) ++
        "</A>\n".data) ∧
    (((∃ s rest, "/srv/x".data = s ++ ':' :: rest ∧ ∀ c ∈ s, isalnum c = true) ∨
        ∃ rest, "/srv/x".data = '/' :: rest) → export_href "/srv/x".data = "/srv/x".data) ∧
    (¬ ((∃ s rest, "/srv/x".data = s ++ ':' :: rest ∧ ∀ c ∈ s, isalnum c = true) ∨
        ∃ rest, "/srv/x".data = '/' :: rest) →
      export_href "/srv/x".data = "http://".data ++ "/srv/x".data) :=
  export_href_by_alnum_scheme 0 heap_export [] 2 none "/srv/x" "a&b.bm" (by decide) (by decide)
    (by decide) (by decide)

/-- C25 (counterexample): the url `svn+ssh://h/x` has the explicit scheme
`svn+ssh`, yet the exporter writes `http://svn+ssh://h/x`, because the loop
that looks for the `:` stops at the `+`; and for `:x`, which has no scheme,
no `http://` is written. -/
theorem export_href_prefixes_plus_scheme :
    has_scheme_spec "svn+ssh://h/x".data = true ∧
    (heap_export.deref 3).url = some "svn+ssh://h/x" ∧
    netscape_export_bookmarks_item 1 heap_export [] 3 none =
      some "\t<DT><A HREF=\"http://svn+ssh://h/x\" LAST_VISIT=\"7\">c</A>\n".data ∧
    has_scheme_spec ":x".data = false ∧ export_href ":x".data = ":x".data := by
  refine ⟨by decide, by decide, by decide, by decide, by decide⟩

/-- C26: for a tree of items that the heap holds at `p`, with enough fuel for
its depth, `netscape_export_bookmarks_item` appends to the stream the lines of
`record_spec`, each followed by a line break: for a folder the header line
with the title, the line `<DL><p>`, the records of the children in the order
of the list and the line `</DL><p>`; for a link the one anchor line, in which
`ADD_DATE` stands when `time_added > 0` and `LAST_VISIT` when
`time_last_visited > 0`. -/
theorem netscape_export_bookmarks_item_records (T : ItemTree) (h : Heap) (p : Nat)
    (out : List Char) (bm_parent_name : Option String) (fuel : Nat)
    (hwf : well_formed T = true) (hrep : Represents h p T) (hfuel : T.depth ≤ fuel) :
    netscape_export_bookmarks_item fuel h out p bm_parent_name =
      some (out ++ unlines (record_spec bm_parent_name T)) ∧
    (T.item.isFolder ≠ 0 → record_spec bm_parent_name T =
      ("<DT><H3 ADD_DATE=\"0\">".data ++ folder_title_spec bm_parent_name T.item ++
        "</H3>".data) :: "<DL><p>".data :: (records_spec T.children ++ ["</DL><p>".data])) ∧
    (T.item.isFolder = 0 → record_spec bm_parent_name T = [anchor_line_spec T.item]) := by
  refine ⟨export_item_lines T h p out bm_parent_name fuel hwf hrep hfuel, ?_, ?_⟩
  · intro hf
    cases T with
    | mk item children =>
      simp only [ItemTree.item] at hf
      simp only [record_spec, if_pos hf, ItemTree.item, ItemTree.children]
  · intro hf
    cases T with
    | mk item children =>
      simp only [ItemTree.item] at hf
      simp only [record_spec, hf, ne_eq, not_true_eq_false, if_false, ItemTree.item]

theorem netscape_export_bookmarks_item_records_witness :
    netscape_export_bookmarks_item 2 heap_export [] 1 none =
      some ([] ++ unlines (record_spec none (.mk (heap_export.deref 1)
        [.mk (heap_export.deref 3) []]))) ∧
    unlines (record_spec none (.mk (heap_export.deref 1) [.mk (heap_export.deref 3) []])) =
      ("<DT><H3 ADD_DATE=\"0\">F&lt;1&gt;</H3>\n<DL><p>\n" ++
       "\t<DT><A HREF=\"http://svn+ssh://h/x\" LAST_VISIT=\"7\">c</A>\n</DL><p>\n").data :=
  ⟨(netscape_export_bookmarks_item_records (.mk (heap_export.deref 1)
      [.mk (heap_export.deref 3) []]) heap_export 1 [] none 2
      (by decide) ⟨rfl, ⟨rfl, trivial⟩, trivial⟩ (by decide)).1, by decide⟩

set_option maxRecDepth 20000 in
/-- C27 (code bug): with `a<b` as `bm_parent_name`, `__netscape_export_bookmarks`
writes the header line of the folder `F` of `heap_folder_and_new` with the
title `a<b`: the `<` is raw, whereas the name of an item goes through
`escape_bookmark_str`, which gives `a&lt;b`. -/
theorem netscape_export_writes_parent_name_raw :
    __netscape_export_bookmarks 1 true true heap_folder_and_new [1] (some "a<b") =
      some (true, some (bm_export_header ++
        "<DT><H3 ADD_DATE=\"0\">a<b</H3>\n<DL><p>\n</DL><p>\n</DL><p>\n".data)) ∧
    escape_bookmark_str "a<b".data = "a&lt;b".data := by
  refine ⟨rfl, by decide⟩

theorem strstr_isSome (pat : List Char) (s : List Char) :
    (strstr s pat).isSome = decide (pat <:+: s) := by
  induction s with
  | nil =>
    simp only [strstr]
    by_cases hp : pat = []
    · simp [hp]
    · simp [hp]
  | cons c r ih =>
    simp only [strstr]
    by_cases hpre : pat.isPrefixOf (c :: r) = true
    · rw [if_pos hpre]
      have : pat <:+: c :: r := (List.isPrefixOf_iff_prefix.mp hpre).isInfix
      simp [this]
    · rw [if_neg hpre]
      have hnp : ¬ pat <+: c :: r := fun e => hpre (List.isPrefixOf_iff_prefix.mpr e)
      rw [Option.isSome_map', ih]
      simp [List.infix_cons_iff, hnp]

theorem find_bookmarks_line_loop_any (n : Nat) : ∀ stream : List Char,
    find_bookmarks_line_loop n stream =
      (read_lines n stream).any (fun l => decide ("Bookmarks".data <:+: l)) := by
  induction n with
  | zero => intro stream; rfl
  | succ n ih =>
    intro stream
    simp only [find_bookmarks_line_loop, read_lines]
    cases hr : bookmark_read_line_from_html_file stream with
    | mk line rest =>
      cases line with
      | none => rfl
      | some line =>
        simp only [List.any_cons, strstr_isSome, ih rest]
        by_cases hm : "Bookmarks".data <:+: line
        · simp [hm]
        · simp [hm]

/-- C24: `bookmark_import` goes on to import the file exactly when its first
line contains `NETSCAPE-Bookmark-file` or one of the ten lines after the first
(the second to the eleventh) contains `Bookmarks`; it then returns `TRUE` when
`import_folder` is not `NULL`.  Otherwise it returns `FALSE` and allocates
nothing. -/
theorem bookmark_import_accepts_by_eleven_lines (env : ImportEnv) (stream : List Char)
    (importFolderName : Option String) (import_folder : Bool) (h : Heap) :
    bookmark_import env (some stream) importFolderName import_folder h =
      if accepts_spec stream = true then
        (netscape_import_bookmarks env (some stream) importFolderName h).map
          (fun r =>
            match r.1 with
            | some p => if import_folder then (true, some p, r.2) else (false, none, r.2)
            | none => (false, none, r.2))
      else some (false, none, h) := by
  have hacc : (match (bookmark_read_line_from_html_file stream).1 with
      | some line =>
        (strstr line "NETSCAPE-Bookmark-file".data).isSome ||
          find_bookmarks_line (bookmark_read_line_from_html_file stream).2
      | none => false) = accepts_spec stream := by
    have h11 : read_lines 11 stream =
        (match bookmark_read_line_from_html_file stream with
         | (none, _) => []
         | (some line, rest) => line :: read_lines 10 rest) := rfl
    simp only [accepts_spec, h11, find_bookmarks_line]
    cases hr : bookmark_read_line_from_html_file stream with
    | mk line rest =>
      cases line with
      | none => rfl
      | some line =>
        simp only [List.take_succ_cons, List.take_zero, List.any_cons, List.any_nil,
          Bool.or_false, List.drop_succ_cons, List.drop_zero, strstr_isSome,
          find_bookmarks_line_loop_any]
  have key : bookmark_import env (some stream) importFolderName import_folder h =
      (if (match (bookmark_read_line_from_html_file stream).1 with
          | some line =>
            (strstr line "NETSCAPE-Bookmark-file".data).isSome ||
              find_bookmarks_line (bookmark_read_line_from_html_file stream).2
          | none => false) = false then some (false, none, h)
       else
        match netscape_import_bookmarks env (some stream) importFolderName h with
        | none => none
        | some (bm_item, h1) =>
          match bm_item with
          | some p => if import_folder then some (true, some p, h1) else some (false, none, h1)
          | none => some (false, none, h1)) := rfl
  rw [key, hacc]
  by_cases ha : accepts_spec stream = true
  · rw [if_pos ha, if_neg (by simp [ha])]
    cases hi : netscape_import_bookmarks env (some stream) importFolderName h with
    | none => rfl
    | some r =>
      obtain ⟨bm, h1⟩ := r
      cases bm with
      | none => rfl
      | some p => cases import_folder <;> rfl
  · rw [if_neg ha, if_pos (by simpa using ha)]

/-- C24 (counterexample): none of the first ten lines of
`stream_marker_in_line_11` contains a marker, the eleventh line reads
`Bookmarks`; `bookmark_import` accepts the file and returns `TRUE`. -/
theorem bookmark_import_accepts_marker_in_line_eleven :
    (read_lines 10 stream_marker_in_line_11).length = 10 ∧
    (read_lines 10 stream_marker_in_line_11).all
      (fun l => decide (¬ "NETSCAPE-Bookmark-file".data <:+: l ∧ ¬ "Bookmarks".data <:+: l)) =
      true ∧
    (bookmark_import (ascii_env 1) (some stream_marker_in_line_11) (some "imp") true []).map
      (fun r => (r.1, r.2.1)) = some (true, some 0) := by
  refine ⟨by decide, by decide, by decide⟩

set_option maxRecDepth 100000 in
/-- C23 (code bug): the link of `heap_plain_link` has no dates, so the first
export writes its anchor line without `ADD_DATE` and `LAST_VISIT`.  The
importer gives the link the time of the import (it parses the two dates of a
line and drops them), so the second export writes both attributes with that
time: the two texts are the same only if the clock does not stand above 0. -/
theorem netscape_export_import_export_differs :
    __netscape_export_bookmarks 1 true true heap_plain_link [1] none =
      some (true, some text_plain_link) ∧
    ∀ tick : Int,
      ((netscape_import_bookmarks (ascii_env tick) (some text_plain_link) (some "imp") []).bind
        (fun r => __netscape_export_bookmarks 1 true true r.2 (r.2.deref (r.1.getD 0)).list
          none) = some (true, some text_plain_link) ↔ toInt32 tick ≤ 0) := by
  refine ⟨rfl, ?_⟩
  intro tick
  have himp : netscape_import_bookmarks (ascii_env tick) (some text_plain_link) (some "imp") [] =
      some (some 0, heap_imported_link (toInt32 tick)) := rfl
  rw [himp]
  have hl : "a.bm".length = 4 := rfl
  have hexp : ∀ t : Int,
      __netscape_export_bookmarks 1 true true (heap_imported_link t) [1] none =
      some (true, some (bm_export_header ++ "\t<DT><A HREF=\"http://a.com/\"".data ++
        ((if t > 0 then " ADD_DATE=\"".data ++ (fmt_d t).data ++ "\"".data else []) ++
         (if t > 0 then " LAST_VISIT=\"".data ++ (fmt_d t).data ++ "\"".data else [])) ++
        ">a</A>\n</DL><p>\n".data)) := by
    intro t
    by_cases ht : t > 0
    · simp only [if_pos ht]
      simp [__netscape_export_bookmarks, netscape_export_bookmarks_item, Heap.deref, ht,
        heap_imported_link, hl,
        export_href, g_strndup_less3, escape_bookmark_str, escape_char, peek, isalnum, isdigit]
    · simp only [if_neg ht]
      simp [__netscape_export_bookmarks, netscape_export_bookmarks_item, Heap.deref, ht,
        heap_imported_link, hl,
        export_href, g_strndup_less3, escape_bookmark_str, escape_char, peek, isalnum, isdigit]
  have hlist : ((heap_imported_link (toInt32 tick)).deref ((some 0 : Option Nat).getD 0)).list =
      [1] := rfl
  simp only [Option.some_bind, hlist, hexp]
  by_cases ht : toInt32 tick > 0
  · simp only [if_pos ht]
    constructor
    · intro heq
      exfalso
      simp [text_plain_link] at heq
    · intro hle
      omega
  · simp only [if_neg ht]
    constructor
    · intro _; omega
    · intro _; rfl

/-! ## The files, the lines of the importer and the round trips (C31 to C40) -/

theorem mem_zip_self {α : Type} (l : List α) (c : α × α) (hc : c ∈ l.zip l) : c.1 = c.2 := by
  induction l with
  | nil => simp at hc
  | cons a l ih =>
    rw [List.zip_cons_cons, List.mem_cons] at hc
    rcases hc with hc | hc
    · rw [hc]
    · exact ih hc

theorem same_tree_refl (fuel : Nat) : ∀ (h : Heap) (p : Nat), same_tree fuel h p h p = true := by
  induction fuel with
  | zero => intro h p; rfl
  | succ n ih =>
    intro h p
    simp only [same_tree, same_fields, decide_True, Bool.and_self, Bool.true_and,
      List.all_eq_true]
    intro c hc
    rw [← mem_zip_self _ c hc]
    exact ih h c.1

/-- C31: when the file `MyBookmarks.xml` under `HOME` parses with the root
element `node`, two calls of `get_root_bookmark` on the same files give the
same result, whatever `file_name`, old `*bookmark_root` and old tree each of
them is given: the result is what `print_root_names` builds from `node` on an
empty heap, and two trees that are returned are equal in the fields that
`compare` checks, children pairwise in order, to every depth. -/
theorem get_root_bookmark_same_tree (fs : Files) (node : xmlNode) (b1 b2 : Option Nat)
    (h1 h2 : Heap) (f1 f2 : Option String)
    (hdoc : read_root_element fs (fs.home ++ MYBOOKMARKS) = some node) :
    get_root_bookmark fs b1 h1 f1 = get_root_bookmark fs b2 h2 f2 ∧
    get_root_bookmark fs b1 h1 f1 =
      (print_root_names node []).map
        (fun r => (true, some r.1, r.2.upd r.1 (fun it => { it with isFolder := 1 }))) ∧
    ∀ (r1 r2 : Nat) (t1 t2 : Heap), get_root_bookmark fs b1 h1 f1 = some (true, some r1, t1) →
      get_root_bookmark fs b2 h2 f2 = some (true, some r2, t2) →
      ∀ fuel, same_tree fuel t1 r1 t2 r2 = true := by
  have hpath : file_path_with_home_dir fs.home (some MYBOOKMARKS) = fs.home ++ MYBOOKMARKS := by
    simp [file_path_with_home_dir, MYBOOKMARKS]
  have key : ∀ (b : Option Nat) (h : Heap) (f : Option String), get_root_bookmark fs b h f =
      (print_root_names node []).map
        (fun r => (true, some r.1, r.2.upd r.1 (fun it => { it with isFolder := 1 }))) := by
    intro b h f
    simp only [get_root_bookmark, _get_root_bookmark, hpath, hdoc, get_root_bookmark_absolute_path]
    cases print_root_names node [] with
    | none => rfl
    | some r => rfl
  refine ⟨by rw [key, key], key b1 h1 f1, ?_⟩
  intro r1 r2 t1 t2 e1 e2 fuel
  rw [key] at e1 e2
  rw [e1] at e2
  injection e2 with e2
  injection e2 with _ e2
  injection e2 with e3 e4
  injection e3 with e3
  rw [← e3, ← e4]
  exact same_tree_refl fuel t1 r1

theorem get_root_bookmark_same_tree_witness :
    (get_root_bookmark files_one_link none [] (some "a.xml") =
      get_root_bookmark files_one_link (some 0) heap_one_link none ∧
    get_root_bookmark files_one_link none [] (some "a.xml") =
      (print_root_names doc_one_link []).map
        (fun r => (true, some r.1, r.2.upd r.1 (fun it => { it with isFolder := 1 }))) ∧
    ∀ (r1 r2 : Nat) (t1 t2 : Heap),
      get_root_bookmark files_one_link none [] (some "a.xml") = some (true, some r1, t1) →
      get_root_bookmark files_one_link (some 0) heap_one_link none = some (true, some r2, t2) →
      ∀ fuel, same_tree fuel t1 r1 t2 r2 = true) ∧
    get_root_bookmark files_one_link none [] (some "a.xml") = some (true, some 0, heap_one_link) :=
  ⟨get_root_bookmark_same_tree files_one_link doc_one_link none (some 0) [] heap_one_link
    (some "a.xml") none rfl, rfl⟩

/-- C39 (code bug): when nothing can be read under `HOME` (no backup, no
`MyBookmarks.xml`) and `fopen` fails, the first parse fails and the template
is not created; `get_bookmark_from_backup` returns `TRUE` all the same, with
`*bookmark_root` and the heap as they were: no tree was loaded. -/
theorem get_bookmark_from_backup_true_without_tree (home : String)
    (parse : String → Option xmlNode) (bookmark_root : Option Nat) (h : Heap) (tick : Int) :
    _get_root_bookmark (files_none home parse) bookmark_root h (some MYBOOKMARKS) =
      some (false, bookmark_root, h) ∧
    (create_empty_bookmark_template (files_none home parse)
      (file_path_with_home_dir home (some MYBOOKMARKS)) tick).1 = false ∧
    (get_bookmark_from_backup (files_none home parse) bookmark_root h tick).map
      (fun r => (r.1, r.2.1, r.2.2.1)) = some (true, bookmark_root, h) := by
  refine ⟨rfl, rfl, rfl⟩

/-- C38 (code bug): the `info` of `doc_info_without_metadata` has no
`metadata` child, so `get_attribute_pointer` returns `NULL` and
`assign_node_metadata` reads `n->children` through it: `print_root_names`
does not return a tree. -/
theorem print_root_names_faults_without_metadata :
    get_attribute_pointer (xml_element "info" [] []).children "metadata" = none ∧
    assign_node_metadata BookmarkItem.zero (xml_element "info" [] []) = none ∧
    print_root_names doc_info_without_metadata [] = none ∧
    get_root_bookmark_absolute_path none [] (some doc_info_without_metadata) = none := by
  refine ⟨rfl, rfl, rfl, rfl⟩

/-- C40: `bookmarks_new_bookmark` returns a new item, a link when its first
argument (the parameter called `isFolder`) is true and a folder when it is
false.  With a true argument the item has `isFolder` false, the name `name`
followed by `.bm` and the url `url`; with a false argument it has `isFolder`
true, the name `name` and a `NULL` url.  In both cases it has no children, no
parent, the given `isOperatorBookmark` and the time of the call. -/
theorem bookmarks_new_bookmark_kind (tick : Int) (h : Heap) (isFolder : Int)
    (name url : Option String) (isOperatorBookmark : Int) :
    (bookmarks_new_bookmark tick h isFolder name url isOperatorBookmark).1 = h.length ∧
    ((bookmarks_new_bookmark tick h isFolder name url isOperatorBookmark).2.deref
      h.length).isFolder = (if isFolder ≠ 0 then 0 else 1) ∧
    ((bookmarks_new_bookmark tick h isFolder name url isOperatorBookmark).2.deref
      h.length).name = (if isFolder ≠ 0 then some (fmt_s name ++ ".bm") else name) ∧
    ((bookmarks_new_bookmark tick h isFolder name url isOperatorBookmark).2.deref
      h.length).url = (if isFolder ≠ 0 then url else none) ∧
    ((bookmarks_new_bookmark tick h isFolder name url isOperatorBookmark).2.deref
      h.length).list = [] ∧
    ((bookmarks_new_bookmark tick h isFolder name url isOperatorBookmark).2.deref
      h.length).parent = none ∧
    ((bookmarks_new_bookmark tick h isFolder name url isOperatorBookmark).2.deref
      h.length).isOperatorBookmark = isOperatorBookmark ∧
    ((bookmarks_new_bookmark tick h isFolder name url isOperatorBookmark).2.deref
      h.length).time_added = toInt32 tick ∧
    ((bookmarks_new_bookmark tick h isFolder name url isOperatorBookmark).2.deref
      h.length).time_last_visited = toInt32 tick := by
  have hd : ∀ f : BookmarkItem → BookmarkItem,
      Heap.deref (Heap.upd (h ++ [BookmarkItem.zero]) h.length f) h.length =
        f BookmarkItem.zero := by
    intro f
    rw [Heap.deref_upd_same _ _ _ (by simp), Heap.deref_alloc]
  simp only [bookmarks_new_bookmark, create_bookmark_new, hd]
  by_cases hf : isFolder = 0
  · simp [hf]
  · simp [hf, String.append_assoc]

/-- C40 (counterexample): called with `isFolder` true, `bookmarks_new_bookmark`
returns the link `n.bm` with the url `u`, whose `isFolder` is false; called
with `isFolder` false, it returns the folder `n`. -/
theorem bookmarks_new_bookmark_true_gives_link :
    bookmarks_new_bookmark 7 [] 1 (some "n") (some "u") 0 =
      (0, [{ isFolder := 0, name := some "n.bm", url := some "u", time_added := 7,
             time_last_visited := 7 }]) ∧
    bookmarks_new_bookmark 7 [] 0 (some "n") (some "u") 0 =
      (0, [{ isFolder := 1, name := some "n", url := none, time_added := 7,
             time_last_visited := 7 }]) := by
  decide

/-- C35 (code bug): the text `<DT><H3>F</H3>` opens the folder `F` and never
closes it; `netscape_import_bookmarks` returns the folder `F`, whose parent is
the import folder `imp`, not the import folder. -/
theorem netscape_import_bookmarks_returns_open_folder :
    (netscape_import_bookmarks (ascii_env 1) (some "<DT><H3>F</H3>\n".data) (some "imp") []).map
      (fun r => (r.1, (r.2.deref (r.1.getD 0)).name, (r.2.deref (r.1.getD 0)).parent,
        (r.2.deref 0).name, (r.2.deref 0).parent, (r.2.deref 0).list)) =
      some (some 1, some "F", some 0, some "imp", none, [1]) := by
  rfl

theorem read_line_loop_spec : ∀ (s acc : List Char), NUL ∉ s →
    ∃ l rest, read_line_loop s acc = (acc ++ l, rest) ∧ l ++ rest = s ∧
      '\n' ∉ l.dropLast ∧ (s ≠ [] → l ≠ []) ∧
      (l.getLast? = some '\n' ∨ (rest = [] ∧ '\n' ∉ l)) := by
  intro s
  induction s with
  | nil =>
    intro acc _
    exact ⟨[], [], by simp [read_line_loop], rfl, by simp, by simp, Or.inr ⟨rfl, by simp⟩⟩
  | cons c r ih =>
    intro acc h0
    have hc : c ≠ NUL := fun e => h0 (by simp [e])
    have hr : NUL ∉ r := fun e => h0 (by simp [e])
    by_cases hn : c = '\n'
    · refine ⟨[c], r, by simp [read_line_loop, hn], rfl, by simp, by simp, Or.inl (by simp [hn])⟩
    · obtain ⟨l, rest, h1, h2, h3, _, h5⟩ := ih (acc ++ [c]) hr
      refine ⟨c :: l, rest, ?_, by simp [h2], ?_, by simp, ?_⟩
      · simp only [read_line_loop, if_neg hn, if_neg hc, h1, List.append_assoc,
          List.singleton_append]
      · cases l with
        | nil => simp
        | cons d l1 =>
          rw [List.dropLast_cons₂]
          intro hm
          rcases List.mem_cons.mp hm with e | e
          · exact hn e.symm
          · exact h3 e
      · rcases h5 with h5 | ⟨h5, h6⟩
        · left
          cases l with
          | nil => simp at h5
          | cons d l1 => rw [List.getLast?_cons_cons]; exact h5
        · right
          refine ⟨h5, ?_⟩
          intro hm
          rcases List.mem_cons.mp hm with e | e
          · exact hn e.symm
          · exact h6 e

theorem bookmark_read_line_spec (s : List Char) (h0 : NUL ∉ s) (hs : s ≠ []) :
    ∃ l rest, bookmark_read_line_from_html_file s = (some l, rest) ∧ l ++ rest = s ∧ l ≠ [] ∧
      '\n' ∉ l.dropLast ∧ (l.getLast? = some '\n' ∨ (rest = [] ∧ '\n' ∉ l)) := by
  obtain ⟨l, rest, h1, h2, h3, h4, h5⟩ := read_line_loop_spec s [] h0
  refine ⟨l, rest, ?_, h2, h4 hs, h3, h5⟩
  simp only [bookmark_read_line_from_html_file, h1, List.nil_append, if_neg (h4 hs)]

theorem read_lines_spec (n : Nat) : ∀ s : List Char, NUL ∉ s → s.length ≤ n →
    (read_lines n s).flatten = s ∧
    (∀ l ∈ read_lines n s, l ≠ [] ∧ '\n' ∉ l.dropLast) ∧
    (∀ l ∈ (read_lines n s).dropLast, l.getLast? = some '\n') := by
  induction n with
  | zero =>
    intro s _ hn
    have : s = [] := List.length_eq_zero.mp (Nat.le_zero.mp hn)
    subst this
    simp [read_lines]
  | succ n ih =>
    intro s h0 hn
    by_cases hs : s = []
    · subst hs
      simp [read_lines, bookmark_read_line_from_html_file, read_line_loop]
    · obtain ⟨l, rest, h1, h2, h3, h4, h5⟩ := bookmark_read_line_spec s h0 hs
      have hrest0 : NUL ∉ rest := fun e => h0 (by rw [← h2]; simp [e])
      have hlen : rest.length ≤ n := by
        have : l.length + rest.length = s.length := by rw [← h2, List.length_append]
        have : 0 < l.length := List.length_pos.mpr h3
        omega
      obtain ⟨i1, i2, i3⟩ := ih rest hrest0 hlen
      have hrl : read_lines (n + 1) s = l :: read_lines n rest := by
        simp only [read_lines, h1]
      rw [hrl]
      refine ⟨by simp [i1, h2], ?_, ?_⟩
      · intro x hx
        rcases List.mem_cons.mp hx with e | e
        · rw [e]; exact ⟨h3, h4⟩
        · exact i2 x e
      · intro x hx
        cases hrr : read_lines n rest with
        | nil => rw [hrr] at hx; simp at hx
        | cons y ys =>
          rw [hrr, List.dropLast_cons₂] at hx
          rcases List.mem_cons.mp hx with e | e
          · rw [e]
            rcases h5 with h5 | ⟨h5, _⟩
            · exact h5
            · rw [h5] at hrr
              cases n <;> simp [read_lines, bookmark_read_line_from_html_file,
                read_line_loop] at hrr
          · exact i3 x (by rw [hrr]; exact e)

/-- C32: on a stream `s` without `NUL` bytes the lines that the calls of
`bookmark_read_line_from_html_file` return, one call after the other until
`NULL` comes (at most `s.length` calls), concatenated give `s`; each line is
non-empty and has no `\n` before its last byte, and each line but the last
ends in `\n`.  A call returns `NULL` exactly when no byte is left; otherwise
it returns a line and leaves the bytes behind the line in the stream, and when
the bytes left hold no `\n` it returns all of them as the line. -/
theorem bookmark_read_line_splits (s : List Char) (n : Nat) (h0 : NUL ∉ s) (hn : s.length ≤ n) :
    (read_lines n s).flatten = s ∧
    (∀ l ∈ read_lines n s, l ≠ [] ∧ '\n' ∉ l.dropLast) ∧
    (∀ l ∈ (read_lines n s).dropLast, l.getLast? = some '\n') ∧
    ((bookmark_read_line_from_html_file s).1 = none ↔ s = []) ∧
    (s ≠ [] → ∃ l rest, bookmark_read_line_from_html_file s = (some l, rest) ∧ l ++ rest = s) ∧
    (s ≠ [] → '\n' ∉ s → bookmark_read_line_from_html_file s = (some s, [])) := by
  obtain ⟨a, b, c⟩ := read_lines_spec n s h0 hn
  refine ⟨a, b, c, ?_, ?_, ?_⟩
  · constructor
    · intro h
      by_contra hs
      obtain ⟨l, rest, h1, _⟩ := bookmark_read_line_spec s h0 hs
      rw [h1] at h
      simp at h
    · intro h
      subst h
      rfl
  · intro hs
    obtain ⟨l, rest, h1, h2, _⟩ := bookmark_read_line_spec s h0 hs
    exact ⟨l, rest, h1, h2⟩
  · intro hs hnl
    obtain ⟨l, rest, h1, h2, h3, _, h5⟩ := bookmark_read_line_spec s h0 hs
    rcases h5 with h5 | ⟨h5, _⟩
    · exfalso
      apply hnl
      rw [← h2]
      have : '\n' ∈ l := List.mem_of_mem_getLast? h5
      simp [this]
    · rw [h1]
      subst h5
      simp at h2
      rw [h2]

theorem bookmark_read_line_splits_witness :
    read_lines 7 "ab\n\ncd".data = ["ab\n".data, "\n".data, "cd".data] ∧
    (read_lines 7 "ab\n\ncd".data).flatten = "ab\n\ncd".data ∧
    (∀ l ∈ read_lines 7 "ab\n\ncd".data, l ≠ [] ∧ '\n' ∉ l.dropLast) ∧
    (∀ l ∈ (read_lines 7 "ab\n\ncd".data).dropLast, l.getLast? = some '\n') ∧
    ((bookmark_read_line_from_html_file "ab\n\ncd".data).1 = none ↔ "ab\n\ncd".data = []) ∧
    ("ab\n\ncd".data ≠ [] → ∃ l rest,
      bookmark_read_line_from_html_file "ab\n\ncd".data = (some l, rest) ∧
        l ++ rest = "ab\n\ncd".data) ∧
    ("ab\n\ncd".data ≠ [] → '\n' ∉ "ab\n\ncd".data →
      bookmark_read_line_from_html_file "ab\n\ncd".data = (some "ab\n\ncd".data, [])) :=
  ⟨by decide, bookmark_read_line_splits "ab\n\ncd".data 7 (by decide) (by decide)⟩

theorem Heap.deref_upd (h : Heap) (p q : Nat) (f : BookmarkItem → BookmarkItem) :
    (h.upd p f).deref q = if q = p ∧ p < h.length then f (h.deref q) else h.deref q := by
  by_cases hq : q = p
  · subst hq
    by_cases hp : q < h.length
    · rw [Heap.deref_upd_same _ _ _ hp, if_pos ⟨rfl, hp⟩]
    · rw [if_neg (fun e => hp e.2)]
      simp [Heap.upd, Heap.deref, List.getD_eq_getElem?_getD, List.getElem?_set, hp,
        List.getElem?_eq_none (Nat.le_of_not_lt hp)]
  · rw [Heap.deref_upd_other _ _ _ _ hq, if_neg (fun e => hq e.1)]

/-- C33: `netscape_import_bookmarks` looks in a line for an anchor first, then
for a folder header, then for an end-of-folder marker.  A line in which
`<A HREF=` is found never opens a folder: the scope stays, and the one item
that may be made is a link of the folder in scope.  A line without an anchor
in which `<DT><H3` is found, with a `>` behind it, opens a new folder, which
becomes the scope.  A line with neither in which `</DL>` is found moves the
scope to the parent, or leaves it where it is when there is no parent. -/
theorem netscape_import_line_priority (env : ImportEnv) (st : ImportState) (line : List Char) :
    (∀ found, bookmark_string_strcasestr env line "<A HREF=".data = some found →
      ∀ st1, netscape_import_line env st line = some st1 →
        st1.bm_item = st.bm_item ∧
        (st1 = st ∨ (st1.h.length = st.h.length + 1 ∧
          (st1.h.deref st.h.length).isFolder = 0 ∧
          (st1.h.deref st.h.length).parent = some st.bm_item))) ∧
    (bookmark_string_strcasestr env line "<A HREF=".data = none →
      ∀ found k, bookmark_string_strcasestr env line "<DT><H3".data = some found →
        found + 7 ≤ line.length → strchr (line.drop (found + 7)) '>' = some k →
        ∃ st1, netscape_import_line env st line = some st1 ∧ st1.bm_item = st.h.length ∧
          st1.h.length = st.h.length + 1 ∧ (st1.h.deref st.h.length).isFolder = 1 ∧
          (st1.h.deref st.h.length).parent = some st.bm_item) ∧
    (bookmark_string_strcasestr env line "<A HREF=".data = none →
      bookmark_string_strcasestr env line "<DT><H3".data = none →
      ∀ found, bookmark_string_strcasestr env line "</DL>".data = some found →
        netscape_import_line env st line =
          some { st with bm_item := ((st.h.deref st.bm_item).parent).getD st.bm_item }) := by
  refine ⟨?_, ?_, ?_⟩
  · intro found hf st1 h1
    simp only [netscape_import_line, hf] at h1
    split_ifs at h1 with hlen
    split at h1
    · injection h1 with h1
      exact ⟨by rw [← h1], Or.inl h1.symm⟩
    · injection h1 with h1
      subst h1
      refine ⟨rfl, Or.inr ⟨?_, ?_, ?_⟩⟩
      · simp [Heap.length_upd, bookmarks_new_bookmark, create_bookmark_new]
      · simp only [bookmarks_new_bookmark, create_bookmark_new, Heap.deref_upd, Heap.length_upd,
          List.length_append, List.length_singleton, Heap.deref_alloc]
        split_ifs <;> simp_all
      · simp only [bookmarks_new_bookmark, create_bookmark_new, Heap.deref_upd, Heap.length_upd,
          List.length_append, List.length_singleton, Heap.deref_alloc]
        split_ifs <;> simp_all
  · intro hf found k hh hlen hk
    simp only [netscape_import_line, hf, hh, hk, if_neg (Nat.not_lt.mpr hlen)]
    refine ⟨_, rfl, rfl, ?_, ?_, ?_⟩
    · simp [Heap.length_upd, bookmarks_new_bookmark, create_bookmark_new]
    · simp only [bookmarks_new_bookmark, create_bookmark_new, Heap.deref_upd, Heap.length_upd,
        List.length_append, List.length_singleton, Heap.deref_alloc]
      split_ifs <;> simp_all
    · simp only [bookmarks_new_bookmark, create_bookmark_new, Heap.deref_upd, Heap.length_upd,
        List.length_append, List.length_singleton, Heap.deref_alloc]
      split_ifs <;> simp_all
  · intro hf hh found hd
    simp only [netscape_import_line, hf, hh, hd]
    cases (st.h.deref st.bm_item).parent <;> rfl

/-- C33 (counterexample): in the line `<DT><H3><A HREF="u">n</A></H3>` both a
folder header and an anchor are found; `netscape_import_bookmarks` makes the
link `n.bm` in the import folder and opens no folder. -/
theorem netscape_import_line_anchor_before_header :
    bookmark_string_strcasestr (ascii_env 1) "<DT><H3><A HREF=\"u\">n</A></H3>\n".data
      "<DT><H3".data = some 0 ∧
    bookmark_string_strcasestr (ascii_env 1) "<DT><H3><A HREF=\"u\">n</A></H3>\n".data
      "<A HREF=".data = some 8 ∧
    (netscape_import_line (ascii_env 1) (import_start 1)
      "<DT><H3><A HREF=\"u\">n</A></H3>\n".data).map (fun s => (s.bm_item, s.h)) =
      some (0, [{ isFolder := 1, name := some "imp", list := [1], time_added := 1,
                  time_last_visited := 1 },
                { isFolder := 0, name := some "n.bm", url := some "u", parent := some 0,
                  time_added := 1, time_last_visited := 1 }]) ∧
    (netscape_import_bookmarks (ascii_env 1) (some "<DT><H3><A HREF=\"u\">n</A></H3>\n".data)
      (some "imp") []).map (fun r => (r.1, r.2.map (fun it => (it.isFolder, it.name)))) =
      some (some 0, [(1, some "imp"), (0, some "n.bm")]) := by
  refine ⟨rfl, rfl, rfl, rfl⟩

theorem escape_char_cases (c : Char) :
    (c = '>' ∧ escape_char c = "&gt;".data) ∨ (c = '<' ∧ escape_char c = "&lt;".data) ∨
    (c = '&' ∧ escape_char c = "&amp;".data) ∨ (c = '"' ∧ escape_char c = "&quot;".data) ∨
    (c = '\r' ∧ escape_char c = "&#13;".data) ∨
    (c ≠ '>' ∧ c ≠ '<' ∧ c ≠ '&' ∧ c ≠ '"' ∧ c ≠ '\r' ∧ escape_char c = [c]) := by
  unfold escape_char
  by_cases h1 : c = '>'
  · left; simp [h1]
  by_cases h2 : c = '<'
  · right; left; simp [h2]
  by_cases h3 : c = '&'
  · right; right; left; simp [h3]
  by_cases h4 : c = '"'
  · right; right; right; left; simp [h4]
  by_cases h5 : c = '\r'
  · right; right; right; right; left; simp [h5]
  · right; right; right; right; right; simp [h1, h2, h3, h4, h5]

theorem escape_all (P : Char → Prop) (hent : ∀ c ∈ "&gt;lamp#13quo".data, P c) :
    ∀ t : List Char,
      (∀ c ∈ t, c ≠ '>' → c ≠ '<' → c ≠ '&' → c ≠ '"' → c ≠ '\r' → P c) →
      ∀ c ∈ escape_bookmark_str t, P c := by
  intro t
  induction t with
  | nil => intro _ c hc; simp [escape_bookmark_str] at hc
  | cons d t ih =>
    intro ht c hc
    simp only [escape_bookmark_str, List.mem_append] at hc
    rcases hc with hc | hc
    · rcases escape_char_cases d with h | h | h | h | h | h
      · rw [h.2] at hc
        exact hent c (by revert hc; simp only [String.data, List.mem_cons]; tauto)
      · rw [h.2] at hc
        exact hent c (by revert hc; simp only [String.data, List.mem_cons]; tauto)
      · rw [h.2] at hc
        exact hent c (by revert hc; simp only [String.data, List.mem_cons]; tauto)
      · rw [h.2] at hc
        exact hent c (by revert hc; simp only [String.data, List.mem_cons]; tauto)
      · rw [h.2] at hc
        exact hent c (by revert hc; simp only [String.data, List.mem_cons]; tauto)
      · rw [h.2.2.2.2.2, List.mem_singleton] at hc
        rw [hc]
        exact ht d (by simp) h.1 h.2.1 h.2.2.1 h.2.2.2.1 h.2.2.2.2.1
    · exact ih (fun x hx => ht x (by simp [hx])) c hc

theorem escape_unescape : ∀ t : List Char, '\r' ∉ t →
    amp_ok (escape_bookmark_str t) = true ∧ unescape_spec (escape_bookmark_str t) 0 = t := by
  intro t
  induction t with
  | nil => intro _; exact ⟨rfl, rfl⟩
  | cons c t ih =>
    intro ht
    have hc : c ≠ '\r' := fun e => ht (by simp [e])
    obtain ⟨i1, i2⟩ := ih (fun e => ht (by simp [e]))
    simp only [escape_bookmark_str]
    rcases escape_char_cases c with h | h | h | h | h | h
    · have e : "&gt;".data ++ escape_bookmark_str t =
          '&' :: 'g' :: 't' :: ';' :: escape_bookmark_str t := rfl
      rw [h.2, e, h.1]
      refine ⟨?_, ?_⟩
      · simp [amp_ok, entity_at, five_entities, List.find?, List.isPrefixOf, i1]
      · simp [unescape_spec, entity_at, five_entities, List.find?, List.isPrefixOf, i2]
    · have e : "&lt;".data ++ escape_bookmark_str t =
          '&' :: 'l' :: 't' :: ';' :: escape_bookmark_str t := rfl
      rw [h.2, e, h.1]
      refine ⟨?_, ?_⟩
      · simp [amp_ok, entity_at, five_entities, List.find?, List.isPrefixOf, i1]
      · simp [unescape_spec, entity_at, five_entities, List.find?, List.isPrefixOf, i2]
    · have e : "&amp;".data ++ escape_bookmark_str t =
          '&' :: 'a' :: 'm' :: 'p' :: ';' :: escape_bookmark_str t := rfl
      rw [h.2, e, h.1]
      refine ⟨?_, ?_⟩
      · simp [amp_ok, entity_at, five_entities, List.find?, List.isPrefixOf, i1]
      · simp [unescape_spec, entity_at, five_entities, List.find?, List.isPrefixOf, i2]
    · have e : "&quot;".data ++ escape_bookmark_str t =
          '&' :: 'q' :: 'u' :: 'o' :: 't' :: ';' :: escape_bookmark_str t := rfl
      rw [h.2, e, h.1]
      refine ⟨?_, ?_⟩
      · simp [amp_ok, entity_at, five_entities, List.find?, List.isPrefixOf, i1]
      · simp [unescape_spec, entity_at, five_entities, List.find?, List.isPrefixOf, i2]
    · exact absurd h.1 hc
    · rw [h.2.2.2.2.2, List.singleton_append]
      refine ⟨?_, ?_⟩
      · simp [amp_ok, h.2.2.1, i1]
      · simp [unescape_spec, entity_at_plain c _ h.2.2.1, i2]

theorem atoi_13 (r : List Char) : atoi ('1' :: '3' :: ';' :: r) = 13 := by
  simp [atoi, strtol, List.dropWhile, isspace, isdigit, digitsVal, clampLong, toInt32]

theorem fmt_13 : fmt_d_len 13 = 2 ∧ fmt_c 13 = ['\r'] := by decide

theorem step_13 (f : Nat) (r acc : List Char) :
    ns_parse_loop (f + 1) ("&#13;".data ++ r) acc = ns_parse_loop f (';' :: r) (acc ++ ['\r']) := by
  have h : "&#13;".data ++ r = '&' :: '#' :: '1' :: '3' :: ';' :: r := rfl
  rw [h]
  simp [ns_parse_loop, peek, g_strncasecmp_eq, tolower, atoi_13, fmt_13, NUL]

/-- C34 (code bug): `escape_bookmark_str` writes a carriage return as
`&#13;`, and `ns_parse_bookmark_item` reads `&#13;` as a carriage return
followed by `;`, whatever lies in memory behind the terminator: the string
that comes back is not the one that was escaped.  A string without `NUL` and
without carriage return does come back as it was. -/
theorem ns_parse_of_escape_keeps_semicolon (tail : List Char) :
    NUL ∉ "\r".data ∧
    escape_bookmark_str "\r".data = "&#13;".data ∧
    ns_parse_bookmark_item (escape_bookmark_str "\r".data ++ NUL :: tail) = "\r;".data ∧
    ns_parse_bookmark_item (escape_bookmark_str "\r".data ++ NUL :: tail) ≠ "\r".data ∧
    ∀ s : List Char, NUL ∉ s → '\r' ∉ s →
      ns_parse_bookmark_item (escape_bookmark_str s ++ NUL :: tail) = s := by
  have he : escape_bookmark_str "\r".data = "&#13;".data := by decide
  have h : ns_parse_bookmark_item (escape_bookmark_str "\r".data ++ NUL :: tail) = "\r;".data := by
    rw [he]
    unfold ns_parse_bookmark_item
    rw [strlen_c_mem _ tail (by decide)]
    have e : "&#13;".data.length + 1 = 3 + 2 + 1 := rfl
    rw [e, step_13, step_plain _ _ _ _ (by decide)]
    have h1 : ∀ f, ns_parse_loop (f + 1) (NUL :: tail) ([] ++ ['\r'] ++ [';'])
        = ns_parse_loop f tail (['\r', ';'] ++ [NUL]) := fun f => rfl
    rw [h1, ns_parse_loop_acc, List.append_assoc, List.singleton_append,
      c_str_append_NUL _ _ (by decide)]
  refine ⟨by decide, he, h, by rw [h]; decide, ?_⟩
  intro s h0 hr
  have hE0 : NUL ∉ escape_bookmark_str s := fun hm =>
    escape_all (fun c => c ≠ NUL) (by decide) s (fun c hc _ _ _ _ _ e => h0 (e ▸ hc)) _ hm rfl
  rw [ns_parse_bookmark_item_spec _ tail hE0 (escape_unescape s hr).1, (escape_unescape s hr).2]

/-- C36 (code bug): the folder `F` of `heap_operator_link_full` holds the
operator link `op.bm`.  `add_bookmark_item` writes the link through
`create_new_xmlnode`, which puts `operator_bookmark` and `deleted` under
`info` and not under `metadata`, where `assign_node_metadata` reads them (and
where `add_bookmark_item` itself writes them for the item it is given): the
tree that `print_root_names` builds from the element has the folder as it was
and the link with `isOperatorBookmark` zero. -/
theorem add_then_parse_loses_operator_flag :
    (heap_operator_link_full.deref 2).isOperatorBookmark = 1 ∧
    ((add_bookmark_item heap_operator_link_full 1).bind
      (fun e => nodeAt e [4, 2, 1])).map xmlNode.name = some "operator_bookmark" ∧
    ((add_bookmark_item heap_operator_link_full 1).bind
      (fun e => nodeAt e [4, 2, 0])).map xmlNode.name = some "metadata" ∧
    ((add_bookmark_item heap_operator_link_full 1).bind
      (fun e => print_root_names (xml_element "xbel" [] [xml_title "r", e]) [])).map
      (fun r => (r.2.deref 1, r.2.deref 2)) =
      some (heap_operator_link_full.deref 1,
        { heap_operator_link_full.deref 2 with isOperatorBookmark := 0 }) := by
  refine ⟨rfl, rfl, rfl, rfl⟩

/-- C37 (code bug): for the link `x.bm` without a parent the resolver returns
the `title` of the root element of `doc_link_a`, and for the link `F.bm` of
`heap_link_F` it returns the folder `F.bm` of `doc_folder_bm_link_a`; in both
cases `bookmark_set_url` goes on to the next sibling called `bookmark`, the
element of the link `a`, sets its `href` to `w` and returns `TRUE`. -/
theorem bookmark_set_url_edits_next_bookmark :
    resolve [some "x.bm"] (some doc_link_a) = (some [0], 1) ∧
    (nodeAt doc_link_a [0]).map (fun n => n.name) = some "title" ∧
    doc_link_a.children.map (fun c => (title_of c, xmlGetProp c "href")) =
      [(none, none), (some "a", some "u")] ∧
    (bookmark_set_url heap_lone_link (some 0) (some "w") (some doc_link_a) 0).map
      (fun r => (r.1, r.2.1.map
        (fun d => d.children.map (fun c => (title_of c, xmlGetProp c "href"))))) =
      some (true, some [(none, none), (some "a", some "w")]) ∧
    resolve [some "r", some "F.bm"] (some doc_folder_bm_link_a) = (some [1], 2) ∧
    (nodeAt doc_folder_bm_link_a [1]).map (fun n => n.name) = some "folder" ∧
    doc_folder_bm_link_a.children.map (fun c => (title_of c, xmlGetProp c "href")) =
      [(none, none), (some "F.bm", none), (some "a", some "u")] ∧
    (bookmark_set_url heap_link_F (some 1) (some "w") (some doc_folder_bm_link_a) 0).map
      (fun r => (r.1, r.2.1.map
        (fun d => d.children.map (fun c => (title_of c, xmlGetProp c "href"))))) =
      some (true, some [(none, none), (some "F.bm", none), (some "a", some "w")]) := by
  refine ⟨by decide, by decide, by decide, by decide, by decide, by decide, by decide, by decide⟩

/-! ## The round trip through the Netscape format (C22) -/

theorem g_strrstr_cons (c : Char) (s needle : List Char) :
    g_strrstr (c :: s) needle =
      match g_strrstr s needle with
      | some k => some (k + 1)
      | none => if needle.isPrefixOf (c :: s) then some 0 else none := rfl

theorem g_strrstr_skip (p : Char) (ps : List Char) : ∀ (m s : List Char), p ∉ m →
    g_strrstr (m ++ s) (p :: ps) = (g_strrstr s (p :: ps)).map (fun k => m.length + k) := by
  intro m
  induction m with
  | nil => intro s _; simp
  | cons c m ih =>
    intro s hm
    have hc : p ≠ c := fun e => hm (by simp [e])
    have hm1 : p ∉ m := fun e => hm (by simp [e])
    rw [List.cons_append, g_strrstr_cons, ih s hm1]
    cases g_strrstr s (p :: ps) with
    | some k => simp; omega
    | none => simp [List.isPrefixOf, hc]

theorem g_strrstr_later (needle : List Char) : ∀ (m s : List Char) (k : Nat),
    g_strrstr s needle = some k → g_strrstr (m ++ s) needle = some (m.length + k) := by
  intro m
  induction m with
  | nil => intro s k h; simpa using h
  | cons c m ih =>
    intro s k h
    rw [List.cons_append, g_strrstr_cons, ih s k h]
    simp; omega

theorem strchr_first (c : Char) : ∀ (m s : List Char), c ∉ m →
    strchr (m ++ c :: s) c = some m.length := by
  intro m
  induction m with
  | nil => intro s _; simp [strchr]
  | cons d m ih =>
    intro s hm
    have hd : d ≠ c := fun e => hm (by simp [e])
    have hm1 : c ∉ m := fun e => hm (by simp [e])
    simp [strchr, hd, ih s hm1]

theorem strstr_quote_gt : ∀ (m s : List Char), '>' ∉ m →
    strstr (m ++ '"' :: '>' :: s) "\">".data = some m.length := by
  intro m
  induction m with
  | nil => intro s _; simp [strstr, List.isPrefixOf]
  | cons d m ih =>
    intro s hm
    have hm1 : '>' ∉ m := fun e => hm (by simp [e])
    have hnp : List.isPrefixOf "\">".data (d :: (m ++ '"' :: '>' :: s)) = false := by
      cases m with
      | nil => simp [List.isPrefixOf]
      | cons e m2 =>
        have he : e ≠ '>' := fun x => hm (by simp [x])
        simp [List.isPrefixOf, Ne.symm he]
    rw [List.cons_append, strstr, hnp, ih s hm1]
    simp

theorem tolower_eq_lt (c : Char) : tolower c = '<' ↔ c = '<' := by
  unfold tolower
  split_ifs with h
  · constructor
    · intro e
      exfalso
      have hc : c = Char.ofNat c.toNat := (Char.ofNat_toNat c).symm
      generalize c.toNat = n at h hc e
      obtain ⟨h1, h2⟩ := h
      interval_cases n <;> revert e <;> decide
    · intro e
      subst e
      exact absurd h (by decide)
  · rfl

theorem map_tolower_no_lt (s : List Char) (h : '<' ∉ s) : '<' ∉ s.map tolower := by
  intro hm
  obtain ⟨c, hc, e⟩ := List.mem_map.mp hm
  rw [(tolower_eq_lt c).mp e] at hc
  exact h hc

theorem toDigitsCore_digits (fuel : Nat) : ∀ (n : Nat) (ds : List Char),
    (∀ c ∈ ds, isdigit c = true) → ∀ c ∈ Nat.toDigitsCore 10 fuel n ds, isdigit c = true := by
  induction fuel with
  | zero => intro n ds h c hc; exact h c hc
  | succ f ih =>
    intro n ds h c hc
    have hd : isdigit (Nat.digitChar (n % 10)) = true := by
      have : n % 10 < 10 := Nat.mod_lt _ (by decide)
      generalize n % 10 = k at this
      interval_cases k <;> decide
    have hds : ∀ c ∈ Nat.digitChar (n % 10) :: ds, isdigit c = true := by
      intro x hx
      rcases List.mem_cons.mp hx with e | e
      · rw [e]; exact hd
      · exact h x e
    simp only [Nat.toDigitsCore] at hc
    split_ifs at hc
    · exact hds c hc
    · exact ih _ _ hds c hc

theorem fmt_d_digits (v : Int) (hv : 0 < v) : ∀ c ∈ (fmt_d v).data, isdigit c = true := by
  intro c hc
  simp only [fmt_d, if_neg (Int.not_lt.mpr (Int.le_of_lt hv))] at hc
  exact toDigitsCore_digits _ _ [] (by simp) c hc

/-- The two date attributes of an anchor line as the exporter writes them. -/
theorem attrs_shape (ta tv : Int) :
    ∀ D, D = (if ta > 0 then " ADD_DATE=\"".data ++ (fmt_d ta).data ++ "\"".data else []) ++
        (if tv > 0 then " LAST_VISIT=\"".data ++ (fmt_d tv).data ++ "\"".data else []) →
      (D = [] ∨ ∃ D1, D = D1 ++ ['"'] ∧ '>' ∉ D1) ∧
      ∀ c ∈ D, c ≠ '<' ∧ c ≠ NUL ∧ c ≠ '\n' ∧ c.toNat < 128 := by
  intro D hD
  have hdig : ∀ v : Int, 0 < v → ∀ c ∈ (fmt_d v).data,
      c ≠ '>' ∧ c ≠ '<' ∧ c ≠ NUL ∧ c ≠ '\n' ∧ c.toNat < 128 := by
    intro v hv c hc
    have := fmt_d_digits v hv c hc
    simp only [isdigit, Bool.and_eq_true, decide_eq_true_eq] at this
    refine ⟨?_, ?_, ?_, ?_, by omega⟩ <;> (intro e; rw [e] at this; revert this; decide)
  have hA : ∀ c ∈ " ADD_DATE=\"".data, c ≠ '<' ∧ c ≠ NUL ∧ c ≠ '\n' ∧ c.toNat < 128 := by decide
  have hL : ∀ c ∈ " LAST_VISIT=\"".data, c ≠ '<' ∧ c ≠ NUL ∧ c ≠ '\n' ∧ c.toNat < 128 := by
    decide
  have hQ : ∀ c ∈ "\"".data, c ≠ '<' ∧ c ≠ NUL ∧ c ≠ '\n' ∧ c.toNat < 128 := by decide
  have hA2 : '>' ∉ " ADD_DATE=\"".data := by decide
  have hL2 : '>' ∉ " LAST_VISIT=\"".data := by decide
  have hQ2 : '>' ∉ "\"".data := by decide
  by_cases h1 : ta > 0 <;> by_cases h2 : tv > 0
  · rw [if_pos h1, if_pos h2] at hD
    refine ⟨Or.inr ⟨" ADD_DATE=\"".data ++ (fmt_d ta).data ++ "\"".data ++
      (" LAST_VISIT=\"".data ++ (fmt_d tv).data), by rw [hD]; simp, ?_⟩, ?_⟩
    · intro hm
      simp only [List.mem_append] at hm
      rcases hm with ((hm | hm) | hm) | hm | hm
      · exact hA2 hm
      · exact (hdig ta h1 _ hm).1 rfl
      · exact hQ2 hm
      · exact hL2 hm
      · exact (hdig tv h2 _ hm).1 rfl
    · intro c hc
      rw [hD] at hc
      simp only [List.mem_append] at hc
      rcases hc with ((hm | hm) | hm) | (hm | hm) | hm
      · exact hA _ hm
      · exact (hdig ta h1 _ hm).2
      · exact hQ _ hm
      · exact hL _ hm
      · exact (hdig tv h2 _ hm).2
      · exact hQ _ hm
  · rw [if_pos h1, if_neg h2] at hD
    refine ⟨Or.inr ⟨" ADD_DATE=\"".data ++ (fmt_d ta).data, by rw [hD]; simp, ?_⟩, ?_⟩
    · intro hm
      simp only [List.mem_append] at hm
      rcases hm with hm | hm
      · exact hA2 hm
      · exact (hdig ta h1 _ hm).1 rfl
    · intro c hc
      rw [hD] at hc
      simp only [List.mem_append, List.append_nil] at hc
      rcases hc with (hm | hm) | hm
      · exact hA _ hm
      · exact (hdig ta h1 _ hm).2
      · exact hQ _ hm
  · rw [if_neg h1, if_pos h2] at hD
    refine ⟨Or.inr ⟨" LAST_VISIT=\"".data ++ (fmt_d tv).data, by rw [hD]; simp, ?_⟩, ?_⟩
    · intro hm
      simp only [List.mem_append] at hm
      rcases hm with hm | hm
      · exact hL2 hm
      · exact (hdig tv h2 _ hm).1 rfl
    · intro c hc
      rw [hD] at hc
      simp only [List.mem_append, List.nil_append] at hc
      rcases hc with (hm | hm) | hm
      · exact hL _ hm
      · exact (hdig tv h2 _ hm).2
      · exact hQ _ hm
  · rw [if_neg h1, if_neg h2, List.append_nil] at hD
    subst hD
    exact ⟨Or.inl rfl, fun c hc => absurd hc (List.not_mem_nil c)⟩

theorem strstr_after_url (D rest : List Char) (hD : D = [] ∨ ∃ D1, D = D1 ++ ['"'] ∧ '>' ∉ D1) :
    strstr ('"' :: (D ++ '>' :: rest)) "\">".data = some D.length := by
  rcases hD with hD | ⟨D1, hD, hgt⟩
  · subst hD
    exact strstr_quote_gt [] rest (by simp)
  · subst hD
    have e : '"' :: (D1 ++ ['"'] ++ '>' :: rest) = ('"' :: D1) ++ '"' :: '>' :: rest := by simp
    rw [e, strstr_quote_gt ('"' :: D1) rest (by simp [hgt])]
    simp

theorem g_strrstr_here (p : Char) (ps rest : List Char)
    (h : g_strrstr (ps ++ rest) (p :: ps) = none) :
    g_strrstr (p :: ps ++ rest) (p :: ps) = some 0 := by
  rw [List.cons_append, g_strrstr_cons, h]
  have : List.isPrefixOf (p :: ps) (p :: (ps ++ rest)) = true := by
    rw [List.isPrefixOf_iff_prefix]
    exact ⟨rest, rfl⟩
  simp [this]

theorem all_ascii_append (a b : List Char) :
    (a ++ b).all (fun c => decide (c.toNat < 128)) =
      (a.all (fun c => decide (c.toNat < 128)) && b.all (fun c => decide (c.toNat < 128))) :=
  List.all_append

theorem import_name_spec (env : ImportEnv)
    (hdown : ∀ s : List Char, s.all (fun c => decide (c.toNat < 128)) = true →
      env.g_utf8_strdown s = s.map tolower)
    (hvalid : ∀ s : List Char, s.all (fun c => decide (c.toNat < 128)) = true →
      env.g_utf8_validate s = true)
    (buf line : List Char) (start : Nat) (close : List Char) (ps t : List Char)
    (hclose : close.map tolower = '<' :: ps) (hps : '<' ∉ ps)
    (hca : close.all (fun c => decide (c.toNat < 128)) = true)
    (ht : ∀ c ∈ t, title_char c = true)
    (hline : line.drop start = escape_bookmark_str t ++ (close ++ ['\n'])) :
    (import_name env buf line start close).2 = t := by
  have ht0 : NUL ∉ t := fun hm => by
    have := ht _ hm
    simp [title_char] at this
  have htr : '\r' ∉ t := fun hm => by
    have := ht _ hm
    simp [title_char] at this
  have hta : t.all (fun c => decide (c.toNat < 128)) = true := by
    rw [List.all_eq_true]
    intro c hc
    have := ht c hc
    simp only [title_char, Bool.and_eq_true] at this
    exact this.1.1.1
  have hE0 : NUL ∉ escape_bookmark_str t := fun hm =>
    escape_all (fun c => c ≠ NUL) (by decide) t (fun c hc _ _ _ _ _ e => ht0 (e ▸ hc)) _ hm rfl
  have hElt : '<' ∉ escape_bookmark_str t := fun hm =>
    escape_all (fun c => c ≠ '<') (by decide) t (fun c _ _ h _ _ _ => h) _ hm rfl
  have hEa : (escape_bookmark_str t).all (fun c => decide (c.toNat < 128)) = true := by
    rw [List.all_eq_true]
    intro c hc
    have := escape_all (fun c => c.toNat < 128) (by decide) t
      (fun c hc _ _ _ _ _ => by
        have := ht c hc
        simp only [title_char, Bool.and_eq_true, decide_eq_true_eq] at this
        exact this.1.1.1) c hc
    simpa using this
  obtain ⟨hamp, hun⟩ := escape_unescape t htr
  have hsa : (escape_bookmark_str t ++ (close ++ ['\n'])).all
      (fun c => decide (c.toNat < 128)) = true := by
    rw [all_ascii_append, all_ascii_append, hEa, hca]
    decide
  have hfind : bookmark_string_strcasestr env (escape_bookmark_str t ++ (close ++ ['\n'])) close =
      some (escape_bookmark_str t).length := by
    unfold bookmark_string_strcasestr
    rw [hdown _ hsa, hdown _ hca, hclose, List.map_append, List.map_append, hclose,
      g_strrstr_skip '<' ps _ _ (map_tolower_no_lt _ hElt)]
    have h1 : g_strrstr (ps ++ List.map tolower ['\n']) ('<' :: ps) = none := by
      have h2 := g_strrstr_skip '<' ps (ps ++ List.map tolower ['\n']) []
        (by simp only [List.mem_append, not_or]; exact ⟨hps, by decide⟩)
      rw [List.append_nil] at h2
      rw [h2]
      rfl
    rw [g_strrstr_here '<' ps _ h1]
    simp
  unfold import_name
  simp only [hline, hfind, g_string_truncate, g_string_assign]
  have e1 : List.take (escape_bookmark_str t).length
      (escape_bookmark_str t ++ (close ++ ['\n']) ++
        NUL :: List.drop ((escape_bookmark_str t ++ (close ++ ['\n'])).length + 1) buf) =
      escape_bookmark_str t := by
    rw [List.append_assoc, List.take_left']
    rfl
  rw [e1, ns_parse_bookmark_item_spec _ _ hE0 hamp, hun]
  unfold convert_iso_string_to_utf8
  rw [hvalid t hta]
  rfl

theorem bookmarks_new_bookmark_fst (tick : Int) (h : Heap) (isFolder : Int)
    (name url : Option String) (op : Int) :
    (bookmarks_new_bookmark tick h isFolder name url op).1 = h.length := rfl

theorem import_anchor_line (env : ImportEnv)
    (hdown : ∀ s : List Char, s.all (fun c => decide (c.toNat < 128)) = true →
      env.g_utf8_strdown s = s.map tolower)
    (hvalid : ∀ s : List Char, s.all (fun c => decide (c.toNat < 128)) = true →
      env.g_utf8_validate s = true)
    (st : ImportState) (U D t : List Char)
    (hU : ∀ c ∈ U, url_char c = true)
    (hD1 : D = [] ∨ ∃ D1, D = D1 ++ ['"'] ∧ '>' ∉ D1)
    (hD2 : ∀ c ∈ D, c ≠ '<' ∧ c ≠ NUL ∧ c ≠ '\n' ∧ c.toNat < 128)
    (ht : ∀ c ∈ t, title_char c = true) :
    ∃ buf, netscape_import_line env st ("\t<DT><A HREF=\"".data ++
        (U ++ ('"' :: (D ++ ('>' :: (escape_bookmark_str t ++ ("</A>".data ++ ['\n']))))))) =
      some { h := ((bookmarks_new_bookmark (env.time st.h.length) st.h 1 (some (String.mk t))
                (some (String.mk U)) 0).2.upd st.h.length
                (fun it => { it with parent := some st.bm_item, isFolder := 0 })).upd st.bm_item
                (fun it => { it with list := it.list ++ [st.h.length] }),
             bm_item := st.bm_item, name := buf } := by
  have hUq : '"' ∉ U := fun hm => by
    have := hU _ hm
    simp [url_char] at this
  have hUlt : '<' ∉ U := fun hm => by
    have := hU _ hm
    simp [url_char] at this
  have hUa : U.all (fun c => decide (c.toNat < 128)) = true := by
    rw [List.all_eq_true]
    intro c hc
    have := hU c hc
    simp only [url_char, Bool.and_eq_true] at this
    exact this.1.1.1.1
  have hDlt : '<' ∉ D := fun hm => (hD2 _ hm).1 rfl
  have hDa : D.all (fun c => decide (c.toNat < 128)) = true := by
    rw [List.all_eq_true]
    intro c hc
    simpa using (hD2 c hc).2.2.2
  have hElt : '<' ∉ escape_bookmark_str t := fun hm =>
    escape_all (fun c => c ≠ '<') (by decide) t (fun c _ _ h _ _ _ => h) _ hm rfl
  have hEa : (escape_bookmark_str t).all (fun c => decide (c.toNat < 128)) = true := by
    rw [List.all_eq_true]
    intro c hc
    have := escape_all (fun c => c.toNat < 128) (by decide) t
      (fun c hc _ _ _ _ _ => by
        have := ht c hc
        simp only [title_char, Bool.and_eq_true, decide_eq_true_eq] at this
        exact this.1.1.1) c hc
    simpa using this
  generalize hline : "\t<DT><A HREF=\"".data ++
        (U ++ ('"' :: (D ++ ('>' :: (escape_bookmark_str t ++ ("</A>".data ++ ['\n'])))))) = line
  have hla : line.all (fun c => decide (c.toNat < 128)) = true := by
    rw [← hline]
    simp only [List.all_append, List.all_cons, hUa, hDa, hEa]
    decide
  have hfound : bookmark_string_strcasestr env line "<A HREF=".data = some 5 := by
    unfold bookmark_string_strcasestr
    rw [hdown _ hla, hdown _ (by decide), ← hline]
    have e1 : List.map tolower ("\t<DT><A HREF=\"".data ++
        (U ++ ('"' :: (D ++ ('>' :: (escape_bookmark_str t ++ ("</A>".data ++ ['\n']))))))) =
        "\t<dt>".data ++ (('<' :: "a href=".data) ++
          ('"' :: (U.map tolower ++ ('"' :: (D.map tolower ++
            ('>' :: (escape_bookmark_str t).map tolower)))) ++ "</a>\n".data)) := by
      simp only [List.map_append, List.map_cons]
      simp [tolower]
    have e2 : List.map tolower "<A HREF=".data = '<' :: "a href=".data := by decide
    rw [e1, e2]
    have hno : '<' ∉ "a href=".data ++ ('"' :: (U.map tolower ++ ('"' :: (D.map tolower ++
            ('>' :: (escape_bookmark_str t).map tolower))))) := by
      simp only [List.mem_append, List.mem_cons, not_or]
      refine ⟨by decide, by decide, map_tolower_no_lt _ hUlt, by decide,
        map_tolower_no_lt _ hDlt, by decide, map_tolower_no_lt _ hElt⟩
    have h1 : g_strrstr ("a href=".data ++
        ('"' :: (U.map tolower ++ ('"' :: (D.map tolower ++
            ('>' :: (escape_bookmark_str t).map tolower)))) ++ "</a>\n".data))
        ('<' :: "a href=".data) = none := by
      rw [← List.append_assoc, g_strrstr_skip '<' _ _ _ hno]
      rfl
    rw [g_strrstr_later _ _ _ 0 (g_strrstr_here '<' _ _ h1)]
    rfl
  have hlen : ¬ line.length < 5 + 9 := by
    rw [← hline]
    simp only [List.length_append, List.length_cons, String.length_data]
    have : "\t<DT><A HREF=\"".length = 14 := by decide
    omega
  have hd1 : line.drop (5 + 9) =
      U ++ ('"' :: (D ++ ('>' :: (escape_bookmark_str t ++ ("</A>".data ++ ['\n']))))) := by
    rw [← hline]
    exact List.drop_left' rfl
  have hchr : strchr (line.drop (5 + 9)) '"' = some U.length := by
    rw [hd1]
    exact strchr_first '"' U _ hUq
  have hurl : (line.drop (5 + 9)).take U.length = U := by
    rw [hd1]
    exact List.take_left' rfl
  have hd2 : line.drop (5 + 9 + U.length) =
      '"' :: (D ++ ('>' :: (escape_bookmark_str t ++ ("</A>".data ++ ['\n'])))) := by
    rw [← List.drop_drop, hd1]
    exact List.drop_left' rfl
  have hstr : strstr (line.drop (5 + 9 + U.length)) "\">".data = some D.length := by
    rw [hd2]
    exact strstr_after_url D _ hD1
  have hd3 : line.drop (5 + 9 + U.length + D.length + 2) =
      escape_bookmark_str t ++ ("</A>".data ++ ['\n']) := by
    rw [show 5 + 9 + U.length + D.length + 2 = (5 + 9 + U.length) + (D.length + 2) by omega,
      ← List.drop_drop, hd2]
    have e : '"' :: (D ++ ('>' :: (escape_bookmark_str t ++ ("</A>".data ++ ['\n'])))) =
        ('"' :: (D ++ ['>'])) ++ (escape_bookmark_str t ++ ("</A>".data ++ ['\n'])) := by simp
    rw [e]
    exact List.drop_left' (by simp)
  have hname := import_name_spec env hdown hvalid st.name line (5 + 9 + U.length + D.length + 2)
    "</A>".data "/a>".data t (by decide) (by decide) (by decide) ht hd3
  have hname1 : (import_name env st.name line (5 + 9 + U.length + D.length + 2)
      ['<', '/', 'A', '>']).2 = t := hname
  simp only [netscape_import_line, hfound, if_neg hlen, hchr, Option.getD_some, hurl, hstr,
    hname1, bookmarks_new_bookmark_fst]
  exact ⟨_, rfl⟩

theorem g_strrstr_none_cons (c : Char) (s pat : List Char) (h : g_strrstr s pat = none)
    (hp : List.isPrefixOf pat (c :: s) = false) : g_strrstr (c :: s) pat = none := by
  rw [g_strrstr_cons, h, hp]
  rfl

theorem isPrefixOf_second (p q r : Char) (ps s : List Char) (h : q ≠ r) :
    List.isPrefixOf (p :: q :: ps) (p :: r :: s) = false := by
  simp [List.isPrefixOf, h]

theorem import_header_line (env : ImportEnv)
    (hdown : ∀ s : List Char, s.all (fun c => decide (c.toNat < 128)) = true →
      env.g_utf8_strdown s = s.map tolower)
    (hvalid : ∀ s : List Char, s.all (fun c => decide (c.toNat < 128)) = true →
      env.g_utf8_validate s = true)
    (st : ImportState) (t : List Char) (ht : ∀ c ∈ t, title_char c = true) :
    ∃ buf, netscape_import_line env st ("<DT><H3 ADD_DATE=\"0\">".data ++
        (escape_bookmark_str t ++ ("</H3>".data ++ ['\n']))) =
      some { h := ((bookmarks_new_bookmark (env.time st.h.length) st.h 0 (some (String.mk t))
                none 0).2.upd st.bm_item
                (fun it => { it with list := it.list ++ [st.h.length] })).upd st.h.length
                (fun it => { it with isFolder := 1, parent := some st.bm_item }),
             bm_item := st.h.length, name := buf } := by
  have hElt : '<' ∉ escape_bookmark_str t := fun hm =>
    escape_all (fun c => c ≠ '<') (by decide) t (fun c _ _ h _ _ _ => h) _ hm rfl
  have hEa : (escape_bookmark_str t).all (fun c => decide (c.toNat < 128)) = true := by
    rw [List.all_eq_true]
    intro c hc
    have := escape_all (fun c => c.toNat < 128) (by decide) t
      (fun c hc _ _ _ _ _ => by
        have := ht c hc
        simp only [title_char, Bool.and_eq_true, decide_eq_true_eq] at this
        exact this.1.1.1) c hc
    simpa using this
  generalize hline : "<DT><H3 ADD_DATE=\"0\">".data ++
        (escape_bookmark_str t ++ ("</H3>".data ++ ['\n'])) = line
  have hla : line.all (fun c => decide (c.toNat < 128)) = true := by
    rw [← hline]
    simp only [List.all_append, List.all_cons, hEa]
    decide
  have e1 : List.map tolower line =
      '<' :: ("dt>".data ++ ('<' :: (("h3 add_date=\"0\">".data ++
        (escape_bookmark_str t).map tolower) ++ "</h3>\n".data))) := by
    rw [← hline]
    simp only [List.map_append, List.map_cons]
    simp [tolower]
  have hno : '<' ∉ "h3 add_date=\"0\">".data ++ (escape_bookmark_str t).map tolower := by
    simp only [List.mem_append, not_or]
    exact ⟨by decide, map_tolower_no_lt _ hElt⟩
  have hX2 : ∀ (q : Char) (qs : List Char), g_strrstr "</h3>\n".data ('<' :: q :: qs) = none →
      q ≠ 'h' →
      g_strrstr ('<' :: (("h3 add_date=\"0\">".data ++
        (escape_bookmark_str t).map tolower) ++ "</h3>\n".data)) ('<' :: q :: qs) = none := by
    intro q qs h1 h2
    apply g_strrstr_none_cons
    · rw [g_strrstr_skip '<' _ _ _ hno, h1]
      rfl
    · exact isPrefixOf_second '<' q 'h' qs _ h2
  have hfound1 : bookmark_string_strcasestr env line "<A HREF=".data = none := by
    unfold bookmark_string_strcasestr
    rw [hdown _ hla, hdown _ (by decide), e1]
    have e2 : List.map tolower "<A HREF=".data = '<' :: 'a' :: " href=".data := by decide
    rw [e2]
    apply g_strrstr_none_cons
    · rw [g_strrstr_skip '<' _ _ _ (by decide)]
      rw [hX2 _ _ (by decide) (by decide)]
      rfl
    · exact isPrefixOf_second '<' 'a' 'd' _ _ (by decide)
  have hfound2 : bookmark_string_strcasestr env line "<DT><H3".data = some 0 := by
    unfold bookmark_string_strcasestr
    rw [hdown _ hla, hdown _ (by decide), e1]
    have e2 : List.map tolower "<DT><H3".data = '<' :: 'd' :: "t><h3".data := by decide
    rw [e2, g_strrstr_cons]
    rw [g_strrstr_skip '<' _ _ _ (by decide), hX2 _ _ (by decide) (by decide)]
    have : List.isPrefixOf ('<' :: 'd' :: "t><h3".data) ('<' :: ("dt>".data ++ ('<' ::
        (("h3 add_date=\"0\">".data ++ (escape_bookmark_str t).map tolower) ++
          "</h3>\n".data)))) = true := by
      rw [List.isPrefixOf_iff_prefix]
      exact ⟨" add_date=\"0\">".data ++ (escape_bookmark_str t).map tolower ++ "</h3>\n".data,
        by simp⟩
    simp [this]
  have hlen : ¬ line.length < 0 + 7 := by
    rw [← hline]
    simp only [List.length_append, List.length_cons, String.length_data]
    have : "<DT><H3 ADD_DATE=\"0\">".length = 21 := by decide
    omega
  have hd1 : line.drop (0 + 7) =
      " ADD_DATE=\"0\"".data ++ '>' :: (escape_bookmark_str t ++ ("</H3>".data ++ ['\n'])) := by
    rw [← hline]
    rfl
  have hchr : strchr (line.drop (0 + 7)) '>' = some 13 := by
    rw [hd1]
    exact strchr_first '>' _ _ (by decide)
  have hd3 : line.drop (0 + 7 + 13 + 1) = escape_bookmark_str t ++ ("</H3>".data ++ ['\n']) := by
    rw [← hline]
    rfl
  have hname := import_name_spec env hdown hvalid st.name line (0 + 7 + 13 + 1)
    "</H3>".data "/h3>".data t (by decide) (by decide) (by decide) ht hd3
  have hname1 : (import_name env st.name line (0 + 7 + 13 + 1)
      ['<', '/', 'H', '3', '>']).2 = t := hname
  simp only [netscape_import_line, hfound1, hfound2, if_neg hlen, hchr, hname1,
    bookmarks_new_bookmark_fst]
  exact ⟨_, rfl⟩

set_option maxRecDepth 100000 in
theorem bm_export_header_unlines : bm_export_header = unlines bm_export_header_lines := by
  decide

theorem read_line_loop_first : ∀ (l r acc : List Char), '\n' ∉ l → NUL ∉ l →
    read_line_loop (l ++ '\n' :: r) acc = (acc ++ l ++ ['\n'], r) := by
  intro l
  induction l with
  | nil => intro r acc _ _; simp [read_line_loop]
  | cons c l ih =>
    intro r acc h1 h2
    have hc1 : c ≠ '\n' := fun e => h1 (by simp [e])
    have hc2 : c ≠ NUL := fun e => h2 (by simp [e])
    rw [List.cons_append, read_line_loop, if_neg hc1, if_neg hc2,
      ih r (acc ++ [c]) (fun e => h1 (by simp [e])) (fun e => h2 (by simp [e]))]
    simp

theorem bookmark_read_line_first (l r : List Char) (h1 : '\n' ∉ l) (h2 : NUL ∉ l) :
    bookmark_read_line_from_html_file (l ++ '\n' :: r) = (some (l ++ ['\n']), r) := by
  simp [bookmark_read_line_from_html_file, read_line_loop_first l r [] h1 h2]

theorem import_loop_lines (env : ImportEnv) : ∀ (ls : List (List Char)),
    (∀ l ∈ ls, '\n' ∉ l ∧ NUL ∉ l) → ∀ (fuel : Nat) (st : ImportState) (rest : List Char),
    netscape_import_loop env (ls.length + fuel) st (unlines ls ++ rest) =
      (import_lines env st ls).bind (fun st1 => netscape_import_loop env fuel st1 rest) := by
  intro ls
  induction ls with
  | nil => intro _ fuel st rest; simp [unlines, import_lines]
  | cons l ls ih =>
    intro hl fuel st rest
    obtain ⟨h1, h2⟩ := hl l (by simp)
    have e : (l :: ls).length + fuel = (ls.length + fuel) + 1 := by simp; omega
    have e2 : unlines (l :: ls) ++ rest = l ++ '\n' :: (unlines ls ++ rest) := by
      simp [unlines]
    rw [e, e2, netscape_import_loop, bookmark_read_line_first l _ h1 h2]
    simp only [import_lines, List.foldlM_cons]
    cases hs : netscape_import_line env st (l ++ ['\n']) with
    | none => rfl
    | some st1 =>
      simp only [Option.bind_eq_bind, Option.some_bind]
      exact ih (fun x hx => hl x (by simp [hx])) fuel st1 rest

theorem import_lines_append (env : ImportEnv) (st : ImportState) (a b : List (List Char)) :
    import_lines env st (a ++ b) = (import_lines env st a).bind (fun s => import_lines env s b) := by
  simp [import_lines, List.foldlM_append]

theorem import_line_plain (env : ImportEnv)
    (hdown : ∀ s : List Char, s.all (fun c => decide (c.toNat < 128)) = true →
      env.g_utf8_strdown s = s.map tolower)
    (st : ImportState) (line : List Char)
    (ha : line.all (fun c => decide (c.toNat < 128)) = true)
    (h1 : g_strrstr (line.map tolower) "<a href=".data = none)
    (h2 : g_strrstr (line.map tolower) "<dt><h3".data = none)
    (h3 : g_strrstr (line.map tolower) "</dl>".data = none)
    (h4 : g_strrstr (line.map tolower) "<hr>".data = none) :
    netscape_import_line env st line = some st := by
  have f1 : bookmark_string_strcasestr env line "<A HREF=".data = none := by
    unfold bookmark_string_strcasestr
    rw [hdown _ ha, hdown _ (by decide)]
    exact h1
  have f2 : bookmark_string_strcasestr env line "<DT><H3".data = none := by
    unfold bookmark_string_strcasestr
    rw [hdown _ ha, hdown _ (by decide)]
    exact h2
  have f3 : bookmark_string_strcasestr env line "</DL>".data = none := by
    unfold bookmark_string_strcasestr
    rw [hdown _ ha, hdown _ (by decide)]
    exact h3
  have f4 : bookmark_string_strcasestr env line "<HR>".data = none := by
    unfold bookmark_string_strcasestr
    rw [hdown _ ha, hdown _ (by decide)]
    exact h4
  simp only [netscape_import_line, f1, f2, f3, f4]

theorem import_lines_fixed (env : ImportEnv) (st : ImportState) : ∀ ls : List (List Char),
    (∀ l ∈ ls, netscape_import_line env st (l ++ ['\n']) = some st) →
    import_lines env st ls = some st := by
  intro ls
  induction ls with
  | nil => intro _; rfl
  | cons l ls ih =>
    intro h
    simp only [import_lines, List.foldlM_cons, h l (by simp), Option.bind_eq_bind,
      Option.some_bind]
    exact ih (fun x hx => h x (by simp [hx]))

theorem import_header_lines (env : ImportEnv)
    (hdown : ∀ s : List Char, s.all (fun c => decide (c.toNat < 128)) = true →
      env.g_utf8_strdown s = s.map tolower)
    (st : ImportState) : import_lines env st bm_export_header_lines = some st := by
  have h : ∀ l ∈ bm_export_header_lines, netscape_import_line env st (l ++ ['\n']) = some st := by
    intro l hl
    simp only [bm_export_header_lines, List.mem_cons, List.mem_singleton, List.not_mem_nil,
      or_false] at hl
    rcases hl with h | h | h | h | h | h | h | h | h <;> subst h <;>
      exact import_line_plain env hdown st _ (by decide) (by decide) (by decide) (by decide)
        (by decide)
  exact import_lines_fixed env st _ h

theorem import_line_open_list (env : ImportEnv)
    (hdown : ∀ s : List Char, s.all (fun c => decide (c.toNat < 128)) = true →
      env.g_utf8_strdown s = s.map tolower)
    (st : ImportState) : netscape_import_line env st ("<DL><p>".data ++ ['\n']) = some st :=
  import_line_plain env hdown st _ (by decide) (by decide) (by decide) (by decide) (by decide)

theorem import_line_close_list (env : ImportEnv)
    (hdown : ∀ s : List Char, s.all (fun c => decide (c.toNat < 128)) = true →
      env.g_utf8_strdown s = s.map tolower)
    (st : ImportState) : netscape_import_line env st ("</DL><p>".data ++ ['\n']) =
      some { st with bm_item := ((st.h.deref st.bm_item).parent).getD st.bm_item } := by
  have f1 : bookmark_string_strcasestr env ("</DL><p>".data ++ ['\n']) "<A HREF=".data = none := by
    unfold bookmark_string_strcasestr
    rw [hdown _ (by decide), hdown _ (by decide)]
    decide
  have f2 : bookmark_string_strcasestr env ("</DL><p>".data ++ ['\n']) "<DT><H3".data = none := by
    unfold bookmark_string_strcasestr
    rw [hdown _ (by decide), hdown _ (by decide)]
    decide
  have f3 : bookmark_string_strcasestr env ("</DL><p>".data ++ ['\n']) "</DL>".data = some 0 := by
    unfold bookmark_string_strcasestr
    rw [hdown _ (by decide), hdown _ (by decide)]
    decide
  simp only [netscape_import_line, f1, f2, f3]
  cases (st.h.deref st.bm_item).parent <;> rfl

mutual
theorem Mirrors_frame (lo hi lo1 hi1 : Nat) (h h1 : Heap) (parent p : Nat) (T : ItemTree)
    (hlo : lo1 ≤ lo) (hhi : hi ≤ hi1)
    (hf : ∀ q, lo ≤ q → q < hi → h1.deref q = h.deref q) (hm : Mirrors lo hi h parent p T) :
    Mirrors lo1 hi1 h1 parent p T := by
  match T with
  | .mk item children =>
    simp only [Mirrors] at hm ⊢
    obtain ⟨a, b, c, d, e, f, g⟩ := hm
    rw [hf p a b]
    exact ⟨by omega, by omega, c, d, e, f,
      MirrorsList_frame lo hi lo1 hi1 h h1 p _ children hlo hhi hf g⟩
theorem MirrorsList_frame (lo hi lo1 hi1 : Nat) (h h1 : Heap) (parent : Nat) (ps : List Nat)
    (Ts : List ItemTree) (hlo : lo1 ≤ lo) (hhi : hi ≤ hi1)
    (hf : ∀ q, lo ≤ q → q < hi → h1.deref q = h.deref q)
    (hm : MirrorsList lo hi h parent ps Ts) : MirrorsList lo1 hi1 h1 parent ps Ts := by
  match Ts, ps with
  | [], [] => trivial
  | [], _ :: _ => simp [MirrorsList] at hm
  | _ :: _, [] => simp [MirrorsList] at hm
  | T :: Ts, p :: ps =>
    simp only [MirrorsList] at hm ⊢
    exact ⟨Mirrors_frame lo hi lo1 hi1 h h1 parent p T hlo hhi hf hm.1,
      MirrorsList_frame lo hi lo1 hi1 h h1 parent ps Ts hlo hhi hf hm.2⟩
end

theorem MirrorsList_append (lo hi : Nat) (h : Heap) (parent : Nat) :
    ∀ (ps qs : List Nat) (Ts Us : List ItemTree), MirrorsList lo hi h parent ps Ts →
      MirrorsList lo hi h parent qs Us → MirrorsList lo hi h parent (ps ++ qs) (Ts ++ Us) := by
  intro ps
  induction ps with
  | nil =>
    intro qs Ts Us h1 h2
    cases Ts with
    | nil => simpa using h2
    | cons T Ts => simp [MirrorsList] at h1
  | cons p ps ih =>
    intro qs Ts Us h1 h2
    cases Ts with
    | nil => simp [MirrorsList] at h1
    | cons T Ts =>
      simp only [MirrorsList, List.cons_append] at h1 ⊢
      exact ⟨h1.1, ih qs Ts Us h1.2 h2⟩

theorem ImportPost_nil (cur : Nat) (h : Heap) : ImportPost cur [] h h :=
  ⟨Nat.le_refl _, fun _ _ _ => rfl, [], by simp, by simp [MirrorsList]⟩

theorem ImportPost_append (cur : Nat) (Ts Us : List ItemTree) (h h1 h2 : Heap)
    (hcur : cur < h.length) (p1 : ImportPost cur Ts h h1) (p2 : ImportPost cur Us h1 h2) :
    ImportPost cur (Ts ++ Us) h h2 := by
  obtain ⟨a1, b1, ps, c1, d1⟩ := p1
  obtain ⟨a2, b2, qs, c2, d2⟩ := p2
  refine ⟨by omega, ?_, ps ++ qs, ?_, ?_⟩
  · intro p hp hne
    rw [b2 p (by omega) hne, b1 p hp hne]
  · rw [c2, c1]
    simp
  · apply MirrorsList_append
    · exact MirrorsList_frame h.length h1.length h.length h2.length h1 h2 cur ps Ts
        (Nat.le_refl _) a2 (fun q hq1 hq2 => b2 q hq2 (by omega)) d1
    · exact MirrorsList_frame h1.length h2.length h.length h2.length h2 h2 cur qs Us
        a1 (Nat.le_refl _) (fun _ _ _ => rfl) d2

theorem new_link_heap (h : Heap) (cur : Nat) (hcur : cur < h.length)
    (f g a : BookmarkItem → BookmarkItem) :
    ((((h ++ [BookmarkItem.zero]).upd h.length f).upd h.length g).upd cur a).length =
      h.length + 1 ∧
    (∀ p, p < h.length → p ≠ cur →
      ((((h ++ [BookmarkItem.zero]).upd h.length f).upd h.length g).upd cur a).deref p =
        h.deref p) ∧
    ((((h ++ [BookmarkItem.zero]).upd h.length f).upd h.length g).upd cur a).deref cur =
      a (h.deref cur) ∧
    ((((h ++ [BookmarkItem.zero]).upd h.length f).upd h.length g).upd cur a).deref h.length =
      g (f BookmarkItem.zero) := by
  have hne : cur ≠ h.length := by omega
  refine ⟨by simp [Heap.length_upd], ?_, ?_, ?_⟩
  · intro p hp hpc
    have hpl : p ≠ h.length := by omega
    rw [Heap.deref_upd_other _ _ _ _ hpc, Heap.deref_upd_other _ _ _ _ hpl,
      Heap.deref_upd_other _ _ _ _ hpl, Heap.deref_append_lt _ _ _ hp]
  · rw [Heap.deref_upd_same _ _ _ (by simp [Heap.length_upd]; omega),
      Heap.deref_upd_other _ _ _ _ hne, Heap.deref_upd_other _ _ _ _ hne,
      Heap.deref_append_lt _ _ _ hcur]
  · rw [Heap.deref_upd_other _ _ _ _ (Ne.symm hne),
      Heap.deref_upd_same _ _ _ (by simp [Heap.length_upd]),
      Heap.deref_upd_same _ _ _ (by simp), Heap.deref_alloc]

theorem new_folder_heap (h : Heap) (cur : Nat) (hcur : cur < h.length)
    (f g a : BookmarkItem → BookmarkItem) :
    ((((h ++ [BookmarkItem.zero]).upd h.length f).upd cur a).upd h.length g).length =
      h.length + 1 ∧
    (∀ p, p < h.length → p ≠ cur →
      ((((h ++ [BookmarkItem.zero]).upd h.length f).upd cur a).upd h.length g).deref p =
        h.deref p) ∧
    ((((h ++ [BookmarkItem.zero]).upd h.length f).upd cur a).upd h.length g).deref cur =
      a (h.deref cur) ∧
    ((((h ++ [BookmarkItem.zero]).upd h.length f).upd cur a).upd h.length g).deref h.length =
      g (f BookmarkItem.zero) := by
  have hne : cur ≠ h.length := by omega
  refine ⟨by simp [Heap.length_upd], ?_, ?_, ?_⟩
  · intro p hp hpc
    have hpl : p ≠ h.length := by omega
    rw [Heap.deref_upd_other _ _ _ _ hpl, Heap.deref_upd_other _ _ _ _ hpc,
      Heap.deref_upd_other _ _ _ _ hpl, Heap.deref_append_lt _ _ _ hp]
  · rw [Heap.deref_upd_other _ _ _ _ hne,
      Heap.deref_upd_same _ _ _ (by simp [Heap.length_upd]; omega),
      Heap.deref_upd_other _ _ _ _ hne, Heap.deref_append_lt _ _ _ hcur]
  · rw [Heap.deref_upd_same _ _ _ (by simp [Heap.length_upd]),
      Heap.deref_upd_other _ _ _ _ (Ne.symm hne),
      Heap.deref_upd_same _ _ _ (by simp), Heap.deref_alloc]

theorem name_of_parts (name : String)
    (hsuf : name.data.drop (name.length - 3) = ".bm".data) :
    fmt_s (some (String.mk (name.data.take (name.length - 3)))) ++ "." ++ "bm" = name := by
  apply String.ext
  simp only [fmt_s, Option.getD_some, String.data_append]
  have : name.data = name.data.take (name.length - 3) ++ name.data.drop (name.length - 3) :=
    (List.take_append_drop _ _).symm
  rw [hsuf] at this
  conv_rhs => rw [this]
  simp

theorem import_link_record (env : ImportEnv)
    (hdown : ∀ s : List Char, s.all (fun c => decide (c.toNat < 128)) = true →
      env.g_utf8_strdown s = s.map tolower)
    (hvalid : ∀ s : List Char, s.all (fun c => decide (c.toNat < 128)) = true →
      env.g_utf8_validate s = true)
    (item : BookmarkItem) (hrt : round_trips (.mk item []) = true) (hlink : item.isFolder = 0)
    (st : ImportState) (hcur : st.bm_item < st.h.length) :
    ∃ st1, netscape_import_line env st (anchor_line_spec item ++ ['\n']) = some st1 ∧
      st1.bm_item = st.bm_item ∧ ImportPost st.bm_item [.mk item []] st.h st1.h := by
  simp only [round_trips, hlink, ne_eq, not_true_eq_false, if_false, Bool.and_eq_true,
    List.isEmpty_nil, and_true] at hrt
  obtain ⟨hn, hu⟩ := hrt
  cases hname : item.name with
  | none => rw [hname] at hn; simp at hn
  | some name =>
    cases hurl : item.url with
    | none => rw [hurl] at hu; simp at hu
    | some url =>
      rw [hname] at hn
      rw [hurl] at hu
      simp only [Bool.and_eq_true, decide_eq_true_eq, List.all_eq_true] at hn hu
      obtain ⟨⟨_, hsuf⟩, htitle⟩ := hn
      obtain ⟨hurlc, hhref⟩ := hu
      obtain ⟨hD1, hD2⟩ := attrs_shape item.time_added item.time_last_visited _ rfl
      have hline : anchor_line_spec item ++ ['\n'] = "\t<DT><A HREF=\"".data ++
          (url.data ++ ('"' :: (
            ((if item.time_added > 0 then
                " ADD_DATE=\"".data ++ (fmt_d item.time_added).data ++ "\"".data else []) ++
             (if item.time_last_visited > 0 then
                " LAST_VISIT=\"".data ++ (fmt_d item.time_last_visited).data ++ "\"".data
              else [])) ++
            ('>' :: (escape_bookmark_str (name.data.take (name.length - 3)) ++
              ("</A>".data ++ ['\n'])))))) := by
        simp only [anchor_line_spec, hurl, hname, Option.getD_some, hhref]
        simp [List.append_assoc]
      obtain ⟨buf, hres⟩ := import_anchor_line env hdown hvalid st url.data _
        (name.data.take (name.length - 3)) hurlc hD1 hD2 htitle
      rw [hline, hres]
      refine ⟨_, rfl, rfl, ?_⟩
      have hheap := fun f g a => new_link_heap st.h st.bm_item hcur f g a
      refine ⟨?_, ?_, [st.h.length], ?_, ?_⟩
      · show st.h.length ≤ _
        simp only [bookmarks_new_bookmark, create_bookmark_new]
        rw [(hheap _ _ _).1]
        omega
      · intro p hp hpc
        simp only [bookmarks_new_bookmark, create_bookmark_new]
        exact (hheap _ _ _).2.1 p hp hpc
      · simp only [bookmarks_new_bookmark, create_bookmark_new]
        exact (hheap _ _ _).2.2.1
      · simp only [bookmarks_new_bookmark, create_bookmark_new, MirrorsList, Mirrors]
        rw [(hheap _ _ _).1, (hheap _ _ _).2.2.2]
        refine ⟨⟨Nat.le_refl _, by omega, ?_, ?_, ?_, rfl, trivial⟩, trivial⟩
        · simp [hlink]
        · simp only [ne_eq, one_ne_zero, not_false_eq_true, if_true, hname]
          rw [name_of_parts name hsuf]
        · simp [hurl]

theorem import_header_line_post (env : ImportEnv)
    (hdown : ∀ s : List Char, s.all (fun c => decide (c.toNat < 128)) = true →
      env.g_utf8_strdown s = s.map tolower)
    (hvalid : ∀ s : List Char, s.all (fun c => decide (c.toNat < 128)) = true →
      env.g_utf8_validate s = true)
    (st : ImportState) (t : List Char) (ht : ∀ c ∈ t, title_char c = true)
    (hcur : st.bm_item < st.h.length) :
    ∃ sta, netscape_import_line env st ("<DT><H3 ADD_DATE=\"0\">".data ++
        (escape_bookmark_str t ++ ("</H3>".data ++ ['\n']))) = some sta ∧
      sta.bm_item = st.h.length ∧ sta.h.length = st.h.length + 1 ∧
      (∀ p, p < st.h.length → p ≠ st.bm_item → sta.h.deref p = st.h.deref p) ∧
      sta.h.deref st.bm_item =
        { st.h.deref st.bm_item with list := (st.h.deref st.bm_item).list ++ [st.h.length] } ∧
      (sta.h.deref st.h.length).isFolder = 1 ∧
      (sta.h.deref st.h.length).name = some (String.mk t) ∧
      (sta.h.deref st.h.length).url = none ∧
      (sta.h.deref st.h.length).parent = some st.bm_item ∧
      (sta.h.deref st.h.length).list = [] := by
  obtain ⟨buf, hres⟩ := import_header_line env hdown hvalid st t ht
  have hheap := fun f g a => new_folder_heap st.h st.bm_item hcur f g a
  refine ⟨_, hres, rfl, ?_, ?_, ?_, ?_⟩
  · simp only [bookmarks_new_bookmark, create_bookmark_new]
    exact (hheap _ _ _).1
  · intro p hp hpc
    simp only [bookmarks_new_bookmark, create_bookmark_new]
    exact (hheap _ _ _).2.1 p hp hpc
  · simp only [bookmarks_new_bookmark, create_bookmark_new]
    exact (hheap _ _ _).2.2.1
  · simp only [bookmarks_new_bookmark, create_bookmark_new]
    rw [(hheap _ _ _).2.2.2]
    simp

mutual
theorem import_record (env : ImportEnv)
    (hdown : ∀ s : List Char, s.all (fun c => decide (c.toNat < 128)) = true →
      env.g_utf8_strdown s = s.map tolower)
    (hvalid : ∀ s : List Char, s.all (fun c => decide (c.toNat < 128)) = true →
      env.g_utf8_validate s = true)
    (T : ItemTree) (hrt : round_trips T = true) (st : ImportState)
    (hcur : st.bm_item < st.h.length) :
    ∃ st1, import_lines env st (record_spec none T) = some st1 ∧
      st1.bm_item = st.bm_item ∧ ImportPost st.bm_item [T] st.h st1.h := by
  match T with
  | .mk item children =>
    by_cases hf : item.isFolder = 0
    · have hch : children = [] := by
        simp only [round_trips, hf, ne_eq, not_true_eq_false, if_false, Bool.and_eq_true,
          List.isEmpty_iff] at hrt
        exact hrt.2
      subst hch
      obtain ⟨st1, h1, h2, h3⟩ := import_link_record env hdown hvalid item hrt hf st hcur
      refine ⟨st1, ?_, h2, h3⟩
      simp only [record_spec, hf, ne_eq, not_true_eq_false, if_false, import_lines,
        List.foldlM_cons, List.foldlM_nil, h1]
      rfl
    · have hrt1 := hrt
      simp only [round_trips, ne_eq, hf, not_false_eq_true, if_true, Bool.and_eq_true] at hrt1
      obtain ⟨⟨hn, hu⟩, hchildren⟩ := hrt1
      cases hname : item.name with
      | none => rw [hname] at hn; simp at hn
      | some name =>
        rw [hname] at hn
        simp only [List.all_eq_true] at hn
        have hurl : item.url = none := by
          cases hx : item.url with
          | none => rfl
          | some u => rw [hx] at hu; simp at hu
        obtain ⟨sta, hres, hsta_item, hsta_len, hsta_frame, hsta_cur, hsta_new⟩ :=
          import_header_line_post env hdown hvalid st name.data hn hcur
        have hline : ("<DT><H3 ADD_DATE=\"0\">".data ++ folder_title_spec none item ++
            "</H3>".data) ++ ['\n'] = "<DT><H3 ADD_DATE=\"0\">".data ++
            (escape_bookmark_str name.data ++ ("</H3>".data ++ ['\n'])) := by
          simp [folder_title_spec, hname, List.append_assoc]
        obtain ⟨stb, hb1, hb2, hb3, hb4, psb, hb5, hb6⟩ :=
          import_records env hdown hvalid children hchildren sta (by rw [hsta_item, hsta_len]; omega)
        rw [hsta_item] at hb2 hb4 hb5 hb6
        rw [hsta_len] at hb3 hb4 hb6
        have hbL : stb.h.deref st.h.length =
            { sta.h.deref st.h.length with list := (sta.h.deref st.h.length).list ++ psb } := hb5
        have hclose : netscape_import_line env stb ("</DL><p>".data ++ ['\n']) =
            some { stb with bm_item := st.bm_item } := by
          rw [import_line_close_list env hdown stb, hb2, hbL]
          simp [hsta_new.2.2.2.1]
        refine ⟨{ stb with bm_item := st.bm_item }, ?_, rfl, ?_⟩
        · simp only [record_spec, ne_eq, hf, not_false_eq_true, if_true, import_lines,
            List.foldlM_cons]
          rw [hline, hres]
          simp only [Option.bind_eq_bind, Option.some_bind]
          rw [import_line_open_list env hdown sta]
          simp only [Option.some_bind]
          have := import_lines_append env sta (records_spec children) ["</DL><p>".data]
          simp only [import_lines] at this hb1
          rw [this, hb1]
          simp only [Option.some_bind, List.foldlM_cons, List.foldlM_nil, hclose]
          rfl
        · refine ⟨by show st.h.length ≤ stb.h.length; omega, ?_, [st.h.length], ?_, ?_⟩
          · intro p hp hpc
            show stb.h.deref p = st.h.deref p
            rw [hb4 p (by omega) (by omega), hsta_frame p hp hpc]
          · show stb.h.deref st.bm_item = _
            rw [hb4 st.bm_item (by omega) (by omega), hsta_cur]
          · show MirrorsList st.h.length stb.h.length stb.h st.bm_item [st.h.length] _
            simp only [MirrorsList, Mirrors, and_true]
            rw [hbL]
            refine ⟨Nat.le_refl _, by omega, ?_, ?_, ?_, ?_, ?_⟩
            · simp [hsta_new.1, hf]
            · simp [hsta_new.2.1, hname]
            · simp [hsta_new.2.2.1, hurl]
            · simp [hsta_new.2.2.2.1]
            · simp only [hsta_new.2.2.2.2, List.nil_append]
              exact MirrorsList_frame (st.h.length + 1) stb.h.length st.h.length stb.h.length
                stb.h stb.h st.h.length psb children (by omega) (Nat.le_refl _)
                (fun _ _ _ => rfl) hb6
theorem import_records (env : ImportEnv)
    (hdown : ∀ s : List Char, s.all (fun c => decide (c.toNat < 128)) = true →
      env.g_utf8_strdown s = s.map tolower)
    (hvalid : ∀ s : List Char, s.all (fun c => decide (c.toNat < 128)) = true →
      env.g_utf8_validate s = true)
    (Ts : List ItemTree) (hrt : round_trips_list Ts = true) (st : ImportState)
    (hcur : st.bm_item < st.h.length) :
    ∃ st1, import_lines env st (records_spec Ts) = some st1 ∧
      st1.bm_item = st.bm_item ∧ ImportPost st.bm_item Ts st.h st1.h := by
  match Ts with
  | [] => exact ⟨st, rfl, rfl, ImportPost_nil _ _⟩
  | T :: Ts =>
    simp only [round_trips_list, Bool.and_eq_true] at hrt
    obtain ⟨st1, a1, a2, a3⟩ := import_record env hdown hvalid T hrt.1 st hcur
    obtain ⟨st2, b1, b2, b3⟩ := import_records env hdown hvalid Ts hrt.2 st1
      (by rw [a2]; exact Nat.lt_of_lt_of_le hcur a3.1)
    refine ⟨st2, ?_, by rw [b2, a2], ?_⟩
    · simp only [records_spec]
      rw [import_lines_append, a1]
      exact b1
    · rw [a2] at b3
      exact ImportPost_append st.bm_item [T] Ts st.h st1.h st2.h hcur a3 b3
end

mutual
theorem round_trips_well_formed (T : ItemTree) (hrt : round_trips T = true) :
    well_formed T = true := by
  match T with
  | .mk item children =>
    by_cases hf : item.isFolder = 0
    · simp only [round_trips, hf, ne_eq, not_true_eq_false, if_false, Bool.and_eq_true,
        List.isEmpty_iff] at hrt
      obtain ⟨⟨hn, hu⟩, hch⟩ := hrt
      subst hch
      simp only [well_formed, hf, ne_eq, not_true_eq_false, if_false, Bool.and_eq_true,
        well_formed_list, and_true]
      constructor
      · cases hx : item.url with
        | none => rw [hx] at hu; simp at hu
        | some u => rfl
      · cases hx : item.name with
        | none => rw [hx] at hn; simp at hn
        | some name =>
          rw [hx] at hn
          simp only [Bool.and_eq_true, decide_eq_true_eq] at hn
          simp [hn.1.1]
    · simp only [round_trips, ne_eq, hf, not_false_eq_true, if_true, Bool.and_eq_true] at hrt
      obtain ⟨⟨hn, _⟩, hch⟩ := hrt
      simp only [well_formed, ne_eq, hf, not_false_eq_true, if_true, Bool.and_eq_true]
      refine ⟨?_, round_trips_list_well_formed children hch⟩
      cases hx : item.name with
      | none => rw [hx] at hn; simp at hn
      | some name => rfl
theorem round_trips_list_well_formed (Ts : List ItemTree) (hrt : round_trips_list Ts = true) :
    well_formed_list Ts = true := by
  match Ts with
  | [] => rfl
  | T :: Ts =>
    simp only [round_trips_list, Bool.and_eq_true] at hrt
    simp only [well_formed_list, Bool.and_eq_true]
    exact ⟨round_trips_well_formed T hrt.1, round_trips_list_well_formed Ts hrt.2⟩
end

theorem escape_line_ok (t : List Char) (ht : ∀ c ∈ t, title_char c = true) :
    ∀ c ∈ escape_bookmark_str t, c ≠ '\n' ∧ c ≠ NUL :=
  escape_all (fun c => c ≠ '\n' ∧ c ≠ NUL) (by decide) t
    (fun c hc _ _ _ _ _ => by
      have := ht c hc
      simp only [title_char, Bool.and_eq_true, bne_iff_ne, ne_eq] at this
      exact ⟨this.1.2, this.1.1.2⟩)

mutual
theorem record_lines_ok (T : ItemTree) (hrt : round_trips T = true) :
    ∀ l ∈ record_spec none T, '\n' ∉ l ∧ NUL ∉ l := by
  match T with
  | .mk item children =>
    by_cases hf : item.isFolder = 0
    · simp only [round_trips, hf, ne_eq, not_true_eq_false, if_false, Bool.and_eq_true,
        List.isEmpty_iff] at hrt
      obtain ⟨⟨hn, hu⟩, _⟩ := hrt
      cases hname : item.name with
      | none => rw [hname] at hn; simp at hn
      | some name =>
        cases hurl : item.url with
        | none => rw [hurl] at hu; simp at hu
        | some url =>
          rw [hname] at hn
          rw [hurl] at hu
          simp only [Bool.and_eq_true, decide_eq_true_eq, List.all_eq_true] at hn hu
          obtain ⟨_, hD2⟩ := attrs_shape item.time_added item.time_last_visited _ rfl
          have hE := escape_line_ok _ hn.2
          have hall : ∀ c ∈ anchor_line_spec item, c ≠ '\n' ∧ c ≠ NUL := by
            intro c hc
            simp only [anchor_line_spec, hurl, hname, Option.getD_some, hu.2,
              List.append_assoc, List.mem_append] at hc
            rcases hc with hc | hc | hc | hc | hc | hc | hc | hc
            · revert c; decide
            · have := hu.1 c hc
              simp only [url_char, Bool.and_eq_true, bne_iff_ne, ne_eq] at this
              exact ⟨this.1.1.2, this.1.1.1.2⟩
            · revert c; decide
            · have := hD2 c (List.mem_append_left _ hc)
              exact ⟨this.2.2.1, this.2.1⟩
            · have := hD2 c (List.mem_append_right _ hc)
              exact ⟨this.2.2.1, this.2.1⟩
            · revert c; decide
            · exact hE c hc
            · revert c; decide
          intro l hl
          simp only [record_spec, hf, ne_eq, not_true_eq_false, if_false,
            List.mem_singleton] at hl
          subst hl
          exact ⟨fun hm => (hall _ hm).1 rfl, fun hm => (hall _ hm).2 rfl⟩
    · have hrt1 := hrt
      simp only [round_trips, ne_eq, hf, not_false_eq_true, if_true, Bool.and_eq_true] at hrt1
      obtain ⟨⟨hn, _⟩, hch⟩ := hrt1
      cases hname : item.name with
      | none => rw [hname] at hn; simp at hn
      | some name =>
        rw [hname] at hn
        simp only [List.all_eq_true] at hn
        have hE := escape_line_ok _ hn
        intro l hl
        simp only [record_spec, ne_eq, hf, not_false_eq_true, if_true, List.mem_cons,
          List.mem_append, List.mem_singleton, List.not_mem_nil, or_false] at hl
        rcases hl with hl | hl | hl | hl
        · subst hl
          have hall : ∀ c ∈ "<DT><H3 ADD_DATE=\"0\">".data ++ folder_title_spec none item ++
              "</H3>".data, c ≠ '\n' ∧ c ≠ NUL := by
            intro c hc
            simp only [folder_title_spec, hname, Option.getD_some, List.mem_append] at hc
            rcases hc with (hc | hc) | hc
            · revert c; decide
            · exact hE c hc
            · revert c; decide
          exact ⟨fun hm => (hall _ hm).1 rfl, fun hm => (hall _ hm).2 rfl⟩
        · subst hl; decide
        · exact records_lines_ok children hch l hl
        · subst hl; decide
theorem records_lines_ok (Ts : List ItemTree) (hrt : round_trips_list Ts = true) :
    ∀ l ∈ records_spec Ts, '\n' ∉ l ∧ NUL ∉ l := by
  match Ts with
  | [] => intro l hl; simp [records_spec] at hl
  | T :: Ts =>
    simp only [round_trips_list, Bool.and_eq_true] at hrt
    intro l hl
    simp only [records_spec, List.mem_append] at hl
    rcases hl with hl | hl
    · exact record_lines_ok T hrt.1 l hl
    · exact records_lines_ok Ts hrt.2 l hl
end

theorem unlines_length (ls : List (List Char)) : ls.length ≤ (unlines ls).length := by
  induction ls with
  | nil => simp [unlines]
  | cons l ls ih => simp [unlines]; omega

theorem import_loop_end (env : ImportEnv) (fuel : Nat) (st : ImportState) :
    netscape_import_loop env (fuel + 1) st [] = some st := rfl

/-- C22: for trees `Ts` that the heap holds and that satisfy `round_trips`
(names of ASCII bytes without `NUL`, line feed and carriage return, link names
ending in `.bm`, urls of ASCII bytes without `NUL`, line feed, `"` and `<`
that the exporter writes unchanged, folders without url and links without
children), and for glib functions that lower-case and validate ASCII text as
such: `__netscape_export_bookmarks` with `bm_parent_name` `NULL` writes a text,
and `netscape_import_bookmarks` on that text returns a new folder without
parent, named `importFolderName`, whose children mirror `Ts`: same kind, same
name, same url, same order of children, at every level. -/
theorem netscape_import_of_export_mirrors (env : ImportEnv) (h0 : Heap) (roots : List Nat)
    (Ts : List ItemTree) (fuel : Nat) (importFolderName : Option String) (h : Heap)
    (hdown : ∀ s : List Char, s.all (fun c => decide (c.toNat < 128)) = true →
      env.g_utf8_strdown s = s.map tolower)
    (hvalid : ∀ s : List Char, s.all (fun c => decide (c.toNat < 128)) = true →
      env.g_utf8_validate s = true)
    (hrep : RepresentsList h0 roots Ts) (hrt : round_trips_list Ts = true)
    (hfuel : depth_list Ts ≤ fuel) :
    ∃ text h1,
      __netscape_export_bookmarks fuel true true h0 roots none = some (true, some text) ∧
      netscape_import_bookmarks env (some text) importFolderName h = some (some h.length, h1) ∧
      (h1.deref h.length).isFolder = 1 ∧ (h1.deref h.length).name = importFolderName ∧
      (h1.deref h.length).parent = none ∧
      MirrorsList (h.length + 1) h1.length h1 h.length (h1.deref h.length).list Ts := by
  have hexp : __netscape_export_bookmarks fuel true true h0 roots none =
      some (true, some (bm_export_header ++ unlines (records_spec Ts) ++ "</DL><p>\n".data)) := by
    simp only [__netscape_export_bookmarks]
    rw [export_list_lines Ts h0 roots _ fuel (round_trips_list_well_formed Ts hrt) hrep hfuel]
    rfl
  have htext : bm_export_header ++ unlines (records_spec Ts) ++ "</DL><p>\n".data =
      unlines (bm_export_header_lines ++ (records_spec Ts ++ ["</DL><p>".data])) ++ [] := by
    have e : unlines ["</DL><p>".data] = "</DL><p>\n".data := by decide
    rw [unlines_append, unlines_append, bm_export_header_unlines, e, List.append_nil,
      List.append_assoc]
  have hok : ∀ l ∈ bm_export_header_lines ++ (records_spec Ts ++ ["</DL><p>".data]),
      '\n' ∉ l ∧ NUL ∉ l := by
    intro l hl
    simp only [List.mem_append, List.mem_singleton] at hl
    rcases hl with hl | hl | hl
    · revert l; decide
    · exact records_lines_ok Ts hrt l hl
    · subst hl; decide
  generalize hst0 : ImportState.mk
      (bookmarks_new_bookmark (env.time h.length) h 0 importFolderName none 0).2
      (bookmarks_new_bookmark (env.time h.length) h 0 importFolderName none 0).1 [] = st0
  have h0item : st0.bm_item = h.length := by rw [← hst0]; rfl
  have h0len : st0.h.length = h.length + 1 := by
    rw [← hst0]
    simp [bookmarks_new_bookmark, create_bookmark_new, Heap.length_upd]
  have h0new : (st0.h.deref h.length).isFolder = 1 ∧
      (st0.h.deref h.length).name = importFolderName ∧
      (st0.h.deref h.length).parent = none ∧ (st0.h.deref h.length).list = [] := by
    rw [← hst0]
    simp only [bookmarks_new_bookmark, create_bookmark_new]
    rw [Heap.deref_upd_same _ _ _ (by simp), Heap.deref_alloc]
    simp
  obtain ⟨st1, a1, a2, a3, a4, ps, a5, a6⟩ := import_records env hdown hvalid Ts hrt st0
    (by rw [h0item, h0len]; omega)
  rw [h0item] at a2 a4 a5 a6
  rw [h0len] at a3 a4 a6
  have a5L : st1.h.deref h.length =
      { st0.h.deref h.length with list := (st0.h.deref h.length).list ++ ps } := a5
  have hclose : netscape_import_line env st1 ("</DL><p>".data ++ ['\n']) = some st1 := by
    rw [import_line_close_list env hdown st1, a2, a5L]
    simp only [h0new.2.2.1, Option.getD_none]
    rw [← a2]
  have hlines : import_lines env st0
      (bm_export_header_lines ++ (records_spec Ts ++ ["</DL><p>".data])) = some st1 := by
    rw [import_lines_append, import_header_lines env hdown st0]
    simp only [Option.bind_eq_bind, Option.some_bind]
    rw [import_lines_append, a1]
    simp only [Option.some_bind, import_lines, List.foldlM_cons, List.foldlM_nil, hclose]
    rfl
  refine ⟨_, st1.h, hexp, ?_, ?_, ?_, ?_, ?_⟩
  · simp only [netscape_import_bookmarks]
    rw [hst0, htext]
    have hle := unlines_length (bm_export_header_lines ++ (records_spec Ts ++ ["</DL><p>".data]))
    generalize hls : bm_export_header_lines ++ (records_spec Ts ++ ["</DL><p>".data]) = ls
      at hle hlines hok
    have hfu : (unlines ls ++ []).length + 1 =
        ls.length + (((unlines ls).length - ls.length) + 1) := by
      simp only [List.append_nil]
      omega
    rw [hfu, import_loop_lines env ls hok, hlines]
    simp only [Option.bind_eq_bind, Option.some_bind, import_loop_end, a2]
  · rw [a5L]; exact h0new.1
  · rw [a5L]; exact h0new.2.1
  · rw [a5L]; exact h0new.2.2.1
  · rw [a5L]
    simp only [h0new.2.2.2, List.nil_append]
    exact a6

set_option maxRecDepth 100000 in
theorem netscape_import_of_export_mirrors_witness :
    (__netscape_export_bookmarks 2 true true heap_round_trip [1, 3] none).bind
      (fun r => r.2.bind (fun text =>
        (netscape_import_bookmarks (ascii_env 7) (some text) (some "imp") []).map
          (fun r => r.2.map (fun it => (it.isFolder, it.name, it.url, it.list, it.parent))))) =
      some [(1, some "imp", none, [1, 3], none), (1, some "F<1>", none, [2], some 0),
        (0, some "a&b.bm", some "http://a.com/?q=1>2", [], some 1),
        (0, some "c.bm", some "/srv/x", [], some 0)] ∧
    RepresentsList heap_round_trip [1, 3] trees_round_trip ∧
    round_trips_list trees_round_trip = true ∧
    ∃ text h1,
      __netscape_export_bookmarks 2 true true heap_round_trip [1, 3] none =
        some (true, some text) ∧
      netscape_import_bookmarks (ascii_env 7) (some text) (some "imp") [] =
        some (some ([] : Heap).length, h1) ∧
      (h1.deref ([] : Heap).length).isFolder = 1 ∧
      (h1.deref ([] : Heap).length).name = some "imp" ∧
      (h1.deref ([] : Heap).length).parent = none ∧
      MirrorsList (([] : Heap).length + 1) h1.length h1 ([] : Heap).length
        (h1.deref ([] : Heap).length).list trees_round_trip :=
  ⟨rfl, ⟨⟨rfl, ⟨rfl, trivial⟩, trivial⟩, ⟨rfl, trivial⟩, trivial⟩, by decide,
    netscape_import_of_export_mirrors (ascii_env 7) heap_round_trip [1, 3] trees_round_trip 2
      (some "imp") [] (fun _ _ => rfl) (fun _ hs => hs)
      ⟨⟨rfl, ⟨rfl, trivial⟩, trivial⟩, ⟨rfl, trivial⟩, trivial⟩ (by decide) (by decide)⟩

set_option maxRecDepth 100000 in
/-- C22 (counterexample): the link `a.bm` of `heap_bare_url` has the url
`example.com`, which has no line terminator; the exporter writes
`http://example.com` as `HREF`, and the link that the importer makes from the
text has the url `http://example.com`, not `example.com`. -/
theorem netscape_import_of_export_changes_bare_url :
    (heap_bare_url.deref 1).name = some "a.bm" ∧
    (heap_bare_url.deref 1).url = some "example.com" ∧
    __netscape_export_bookmarks 1 true true heap_bare_url [1] none =
      some (true, some (bm_export_header ++
        "\t<DT><A HREF=\"http://example.com\">a</A>\n</DL><p>\n".data)) ∧
    (netscape_import_bookmarks (ascii_env 1) (some (bm_export_header ++
        "\t<DT><A HREF=\"http://example.com\">a</A>\n</DL><p>\n".data)) (some "imp") []).map
      (fun r => (r.1, (r.2.deref 0).list, (r.2.deref 1).isFolder, (r.2.deref 1).name,
        (r.2.deref 1).url)) =
      some (some 0, [1], 0, some "a.bm", some "http://example.com") := by
  refine ⟨rfl, rfl, rfl, rfl⟩

end OssoBookmark
